import Mathlib

/-!
Verification development for the EasySSHTunnelManager core
(`easy_ssh_tunnel.py`): the SSH command codec (`SSHCommandParser`),
the process supervisor (`SSHTunnelManager`) and the batch importer
(`on_import_command`).

Python strings are modelled as `List Char`.  The regular expressions of
the source are modelled as explicit character scans; since
`parse_ssh_command` first collapses all whitespace runs to single
spaces, `\s+` inside the patterns always matches exactly one space on
the scanned text, which the matchers below rely on.
-/

namespace EasySSH

abbrev PyStr := List Char

abbrev Triple := PyStr × PyStr × PyStr

/-- Python `str.isspace` characters relevant here (ASCII whitespace). -/
def isWs (c : Char) : Bool :=
  c = ' ' || c = '\t' || c = '\n' || c = '\r' || c = '\x0B' || c = '\x0C'

def notWs (c : Char) : Bool := !(isWs c)

/-- the regex class `\d` (ASCII digits). -/
def isDigit (c : Char) : Bool := '0' ≤ c && c ≤ '9'

/-- the regex class `[^:\s]` used for the forward host. -/
def hostChar (c : Char) : Bool := !(c = ':') && notWs c

/-- the regex class `[^\s@]` used for the user part of `user@host`. -/
def uhUserChar (c : Char) : Bool := notWs c && !(c = '@')

/-- Python `str.split()` (split on whitespace runs, dropping empties),
implemented with a fuel argument for structural recursion;
`splitWs` instantiates the fuel with the length of the input. -/
def splitWsGo : Nat → List Char → List PyStr
  | 0, _ => []
  | _, [] => []
  | fuel + 1, c :: rest =>
      if isWs c then splitWsGo fuel rest
      else (c :: rest.takeWhile notWs) :: splitWsGo fuel (rest.dropWhile notWs)

def splitWs (l : List Char) : List PyStr := splitWsGo l.length l

/-- Python `' '.join(ws)`. -/
def joinSpace : List PyStr → PyStr
  | [] => []
  | [w] => w
  | w :: rest => w ++ ' ' :: joinSpace rest

/-- `' '.join(command.split())` — the whitespace normalization at the top
of `parse_ssh_command`. -/
def pyNormalize (l : List Char) : List Char := joinSpace (splitWs l)

/-- One attempt of the pattern `-X\s+(\d+):([^:\s]+):(\d+)` at the head of
`l` (on whitespace-normalized text, `\s+` is one space).  Greedy `(\d+)`
and `([^:\s]+)` are maximal runs: shorter runs can never satisfy the
following literal `:`, so maximal-run matching is exact.  Returns the
three groups and the rest of the text after the match. -/
def tryTriple (flag : Char) (l : List Char) : Option (Triple × List Char) :=
  match l with
  | a :: b :: c :: rest =>
      if a = '-' ∧ b = flag ∧ c = ' ' then
        match rest.dropWhile isDigit with
        | x :: r2 =>
            if rest.takeWhile isDigit ≠ [] ∧ x = ':' then
              match r2.dropWhile hostChar with
              | y :: r4 =>
                  if r2.takeWhile hostChar ≠ [] ∧ y = ':' then
                    if r4.takeWhile isDigit ≠ [] then
                      some ((rest.takeWhile isDigit, r2.takeWhile hostChar,
                             r4.takeWhile isDigit), r4.dropWhile isDigit)
                    else none
                  else none
              | [] => none
            else none
        | [] => none
      else none
  | _ => none

/-- `re.findall` for the triple pattern: left-to-right, non-overlapping,
advancing one character on failure (fuel-based; each step consumes at
least one character so `l.length` fuel suffices). -/
def scanTriplesGo (flag : Char) : Nat → List Char → List Triple
  | 0, _ => []
  | fuel + 1, l =>
      match tryTriple flag l with
      | some (t, rest) => t :: scanTriplesGo flag fuel rest
      | none =>
          match l with
          | [] => []
          | _ :: tl => scanTriplesGo flag fuel tl

def scanTriples (flag : Char) (l : List Char) : List Triple :=
  scanTriplesGo flag l.length l

/-- One attempt of the pattern `-X\s+(\d+)` at the head of `l`. -/
def tryFlagNum (flag : Char) (l : List Char) : Option PyStr :=
  match l with
  | a :: b :: c :: rest =>
      if a = '-' ∧ b = flag ∧ c = ' ' then
        let d := rest.takeWhile isDigit
        if d = [] then none else some d
      else none
  | _ => none

/-- `re.search` for `-X\s+(\d+)`: first match, scanning left to right. -/
def findFlagNum (flag : Char) : List Char → Option PyStr
  | [] => none
  | c :: rest =>
      match tryFlagNum flag (c :: rest) with
      | some d => some d
      | none => findFlagNum flag rest

/-- The pattern `([^\s@]+)@([^\s]+?)(?:\s|$)` applied at one position:
user is the maximal `[^\s@]` run (backtracking cannot help: a shorter
run leaves a class character, not `@`); the lazy host expands until the
next whitespace or the end, i.e. the maximal `[^\s]` run, after which
the `(?:\s|$)` boundary always holds. -/
def matchUH (l : List Char) : Option (PyStr × PyStr) :=
  let u := l.takeWhile uhUserChar
  let r1 := l.dropWhile uhUserChar
  if u = [] then none
  else
    match r1 with
    | '@' :: r2 =>
        let h := r2.takeWhile notWs
        if h = [] then none else some (u, h)
    | _ => none

/-- Scanning part of `re.search` for
`(?:^|\s)([^\s@]+)@([^\s]+?)(?:\s|$)`: try the `\s` alternative after
every whitespace character, left to right. -/
def findUserHostAux : List Char → Option (PyStr × PyStr)
  | [] => none
  | c :: rest =>
      if isWs c then
        match matchUH rest with
        | some r => some r
        | none => findUserHostAux rest
      else findUserHostAux rest

/-- `re.search(r'(?:^|\s)([^\s@]+)@([^\s]+?)(?:\s|$)', l)`: the `^`
alternative at position 0, then the `\s` alternative at each later
position. -/
def findUserHost (l : List Char) : Option (PyStr × PyStr) :=
  match matchUH l with
  | some r => some r
  | none => findUserHostAux l

/-- One port-forward entry.  The Python source stores forwards as dicts
with keys `local_port`, `remote_host`, `remote_port` for both `-L` and
`-R` tunnels (only the insertion order differs), so a single structure
models both. -/
structure ForwardSpec where
  local_port : PyStr
  remote_host : PyStr
  remote_port : PyStr
deriving DecidableEq

/-- The tunnel-configuration dict built by `parse_ssh_command` (all keys
are always present there, so total fields are faithful). -/
structure Config where
  type : PyStr
  ssh_port : PyStr
  local_port : PyStr
  remote_host : PyStr
  remote_port : PyStr
  ssh_user : PyStr
  ssh_host : PyStr
  name : PyStr
  forwards : List ForwardSpec
deriving DecidableEq

def mkLocalForward (m : Triple) : ForwardSpec :=
  { local_port := m.1, remote_host := m.2.1, remote_port := m.2.2 }

def mkRemoteForward (m : Triple) : ForwardSpec :=
  { remote_port := m.1, remote_host := m.2.1, local_port := m.2.2 }

/-- The `-L` block of `parse_ssh_command` (lines 179–198): a single
match fills the legacy scalar fields; two or more matches fill
`forwards` and mirror the first local port. -/
def applyLocal (c : Config) (ms : List Triple) : Config :=
  match ms with
  | [] => c
  | m :: rest =>
      match rest with
      | [] =>
          { c with type := "local".toList, local_port := m.1,
                   remote_host := m.2.1, remote_port := m.2.2 }
      | _ =>
          { c with type := "local".toList,
                   forwards := (m :: rest).map mkLocalForward,
                   local_port := m.1 }

/-- The `-R` block of `parse_ssh_command` (lines 200–219). -/
def applyRemote (c : Config) (ms : List Triple) : Config :=
  match ms with
  | [] => c
  | m :: rest =>
      match rest with
      | [] =>
          { c with type := "remote".toList, remote_port := m.1,
                   remote_host := m.2.1, local_port := m.2.2 }
      | _ =>
          { c with type := "remote".toList,
                   forwards := (m :: rest).map mkRemoteForward,
                   remote_port := m.1 }

def natStr (n : Nat) : PyStr := (toString n).toList

/-- Default-name generation of `parse_ssh_command` (lines 241–255). -/
def genName (c : Config) : PyStr :=
  if c.type = "local".toList then
    if c.forwards ≠ [] then
      c.ssh_host ++ "_L".toList ++ natStr c.forwards.length ++ "x".toList
    else c.ssh_host ++ "_L".toList ++ c.local_port
  else if c.type = "remote".toList then
    if c.forwards ≠ [] then
      c.ssh_host ++ "_R".toList ++ natStr c.forwards.length ++ "x".toList
    else c.ssh_host ++ "_R".toList ++ c.remote_port
  else c.ssh_host ++ "_D".toList ++ c.local_port

/-- `SSHCommandParser.parse_ssh_command` (lines 149–257). -/
def parse_ssh_command (command : PyStr) : Except PyStr Config :=
  let cmd := pyNormalize command
  if ("ssh".toList).isPrefixOf cmd then
    let c0 : Config :=
      { type := "local".toList, ssh_port := "22".toList, local_port := [],
        remote_host := "localhost".toList, remote_port := [],
        ssh_user := [], ssh_host := [], name := [], forwards := [] }
    let c1 := applyLocal c0 (scanTriples 'L' cmd)
    let c2 := applyRemote c1 (scanTriples 'R' cmd)
    let c3 :=
      match findFlagNum 'D' cmd with
      | some p => { c2 with type := "dynamic".toList, local_port := p }
      | none => c2
    let c4 :=
      match findFlagNum 'p' cmd with
      | some p => { c3 with ssh_port := p }
      | none => c3
    match findUserHost cmd with
    | none => Except.error ("Could not find user@host in command".toList)
    | some (u, h) =>
        let c5 := { c4 with ssh_user := u, ssh_host := h }
        Except.ok { c5 with name := genName c5 }
  else Except.error ("Command must start with 'ssh'".toList)

/-- `f"{local_port}:{remote_host}:{remote_port}"` for a `-L` flag. -/
def lspec (f : ForwardSpec) : PyStr :=
  f.local_port ++ ":".toList ++ f.remote_host ++ ":".toList ++ f.remote_port

/-- `f"{remote_port}:{remote_host}:{local_port}"` for a `-R` flag. -/
def rspec (f : ForwardSpec) : PyStr :=
  f.remote_port ++ ":".toList ++ f.remote_host ++ ":".toList ++ f.local_port

/-- The legacy single-forward `-L` tunnel spec from the scalar fields. -/
def legacyLspec (c : Config) : PyStr :=
  c.local_port ++ ":".toList ++ c.remote_host ++ ":".toList ++ c.remote_port

/-- The legacy single-forward `-R` tunnel spec from the scalar fields. -/
def legacyRspec (c : Config) : PyStr :=
  c.remote_port ++ ":".toList ++ c.remote_host ++ ":".toList ++ c.local_port

/-- `SSHCommandParser.export_to_command` (lines 259–315). -/
def export_to_command (config : Config) : PyStr :=
  let mid :=
    if config.type = "local".toList then
      if config.forwards ≠ [] then
        (config.forwards.map fun f => " -L ".toList ++ lspec f).flatten
      else " -L ".toList ++ legacyLspec config
    else if config.type = "remote".toList then
      if config.forwards ≠ [] then
        (config.forwards.map fun f => " -R ".toList ++ rspec f).flatten
      else " -R ".toList ++ legacyRspec config
    else " -D ".toList ++ config.local_port
  let pport :=
    if config.ssh_port ≠ "22".toList then " -p ".toList ++ config.ssh_port
    else []
  "ssh -N".toList ++ mid ++ pport ++ " ".toList ++ config.ssh_user ++
    "@".toList ++ config.ssh_host

/-- The per-type middle of `start_tunnel`'s argument vector (the
`-L`/`-R`/`-D` arguments appended between lines 37 and 78). -/
def midTokens (config : Config) : List PyStr :=
  if config.type = "local".toList then
    if config.forwards ≠ [] then
      (config.forwards.map fun f => ["-L".toList, lspec f]).flatten
    else ["-L".toList, legacyLspec config]
  else if config.type = "remote".toList then
    if config.forwards ≠ [] then
      (config.forwards.map fun f => ["-R".toList, rspec f]).flatten
    else ["-R".toList, legacyRspec config]
  else ["-D".toList, config.local_port]

/-- The argument vector built by `SSHTunnelManager.start_tunnel`
(lines 29–81): `-N` always, one `-L`/`-R` per forward (legacy scalar
fields when `forwards` is empty), `-D` for dynamic, then always
`['-p', ssh_port, user@host]`. -/
def start_cmd (config : Config) : List PyStr :=
  ["ssh".toList, "-N".toList] ++ midTokens config ++
    ["-p".toList, config.ssh_port,
     config.ssh_user ++ "@".toList ++ config.ssh_host]

/-- All characters of a python string are non-whitespace. -/
def strNoWs (l : PyStr) : Prop := ∀ c ∈ l, notWs c = true

instance (l : PyStr) : Decidable (strNoWs l) := by
  unfold strNoWs
  infer_instance

/-- A tracked OS subprocess: `alive` models `poll() is None`. -/
structure TunnelProc where
  alive : Bool
deriving DecidableEq

/-- `SSHTunnelManager`: the `tunnel_id -> process` dict, as an
association list.  Every reachable state has unique keys (entries are
only created through `setKey`), so removing all entries with a key
models `del` faithfully. -/
structure Manager where
  tunnels : List (PyStr × TunnelProc)
deriving DecidableEq

def lookupT : List (PyStr × TunnelProc) → PyStr → Option TunnelProc
  | [], _ => none
  | e :: rest, key => if e.1 = key then some e.2 else lookupT rest key

def setKey : List (PyStr × TunnelProc) → PyStr → TunnelProc →
    List (PyStr × TunnelProc)
  | [], key, v => [(key, v)]
  | e :: rest, key, v =>
      if e.1 = key then (key, v) :: rest else e :: setKey rest key v

def delKey : List (PyStr × TunnelProc) → PyStr → List (PyStr × TunnelProc)
  | [], _ => []
  | e :: rest, key =>
      if e.1 = key then delKey rest key else e :: delKey rest key

/-- `SSHTunnelManager.is_running` (lines 104–108). -/
def is_running (m : Manager) (tunnel_id : PyStr) : Bool :=
  match lookupT m.tunnels tunnel_id with
  | some p => p.alive
  | none => false

/-- `SSHTunnelManager.start_tunnel` (lines 24–88).  `spawnOS` models
`subprocess.Popen` on the built argument vector: it is the OS boundary,
returning either a process handle or the exception text. -/
def start_tunnel (m : Manager) (tunnel_id : PyStr) (config : Config)
    (spawnOS : List PyStr → Except PyStr TunnelProc) :
    Manager × Bool × PyStr :=
  if (match lookupT m.tunnels tunnel_id with
      | some p => p.alive
      | none => false) then
    (m, false, "Tunnel already running".toList)
  else
    match spawnOS (start_cmd config) with
    | Except.ok p =>
        ({ tunnels := setKey m.tunnels tunnel_id p }, true,
         "Tunnel started successfully".toList)
    | Except.error e => (m, false, e)

/-- `SSHTunnelManager.stop_tunnel` (lines 90–102): terminate/wait/kill
act only on the OS process, never on the mapping; the entry is deleted
unconditionally once found. -/
def stop_tunnel (m : Manager) (tunnel_id : PyStr) : Manager × Bool × PyStr :=
  match lookupT m.tunnels tunnel_id with
  | some _ =>
      ({ tunnels := delKey m.tunnels tunnel_id }, true,
       "Tunnel stopped".toList)
  | none => (m, false, "Tunnel not found".toList)

/-- `SSHTunnelManager.cleanup` (lines 110–113). -/
def cleanup (m : Manager) : Manager :=
  (m.tunnels.map Prod.fst).foldl (fun mm tid => (stop_tunnel mm tid).1) m

/-- Python `str.strip()`. -/
def pyStrip (l : PyStr) : PyStr :=
  ((l.dropWhile isWs).reverse.dropWhile isWs).reverse

/-- The `while f"{base_name}_{counter}" in existing_names` loop of the
importer.  At most `taken.length` candidate names can be taken, so
`taken.length + 1` fuel always reaches the smallest free suffix. -/
def freshNameGo (base : PyStr) (taken : List PyStr) :
    Nat → Nat → PyStr
  | counter, 0 => base ++ "_".toList ++ natStr counter
  | counter, fuel + 1 =>
      let cand := base ++ "_".toList ++ natStr counter
      if cand ∈ taken then freshNameGo base taken (counter + 1) fuel
      else cand

def resolveName (base : PyStr) (taken : List PyStr) : PyStr :=
  if base ∈ taken then freshNameGo base taken 1 (taken.length + 1)
  else base

/-- Importer loop state (`on_import_command`, lines 867–877). -/
structure ImportState where
  imported : Nat
  failed : Nat
  errors : List (Nat × PyStr)
  existing_names : List PyStr
  pending_name : Option PyStr
  current_command : List PyStr
  command_start_line : Nat
  configs : List Config
deriving DecidableEq

/-- Flushing an accumulated command block (the repeated bodies at lines
889–908, 919–937 and 950–985).  `key` is the line number the caller
keys a parse error by.  `pending_name` is consumed on success and
cleared in both branches. -/
def flushCmd (st : ImportState) (key : Nat) : ImportState :=
  match parse_ssh_command (joinSpace st.current_command) with
  | Except.ok config =>
      let cfg1 :=
        match st.pending_name with
        | some n => { config with name := n }
        | none => config
      let finalName := resolveName cfg1.name st.existing_names
      { st with
          existing_names := st.existing_names ++ [finalName],
          configs := st.configs ++ [{ cfg1 with name := finalName }],
          imported := st.imported + 1,
          pending_name := none }
  | Except.error e =>
      { st with
          failed := st.failed + 1,
          errors := st.errors ++ [(key, e)],
          pending_name := none }

/-- Processing one physical line of the import loop (lines 879–948). -/
def importLine (st : ImportState) (line_num : Nat) (raw : PyStr) :
    ImportState :=
  let line := pyStrip raw
  if line = [] then st
  else if ("#".toList).isPrefixOf line then
    let st1 :=
      if st.current_command ≠ [] then
        { flushCmd st st.command_start_line with current_command := [] }
      else st
    let comment_text := pyStrip (line.drop 1)
    if comment_text ≠ [] then { st1 with pending_name := some comment_text }
    else st1
  else if ("ssh".toList).isPrefixOf line then
    let st1 :=
      if st.current_command ≠ [] then flushCmd st st.command_start_line
      else st
    { st1 with current_command := [line], command_start_line := line_num }
  else if st.current_command ≠ [] then
    { st with current_command := st.current_command ++ [line] }
  else
    { st with
        failed := st.failed + 1,
        errors :=
          st.errors ++ [(line_num, "Command must start with 'ssh'".toList)] }

def importGo (st : ImportState) (line_num : Nat) :
    List PyStr → ImportState
  | [] => st
  | l :: rest => importGo (importLine st line_num l) (line_num + 1) rest

/-- `input_text.replace('\\\n', ' ')` (left-to-right, non-overlapping). -/
def replaceBackslashNL : List Char → List Char
  | [] => []
  | '\\' :: '\n' :: rest => ' ' :: replaceBackslashNL rest
  | c :: rest => c :: replaceBackslashNL rest

/-- Python `text.split('\n')` (keeps empty pieces; `""` gives `[""]`). -/
def splitOnNl : List Char → List PyStr
  | [] => [[]]
  | '\n' :: rest => [] :: splitOnNl rest
  | c :: rest =>
      match splitOnNl rest with
      | [] => [[c]]
      | w :: ws => (c :: w) :: ws

def initImportState (existing0 : List PyStr) : ImportState :=
  { imported := 0, failed := 0, errors := [], existing_names := existing0,
    pending_name := none, current_command := [], command_start_line := 0,
    configs := [] }

/-- The batch-import core of `EasySSHTunnelApp.on_import_command`
(lines 860–985): preprocess continuations, run the line loop, and flush
a still-accumulating final block keyed by the loop's final `line_num`,
which after the `for` is the number of the last physical line. -/
def on_import_command (input_text : PyStr) (existing0 : List PyStr) :
    ImportState :=
  let lines := splitOnNl (replaceBackslashNL input_text)
  let st1 := importGo (initImportState existing0) 1 lines
  if st1.current_command ≠ [] then flushCmd st1 lines.length else st1

/-- Whether an `Except` result is a success. -/
def exceptOk {α β : Type} : Except α β → Bool
  | Except.ok _ => true
  | Except.error _ => false

/-- Whether `pat` occurs as a contiguous substring of `l`. -/
def containsPat (pat : PyStr) : PyStr → Bool
  | [] => pat.isEmpty
  | c :: rest => pat.isPrefixOf (c :: rest) || containsPat pat rest

deriving instance DecidableEq for Except

/-- The error payload of an `Except` result, if any. -/
def exceptErr {α β : Type} : Except α β → Option α
  | Except.ok _ => none
  | Except.error e => some e

/-- A whitespace-free nonempty token, recording also that its last
character is not one of the given flag letters and that it contains no
`@`: the conditions under which every scanner skips it. -/
def skipTok (flags : List Char) (t : PyStr) : Prop :=
  t ≠ [] ∧ (∀ c ∈ t, notWs c = true) ∧
    (∀ fl ∈ flags, t.getLast? ≠ some fl) ∧ '@' ∉ t

/-- The canonical `port:host:port` string of a scanned triple. -/
def specStr (m : Triple) : PyStr := m.1 ++ ':' :: (m.2.1 ++ ':' :: m.2.2)

/-- Well-formedness of a scanned triple: the character classes enforced
by the regular expression. -/
def tripleWF (m : Triple) : Prop :=
  m.1 ≠ [] ∧ (∀ c ∈ m.1, isDigit c = true) ∧
    m.2.1 ≠ [] ∧ (∀ c ∈ m.2.1, hostChar c = true) ∧
    m.2.2 ≠ [] ∧ (∀ c ∈ m.2.2, isDigit c = true)

def tripleOfL (f : ForwardSpec) : Triple :=
  (f.local_port, f.remote_host, f.remote_port)

def tripleOfR (f : ForwardSpec) : Triple :=
  (f.remote_port, f.remote_host, f.local_port)

/-- Well-formedness of a forward entry: the character classes its
fields satisfy whenever it was produced by a scanned triple. -/
def fwdWF (f : ForwardSpec) : Prop :=
  f.local_port ≠ [] ∧ (∀ c ∈ f.local_port, isDigit c = true) ∧
    f.remote_host ≠ [] ∧ (∀ c ∈ f.remote_host, hostChar c = true) ∧
    f.remote_port ≠ [] ∧ (∀ c ∈ f.remote_port, isDigit c = true)

/-- The configuration built by `parse_ssh_command` on normalized text
`N` once the `user@host` search has produced `u` and `hh` — the body of
the success path of the parser. -/
def parsedConfig (N : PyStr) (u hh : PyStr) : Config :=
  let c0 : Config :=
    { type := "local".toList, ssh_port := "22".toList, local_port := [],
      remote_host := "localhost".toList, remote_port := [],
      ssh_user := [], ssh_host := [], name := [], forwards := [] }
  let c1 := applyLocal c0 (scanTriples 'L' N)
  let c2 := applyRemote c1 (scanTriples 'R' N)
  let c3 :=
    match findFlagNum 'D' N with
    | some p => { c2 with type := "dynamic".toList, local_port := p }
    | none => c2
  let c4 :=
    match findFlagNum 'p' N with
    | some p => { c3 with ssh_port := p }
    | none => c3
  let c5 := { c4 with ssh_user := u, ssh_host := hh }
  { c5 with name := genName c5 }

/-- The configuration `parse_ssh_command` produces for
`ssh -L 8080:localhost:80 alice@example.com` (used as a concrete
round-trip example). -/
def exampleLocalConfig : Config :=
  { type := "local".toList, ssh_port := "22".toList,
    local_port := "8080".toList, remote_host := "localhost".toList,
    remote_port := "80".toList, ssh_user := "alice".toList,
    ssh_host := "example.com".toList,
    name := "example.com_L8080".toList, forwards := [] }

instance (flags : List Char) (t : PyStr) : Decidable (skipTok flags t) := by
  unfold skipTok
  infer_instance

/-! ## Supervisor lemmas -/

lemma lookupT_delKey (l : List (PyStr × TunnelProc)) (k : PyStr) :
    lookupT (delKey l k) k = none := by
  induction l with
  | nil => rfl
  | cons e rest ih =>
      by_cases h : e.1 = k
      · simpa [delKey, h] using ih
      · simp [delKey, h, lookupT, ih]

lemma delKey_of_lookup_none (l : List (PyStr × TunnelProc)) (k : PyStr)
    (h : lookupT l k = none) : delKey l k = l := by
  induction l with
  | nil => rfl
  | cons e rest ih =>
      by_cases he : e.1 = k
      · simp [lookupT, he] at h
      · simp [lookupT, he] at h
        simp [delKey, he, ih h]

lemma mem_delKey (l : List (PyStr × TunnelProc)) (k : PyStr)
    (e : PyStr × TunnelProc) : e ∈ delKey l k → e ∈ l ∧ e.1 ≠ k := by
  induction l with
  | nil => intro h; simp [delKey] at h
  | cons a rest ih =>
      intro h
      by_cases ha : a.1 = k
      · rw [delKey, if_pos ha] at h
        exact ⟨List.mem_cons_of_mem _ (ih h).1, (ih h).2⟩
      · rw [delKey, if_neg ha] at h
        rcases List.mem_cons.mp h with h1 | h1
        · exact ⟨by simp [h1], by simpa [h1] using ha⟩
        · exact ⟨List.mem_cons_of_mem _ (ih h1).1, (ih h1).2⟩

lemma stop_tunnel_fst (l : List (PyStr × TunnelProc)) (k : PyStr) :
    (stop_tunnel ⟨l⟩ k).1 = ⟨delKey l k⟩ := by
  cases h : lookupT l k with
  | none => simp [stop_tunnel, h, delKey_of_lookup_none l k h]
  | some p => simp [stop_tunnel, h]

lemma cleanup_go_empty :
    ∀ (ks : List PyStr) (l : List (PyStr × TunnelProc)),
      (∀ e ∈ l, e.1 ∈ ks) →
      (ks.foldl (fun mm tid => (stop_tunnel mm tid).1) ⟨l⟩).tunnels = [] := by
  intro ks
  induction ks with
  | nil =>
      intro l h
      cases l with
      | nil => rfl
      | cons e rest => exact absurd (h e (List.mem_cons_self _ _)) (by simp)
  | cons k ks ih =>
      intro l h
      have hstep : (stop_tunnel ⟨l⟩ k).1 = (⟨delKey l k⟩ : Manager) :=
        stop_tunnel_fst l k
      calc ((k :: ks).foldl (fun mm tid => (stop_tunnel mm tid).1) ⟨l⟩).tunnels
          = (ks.foldl (fun mm tid => (stop_tunnel mm tid).1)
              (⟨delKey l k⟩ : Manager)).tunnels := by
            simp only [List.foldl_cons, hstep]
        _ = [] := by
            refine ih (delKey l k) ?_
            intro e he
            rcases mem_delKey l k e he with ⟨hmem, hne⟩
            have := h e hmem
            rcases List.mem_cons.mp this with h1 | h1
            · exact absurd h1 hne
            · exact h1

/-! ## Claim C6 -/

/-- C6: `stop_tunnel` on an unknown identifier returns the not-found
result and leaves the manager unchanged; on a known identifier it
succeeds and, once it returns, the mapping entry is gone, so
`is_running` is false — whether the process was alive or dead. -/
theorem c6_stop_semantics : ∀ (m : Manager) (tid : PyStr),
    (lookupT m.tunnels tid = none →
      stop_tunnel m tid = (m, false, "Tunnel not found".toList)) ∧
    (∀ p, lookupT m.tunnels tid = some p →
      (stop_tunnel m tid).2.1 = true ∧
      lookupT (stop_tunnel m tid).1.tunnels tid = none ∧
      is_running (stop_tunnel m tid).1 tid = false) := by
  intro m tid
  constructor
  · intro h
    simp [stop_tunnel, h]
  · intro p h
    refine ⟨by simp [stop_tunnel, h], ?_, ?_⟩
    · simp [stop_tunnel, h, lookupT_delKey]
    · simp [is_running, stop_tunnel, h, lookupT_delKey]

/-- C6 witness: a concrete two-entry manager, exercising both the
not-found branch and the removal branch. -/
theorem c6_stop_semantics_witness :
    (stop_tunnel ⟨[("a".toList, ⟨true⟩)]⟩ ("b".toList) =
      (⟨[("a".toList, ⟨true⟩)]⟩, false, "Tunnel not found".toList)) ∧
    (lookupT (stop_tunnel ⟨[("a".toList, ⟨true⟩)]⟩ ("a".toList)).1.tunnels
        ("a".toList) = none ∧
      is_running (stop_tunnel ⟨[("a".toList, ⟨true⟩)]⟩ ("a".toList)).1
        ("a".toList) = false) :=
  ⟨(c6_stop_semantics ⟨[("a".toList, ⟨true⟩)]⟩ ("b".toList)).1 (by decide),
   ⟨((c6_stop_semantics ⟨[("a".toList, ⟨true⟩)]⟩ ("a".toList)).2 ⟨true⟩
      (by decide)).2.1,
    ((c6_stop_semantics ⟨[("a".toList, ⟨true⟩)]⟩ ("a".toList)).2 ⟨true⟩
      (by decide)).2.2⟩⟩

/-! ## Claim C7 -/

/-- C7: `start_tunnel` on an identifier whose process is still alive
fails with the already-running result and changes nothing; starting
twice in a row from an empty manager leaves exactly the one entry
created by the first call, with the second call failing; and a spawn
failure returns the error with no entry registered. -/
theorem c7_start_semantics :
    (∀ (m : Manager) (tid : PyStr) (cfg : Config)
        (sp : List PyStr → Except PyStr TunnelProc),
      (match lookupT m.tunnels tid with
       | some p => p.alive
       | none => false) = true →
      start_tunnel m tid cfg sp = (m, false, "Tunnel already running".toList)) ∧
    (∀ (tid : PyStr) (cfg cfg2 : Config) (p : TunnelProc)
        (sp2 : List PyStr → Except PyStr TunnelProc),
      p.alive = true →
      (start_tunnel ⟨[]⟩ tid cfg (fun _ => Except.ok p)).1.tunnels =
        [(tid, p)] ∧
      start_tunnel (start_tunnel ⟨[]⟩ tid cfg (fun _ => Except.ok p)).1 tid
          cfg2 sp2 =
        ((start_tunnel ⟨[]⟩ tid cfg (fun _ => Except.ok p)).1, false,
         "Tunnel already running".toList)) ∧
    (∀ (m : Manager) (tid : PyStr) (cfg : Config) (e : PyStr)
        (sp : List PyStr → Except PyStr TunnelProc),
      (match lookupT m.tunnels tid with
       | some q => q.alive
       | none => false) = false →
      sp (start_cmd cfg) = Except.error e →
      start_tunnel m tid cfg sp = (m, false, e)) := by
  refine ⟨?_, ?_, ?_⟩
  · intro m tid cfg sp h
    simp [start_tunnel, h]
  · intro tid cfg cfg2 p sp2 hp
    constructor
    · rfl
    · have h1 : (start_tunnel ⟨[]⟩ tid cfg (fun _ => Except.ok p)).1 =
          (⟨[(tid, p)]⟩ : Manager) := rfl
      rw [h1]
      simp [start_tunnel, lookupT, hp]
  · intro m tid cfg e sp h hsp
    simp [start_tunnel, h, hsp]

/-- C7 witness: concrete double start from the empty manager and a
concrete failing spawn. -/
theorem c7_start_semantics_witness :
    ((start_tunnel ⟨[]⟩ ("t".toList)
        { type := "local".toList, ssh_port := "22".toList, local_port := [],
          remote_host := "localhost".toList, remote_port := [],
          ssh_user := [], ssh_host := [], name := [], forwards := [] }
        (fun _ => Except.ok ⟨true⟩)).1.tunnels = [("t".toList, ⟨true⟩)]) ∧
    (start_tunnel ⟨[]⟩ ("t".toList)
        { type := "local".toList, ssh_port := "22".toList, local_port := [],
          remote_host := "localhost".toList, remote_port := [],
          ssh_user := [], ssh_host := [], name := [], forwards := [] }
        (fun _ => Except.error ("spawn failed".toList)) =
      (⟨[]⟩, false, "spawn failed".toList)) :=
  ⟨(c7_start_semantics.2.1 ("t".toList)
      { type := "local".toList, ssh_port := "22".toList, local_port := [],
        remote_host := "localhost".toList, remote_port := [],
        ssh_user := [], ssh_host := [], name := [], forwards := [] }
      { type := "local".toList, ssh_port := "22".toList, local_port := [],
        remote_host := "localhost".toList, remote_port := [],
        ssh_user := [], ssh_host := [], name := [], forwards := [] }
      ⟨true⟩ (fun _ => Except.ok ⟨true⟩) rfl).1,
   c7_start_semantics.2.2 ⟨[]⟩ ("t".toList)
     { type := "local".toList, ssh_port := "22".toList, local_port := [],
       remote_host := "localhost".toList, remote_port := [],
       ssh_user := [], ssh_host := [], name := [], forwards := [] }
     ("spawn failed".toList) (fun _ => Except.error ("spawn failed".toList))
     (by decide) rfl⟩

/-! ## Claim C10 -/

/-- C10: after `cleanup` the identifier-to-process mapping is empty, so
no entry remains and `is_running` is false for every identifier. -/
theorem c10_cleanup_empties : ∀ m : Manager,
    (cleanup m).tunnels = [] ∧
    ∀ tid : PyStr, lookupT (cleanup m).tunnels tid = none ∧
      is_running (cleanup m) tid = false := by
  intro m
  have h : (cleanup m).tunnels = [] := by
    cases m with
    | mk l =>
        exact cleanup_go_empty (l.map Prod.fst) l
          (fun e he => List.mem_map.mpr ⟨e, he, rfl⟩)
  refine ⟨h, fun tid => ⟨?_, ?_⟩⟩
  · rw [h]; rfl
  · simp [is_running, h, lookupT]

/-! ## Claim C1 -/

@[simp] lemma two_le_length_cons_cons {α : Type} (a b : α) (l : List α) :
    2 ≤ (a :: b :: l).length := by
  simp only [List.length_cons]
  omega

@[simp] lemma not_two_le_length_single {α : Type} (a : α) :
    ¬ 2 ≤ ([a] : List α).length := by
  simp only [List.length_singleton]
  omega

@[simp] lemma not_two_le_length_nil {α : Type} :
    ¬ 2 ≤ ([] : List α).length := by
  simp only [List.length_nil]
  omega

/-- C1 (amended): on every accepted command the `type` follows the
precedence `-D` over `-R` over `-L` (defaulting to `local`), and a `-D`
match stores its port as the listen port; but the forwards are *not*
discarded by `-D`: the spec's `forwards` list is the `-R` match list
when there are at least two `-R` matches, else the `-L` match list when
there are at least two `-L` matches, else empty — regardless of the
resolved type. -/
theorem c1_type_resolution (cmd : PyStr) (c : Config)
    (h : parse_ssh_command cmd = Except.ok c) :
    c.type = (if (findFlagNum 'D' (pyNormalize cmd)).isSome then
                "dynamic".toList
              else if scanTriples 'R' (pyNormalize cmd) ≠ [] then
                "remote".toList
              else "local".toList) ∧
    (∀ p, findFlagNum 'D' (pyNormalize cmd) = some p → c.local_port = p) ∧
    c.forwards =
      (if 2 ≤ (scanTriples 'R' (pyNormalize cmd)).length then
         (scanTriples 'R' (pyNormalize cmd)).map mkRemoteForward
       else if 2 ≤ (scanTriples 'L' (pyNormalize cmd)).length then
         (scanTriples 'L' (pyNormalize cmd)).map mkLocalForward
       else []) := by
  simp only [parse_ssh_command] at h
  by_cases hp : ("ssh".toList).isPrefixOf (pyNormalize cmd)
  · rw [if_pos hp] at h
    cases hUH : findUserHost (pyNormalize cmd) with
    | none => rw [hUH] at h; exact absurd h (by simp)
    | some uh =>
        obtain ⟨u, hh⟩ := uh
        rw [hUH] at h
        rw [Except.ok.injEq] at h
        subst h
        rcases hD : findFlagNum 'D' (pyNormalize cmd) with _ | p' <;>
          rcases hPp : findFlagNum 'p' (pyNormalize cmd) with _ | q' <;>
          rcases hR : scanTriples 'R' (pyNormalize cmd) with _ | ⟨r1, _ | ⟨r2, rs⟩⟩ <;>
          rcases hL : scanTriples 'L' (pyNormalize cmd) with _ | ⟨m1, _ | ⟨m2, ms⟩⟩ <;>
          simp [hD, hPp, hR, hL, applyLocal, applyRemote]
  · rw [if_neg hp] at h
    exact absurd h (by simp)

/-- C1 witness: a concrete command with two `-L` triples and a `-D`
flag; the resolved type is `dynamic`, the `-D` port `9999` is the
listen port, and the forwards are exactly the two `-L` matches. -/
theorem c1_type_resolution_witness :
    ({ type := "dynamic".toList, ssh_port := "22".toList,
       local_port := "9999".toList, remote_host := "localhost".toList,
       remote_port := [], ssh_user := "carol".toList,
       ssh_host := "jump".toList, name := "jump_D9999".toList,
       forwards := [⟨"7000".toList, "a".toList, "7001".toList⟩,
                    ⟨"7002".toList, "b".toList, "7003".toList⟩] } :
        Config).type =
      (if (findFlagNum 'D'
            (pyNormalize
              ("ssh -L 7000:a:7001 -L 7002:b:7003 -D 9999 carol@jump".toList))).isSome
        then "dynamic".toList
        else if scanTriples 'R'
            (pyNormalize
              ("ssh -L 7000:a:7001 -L 7002:b:7003 -D 9999 carol@jump".toList)) ≠ []
          then "remote".toList
          else "local".toList) ∧
    (∀ p, findFlagNum 'D'
        (pyNormalize
          ("ssh -L 7000:a:7001 -L 7002:b:7003 -D 9999 carol@jump".toList)) =
        some p →
      ({ type := "dynamic".toList, ssh_port := "22".toList,
         local_port := "9999".toList, remote_host := "localhost".toList,
         remote_port := [], ssh_user := "carol".toList,
         ssh_host := "jump".toList, name := "jump_D9999".toList,
         forwards := [⟨"7000".toList, "a".toList, "7001".toList⟩,
                      ⟨"7002".toList, "b".toList, "7003".toList⟩] } :
          Config).local_port = p) ∧
    ({ type := "dynamic".toList, ssh_port := "22".toList,
       local_port := "9999".toList, remote_host := "localhost".toList,
       remote_port := [], ssh_user := "carol".toList,
       ssh_host := "jump".toList, name := "jump_D9999".toList,
       forwards := [⟨"7000".toList, "a".toList, "7001".toList⟩,
                    ⟨"7002".toList, "b".toList, "7003".toList⟩] } :
        Config).forwards =
      (if 2 ≤ (scanTriples 'R'
            (pyNormalize
              ("ssh -L 7000:a:7001 -L 7002:b:7003 -D 9999 carol@jump".toList))).length
        then (scanTriples 'R'
            (pyNormalize
              ("ssh -L 7000:a:7001 -L 7002:b:7003 -D 9999 carol@jump".toList))).map
          mkRemoteForward
        else if 2 ≤ (scanTriples 'L'
            (pyNormalize
              ("ssh -L 7000:a:7001 -L 7002:b:7003 -D 9999 carol@jump".toList))).length
          then (scanTriples 'L'
              (pyNormalize
                ("ssh -L 7000:a:7001 -L 7002:b:7003 -D 9999 carol@jump".toList))).map
            mkLocalForward
          else []) :=
  c1_type_resolution
    ("ssh -L 7000:a:7001 -L 7002:b:7003 -D 9999 carol@jump".toList)
    { type := "dynamic".toList, ssh_port := "22".toList,
      local_port := "9999".toList, remote_host := "localhost".toList,
      remote_port := [], ssh_user := "carol".toList,
      ssh_host := "jump".toList, name := "jump_D9999".toList,
      forwards := [⟨"7000".toList, "a".toList, "7001".toList⟩,
                   ⟨"7002".toList, "b".toList, "7003".toList⟩] }
    (by rfl)

/-! ## Counterexamples for the corrected claims -/

/-- C1 counterexample: a command with two `-L` triples and a `-D` flag
parses to a `dynamic` spec whose `forwards` list still holds the two
`-L` matches — the `-D` branch never discards previously collected
forwards, contradicting the claimed "forwards are discarded (empty)". -/
theorem c1_counterexample :
    ((parse_ssh_command
        ("ssh -L 1000:h:2000 -L 3000:h:4000 -D 1080 u@x".toList)).toOption.map
      fun c => (c.type, c.forwards.length)) =
      some ("dynamic".toList, 2) := by decide

/-- C2 counterexample: two parse-produced specs whose round trip is not
equivalent.  First, the dynamic-with-forwards spec from mixing `-L` and
`-D`: the re-parse of its export has empty forwards while the original
has two.  Second, `ssh u@h -L 1:a@b:2`: the original parse finds user
`u`, but the export places the `@`-containing forward spec before the
`user@host` token, so the re-parse extracts user `1:a` instead. -/
theorem c2_counterexample :
    (((parse_ssh_command
          ("ssh -L 1000:h:2000 -L 3000:h:4000 -D 1080 u@x".toList)).toOption.map
        fun c =>
          (parse_ssh_command (export_to_command c)).toOption.map fun c2 =>
            (c.forwards.length, c2.forwards.length)) =
      some (some (2, 0))) ∧
    (((parse_ssh_command ("ssh u@h -L 1:a@b:2".toList)).toOption.map
        fun c =>
          (parse_ssh_command (export_to_command c)).toOption.map fun c2 =>
            (c.ssh_user, c2.ssh_user)) =
      some (some ("u".toList, "1:a".toList))) := by
  exact ⟨by decide, by decide⟩

/-- C3 counterexample: for the spec parsed from
`ssh -L 8080:localhost:80 alice@example.com` (ssh port `22`), the
spawned argument vector contains `-p` while the exported command text
does not contain `-p` at all, so the claimed "contains `-p` iff the
text contains `-p`" fails. -/
theorem c3_counterexample :
    ((parse_ssh_command
        ("ssh -L 8080:localhost:80 alice@example.com".toList)).toOption.map
      fun c =>
        (c.ssh_port, decide ("-p".toList ∈ start_cmd c),
         containsPat "-p".toList (export_to_command c))) =
      some ("22".toList, true, false) := by decide

/-- C4 counterexample: `parse("ssh hello world")` fails with the
user@host error ("Could not find user@host in command"), not with any
no-forward error; moreover a command with no `-L`/`-R`/`-D` at all but a
`user@host` token parses successfully, so no-forward commands do not
fail as claimed. -/
theorem c4_counterexample :
    exceptErr (parse_ssh_command ("ssh hello world".toList)) =
      some ("Could not find user@host in command".toList) ∧
    exceptOk (parse_ssh_command ("ssh alice@host".toList)) = true := by
  exact ⟨by decide, by decide⟩

/-- C5 counterexample: `sshd -L 8080:localhost:80 a@b`, whose first
token is `sshd` (not the literal token `ssh`), is accepted by parse —
the source only checks `command.startswith('ssh')`. -/
theorem c5_counterexample :
    exceptOk (parse_ssh_command
      ("sshd -L 8080:localhost:80 a@b".toList)) = true := by decide

/-- C8 counterexample: on the claimed input the second accepted spec is
named `h1_L9000` with no `_1` suffix: the first spec was renamed to
`my-tunnel` by the comment, so the second's derived name collides with
nothing. -/
theorem c8_counterexample :
    (let r := on_import_command
        ("# my-tunnel\nssh -L 9000:localhost:9000 dave@h1\nssh -L 9000:localhost:9000 dave@h1".toList)
        []
     (r.imported, r.failed, r.configs.map Config.name)) =
      (2, 0, ["my-tunnel".toList, "h1_L9000".toList]) := by decide

/-- C9 counterexample: for the input `"ssh hello\nworld"` the final
block starts at line 1 (its accumulation began there), but the error
recorded by the end-of-input flush is keyed by line 2, the last
physical line. -/
theorem c9_counterexample :
    (on_import_command ("ssh hello\nworld".toList) []).errors =
      [(2, "Could not find user@host in command".toList)] ∧
    (importGo (initImportState []) 1
        (splitOnNl (replaceBackslashNL ("ssh hello\nworld".toList)))).command_start_line = 1 := by
  exact ⟨by decide, by decide⟩

/-! ## Claim C5 -/

/-- C5 (amended): parse fails with the not-an-ssh-command error exactly
when the whitespace-normalized command does not start with the
three-character prefix `ssh`; the check is `startswith`, not a token
comparison, so commands whose first token merely begins with `ssh`
(such as `sshd`) are accepted. -/
theorem c5_not_ssh_iff (cmd : PyStr) :
    parse_ssh_command cmd =
      Except.error ("Command must start with 'ssh'".toList) ↔
    ("ssh".toList).isPrefixOf (pyNormalize cmd) = false := by
  simp only [parse_ssh_command]
  by_cases hp : ("ssh".toList).isPrefixOf (pyNormalize cmd)
  · rw [if_pos hp]
    cases hUH : findUserHost (pyNormalize cmd) with
    | none =>
        constructor
        · intro h
          exact absurd (Except.error.injEq _ _ ▸ h) (by decide)
        · intro h
          rw [hp] at h
          exact absurd h (by decide)
    | some uh =>
        obtain ⟨u, hh⟩ := uh
        constructor
        · intro h
          exact absurd h (by simp)
        · intro h
          rw [hp] at h
          exact absurd h (by decide)
  · rw [if_neg hp]
    constructor
    · intro _
      exact Bool.not_eq_true _ ▸ (by simpa using hp)
    · intro _
      rfl

/-! ## Claim C4 -/

/-- C4 (amended): there is no "no forward specified" failure.  A
command that begins with `ssh` (prefix) and has no `-L`/`-R`/`-D`
match fails with the user@host error when no `user@host` token is
found — this is what `parse("ssh hello world")` does — and parses
successfully as a `local`-type spec with empty forwards and empty
legacy ports when a `user@host` token is present. -/
theorem c4_no_forward_behavior (cmd : PyStr)
    (hp : ("ssh".toList).isPrefixOf (pyNormalize cmd) = true)
    (hL : scanTriples 'L' (pyNormalize cmd) = [])
    (hR : scanTriples 'R' (pyNormalize cmd) = [])
    (hD : findFlagNum 'D' (pyNormalize cmd) = none) :
    (findUserHost (pyNormalize cmd) = none →
      parse_ssh_command cmd =
        Except.error ("Could not find user@host in command".toList)) ∧
    (∀ u h, findUserHost (pyNormalize cmd) = some (u, h) →
      ∃ c, parse_ssh_command cmd = Except.ok c ∧
        c.type = "local".toList ∧ c.forwards = [] ∧
        c.local_port = [] ∧ c.remote_port = [] ∧
        c.ssh_user = u ∧ c.ssh_host = h) := by
  constructor
  · intro hUH
    simp only [parse_ssh_command]
    rw [if_pos hp, hL, hR, hD, hUH]
  · intro u hh hUH
    simp only [parse_ssh_command]
    rw [if_pos hp, hL, hR, hD, hUH]
    cases hPp : findFlagNum 'p' (pyNormalize cmd) with
    | none => exact ⟨_, rfl, rfl, rfl, rfl, rfl, rfl, rfl⟩
    | some q => exact ⟨_, rfl, rfl, rfl, rfl, rfl, rfl, rfl⟩

/-- C4 witness: `ssh hello world` hits the user@host error;
`ssh alice@host` (still forward-free) parses successfully. -/
theorem c4_no_forward_behavior_witness :
    (parse_ssh_command ("ssh hello world".toList) =
      Except.error ("Could not find user@host in command".toList)) ∧
    (∃ c, parse_ssh_command ("ssh alice@host".toList) = Except.ok c ∧
      c.type = "local".toList ∧ c.forwards = [] ∧
      c.local_port = [] ∧ c.remote_port = [] ∧
      c.ssh_user = "alice".toList ∧ c.ssh_host = "host".toList) :=
  ⟨(c4_no_forward_behavior ("ssh hello world".toList) (by decide)
      (by decide) (by decide) (by decide)).1 (by decide),
   (c4_no_forward_behavior ("ssh alice@host".toList) (by decide)
      (by decide) (by decide) (by decide)).2 ("alice".toList)
     ("host".toList) (by decide)⟩

/-! ## takeWhile / dropWhile / splitWs toolkit -/

lemma takeWhile_all {p : Char → Bool} :
    ∀ (t : List Char), (∀ c ∈ t, p c = true) → t.takeWhile p = t := by
  intro t
  induction t with
  | nil => intro _; rfl
  | cons c rest ih =>
      intro h
      rw [List.takeWhile_cons, if_pos (h c (List.mem_cons_self _ _))]
      rw [ih (fun x hx => h x (List.mem_cons_of_mem _ hx))]

lemma dropWhile_all {p : Char → Bool} :
    ∀ (t : List Char), (∀ c ∈ t, p c = true) → t.dropWhile p = [] := by
  intro t
  induction t with
  | nil => intro _; rfl
  | cons c rest ih =>
      intro h
      rw [List.dropWhile_cons_of_pos (h c (List.mem_cons_self _ _))]
      exact ih (fun x hx => h x (List.mem_cons_of_mem _ hx))

lemma takeWhile_append_all {p : Char → Bool} :
    ∀ (t : List Char) (b : Char) (r : List Char),
      (∀ c ∈ t, p c = true) → p b = false →
      (t ++ b :: r).takeWhile p = t := by
  intro t
  induction t with
  | nil =>
      intro b r _ hb
      simp [List.takeWhile_cons, hb]
  | cons c rest ih =>
      intro b r h hb
      rw [List.cons_append, List.takeWhile_cons,
        if_pos (h c (List.mem_cons_self _ _)),
        ih b r (fun x hx => h x (List.mem_cons_of_mem _ hx)) hb]

lemma dropWhile_append_all {p : Char → Bool} :
    ∀ (t : List Char) (b : Char) (r : List Char),
      (∀ c ∈ t, p c = true) → p b = false →
      (t ++ b :: r).dropWhile p = b :: r := by
  intro t
  induction t with
  | nil =>
      intro b r _ hb
      simp [List.dropWhile_cons, hb]
  | cons c rest ih =>
      intro b r h hb
      rw [List.cons_append,
        List.dropWhile_cons_of_pos (h c (List.mem_cons_self _ _))]
      exact ih b r (fun x hx => h x (List.mem_cons_of_mem _ hx)) hb

lemma length_dropWhile_le (p : Char → Bool) (l : List Char) :
    (l.dropWhile p).length ≤ l.length := by
  induction l with
  | nil => exact le_rfl
  | cons c rest ih =>
      rw [List.dropWhile_cons]
      by_cases h : p c
      · rw [if_pos h]
        exact le_trans ih (Nat.le_succ _)
      · rw [if_neg h]

lemma splitWsGo_congr :
    ∀ (f g : Nat) (l : List Char), l.length ≤ f → l.length ≤ g →
      splitWsGo f l = splitWsGo g l := by
  intro f
  induction f with
  | zero =>
      intro g l hf _
      have hl : l = [] := List.eq_nil_of_length_eq_zero (Nat.le_zero.mp hf)
      subst hl
      cases g <;> rfl
  | succ f ih =>
      intro g l hf hg
      cases g with
      | zero =>
          have hl : l = [] := List.eq_nil_of_length_eq_zero (Nat.le_zero.mp hg)
          subst hl
          rfl
      | succ g =>
          cases l with
          | nil => rfl
          | cons c rest =>
              have hrest_f : rest.length ≤ f := by
                simp only [List.length_cons] at hf
                omega
              have hrest_g : rest.length ≤ g := by
                simp only [List.length_cons] at hg
                omega
              simp only [splitWsGo]
              by_cases hc : isWs c
              · rw [if_pos hc, if_pos hc]
                exact ih g rest hrest_f hrest_g
              · rw [if_neg hc, if_neg hc]
                have hlen : (rest.dropWhile notWs).length ≤ rest.length :=
                  length_dropWhile_le notWs rest
                rw [ih g (rest.dropWhile notWs) (le_trans hlen hrest_f)
                  (le_trans hlen hrest_g)]

lemma splitWs_cons_ws (c : Char) (rest : List Char) (h : isWs c = true) :
    splitWs (c :: rest) = splitWs rest := by
  show splitWsGo (c :: rest).length (c :: rest) = splitWs rest
  rw [List.length_cons]
  show splitWsGo (rest.length + 1) (c :: rest) = splitWs rest
  simp only [splitWsGo, if_pos h]
  rfl

lemma splitWs_cons_tok (c : Char) (rest : List Char) (h : isWs c = false) :
    splitWs (c :: rest) =
      (c :: rest.takeWhile notWs) :: splitWs (rest.dropWhile notWs) := by
  show splitWsGo (c :: rest).length (c :: rest) = _
  rw [List.length_cons]
  show splitWsGo (rest.length + 1) (c :: rest) = _
  simp only [splitWsGo, if_neg (by simp [h] : ¬ isWs c = true)]
  rw [splitWsGo_congr rest.length (rest.dropWhile notWs).length
    (rest.dropWhile notWs) (length_dropWhile_le notWs rest) le_rfl]
  rfl

lemma notWs_iff (c : Char) : notWs c = true ↔ isWs c = false := by
  cases h : isWs c <;> simp [notWs, h]

lemma splitWs_token_sep (t : PyStr) (rest : List Char) (ht : t ≠ [])
    (hall : ∀ c ∈ t, notWs c = true) :
    splitWs (t ++ ' ' :: rest) = t :: splitWs rest := by
  cases t with
  | nil => exact absurd rfl ht
  | cons c t' =>
      have hc : isWs c = false :=
        (notWs_iff c).mp (hall c (List.mem_cons_self _ _))
      rw [List.cons_append, splitWs_cons_tok c _ hc]
      have hall' : ∀ x ∈ t', notWs x = true :=
        fun x hx => hall x (List.mem_cons_of_mem _ hx)
      have hsp : notWs ' ' = false := by decide
      rw [takeWhile_append_all t' ' ' rest hall' hsp,
        dropWhile_append_all t' ' ' rest hall' hsp,
        splitWs_cons_ws ' ' rest (by decide)]

lemma splitWs_token_only (t : PyStr) (ht : t ≠ [])
    (hall : ∀ c ∈ t, notWs c = true) :
    splitWs t = [t] := by
  cases t with
  | nil => exact absurd rfl ht
  | cons c t' =>
      have hc : isWs c = false :=
        (notWs_iff c).mp (hall c (List.mem_cons_self _ _))
      rw [splitWs_cons_tok c _ hc]
      have hall' : ∀ x ∈ t', notWs x = true :=
        fun x hx => hall x (List.mem_cons_of_mem _ hx)
      rw [takeWhile_all t' hall', dropWhile_all t' hall']
      rfl

lemma append_cons_ne_nil {α : Type} (a : List α) (b : α) (c : List α) :
    a ++ b :: c ≠ [] := by
  cases a <;> simp

/-- Tokenizing `ssh -N` followed by a space and the rest. -/
lemma splitWs_sshN (rest : List Char) (hrest : ∃ r', rest = ' ' :: r') :
    splitWs ('s' :: 's' :: 'h' :: ' ' :: '-' :: 'N' :: rest) =
      "ssh".toList :: "-N".toList :: splitWs rest := by
  obtain ⟨r', hr⟩ := hrest
  subst hr
  rw [show ('s' :: 's' :: 'h' :: ' ' :: '-' :: 'N' :: ' ' :: r' : List Char) =
    "ssh".toList ++ ' ' :: ("-N".toList ++ ' ' :: r') from rfl]
  rw [splitWs_token_sep _ _ (by decide) (by decide)]
  rw [splitWs_token_sep _ _ (by decide) (by decide)]
  rw [← splitWs_cons_ws ' ' r' (by decide)]

/-- Tokenizing one ` -X spec` block followed by the rest (which must
start with a space). -/
lemma splitWs_one_flag (X : Char) (hX : notWs X = true) (spec rest : PyStr)
    (hspec_ne : spec ≠ []) (hspec : ∀ ch ∈ spec, notWs ch = true)
    (hrest : ∃ r', rest = ' ' :: r') :
    splitWs (' ' :: '-' :: X :: ' ' :: (spec ++ rest)) =
      ('-' :: X :: []) :: spec :: splitWs rest := by
  obtain ⟨r', hr⟩ := hrest
  rw [splitWs_cons_ws _ _ (by decide)]
  rw [show ('-' :: X :: ' ' :: (spec ++ rest) : List Char) =
    ('-' :: X :: []) ++ ' ' :: (spec ++ rest) from rfl]
  rw [splitWs_token_sep _ _ (by simp) ?hmem]
  case hmem =>
    intro ch hch
    rcases List.mem_cons.mp hch with h1 | h1
    · subst h1; decide
    · rcases List.mem_singleton.mp h1 with rfl
      exact hX
  rw [hr, splitWs_token_sep spec r' hspec_ne hspec,
    ← splitWs_cons_ws ' ' r' (by decide), ← hr]

/-- Tokenizing the repeated ` -X spec` blocks of a multi-forward
export. -/
lemma splitWs_chunks (X : Char) (hX : notWs X = true)
    (specOf : ForwardSpec → PyStr) :
    ∀ (fs : List ForwardSpec) (rest : List Char),
      (∀ f ∈ fs, specOf f ≠ [] ∧ ∀ ch ∈ specOf f, notWs ch = true) →
      (∃ r', rest = ' ' :: r') →
      splitWs ((fs.map fun f =>
          ' ' :: '-' :: X :: ' ' :: specOf f).flatten ++ rest) =
        (fs.map fun f => [('-' :: X :: []), specOf f]).flatten ++
          splitWs rest := by
  intro fs
  induction fs with
  | nil => intro rest _ _; simp
  | cons f fs' ih =>
      intro rest hall hrest
      rw [List.map_cons, List.flatten_cons, List.append_assoc]
      simp only [List.cons_append]
      have hrest2 : ∃ r2,
          (fs'.map fun g => ' ' :: '-' :: X :: ' ' :: specOf g).flatten ++
            rest = ' ' :: r2 := by
        cases fs' with
        | nil => simpa using hrest
        | cons g gs => exact ⟨_, rfl⟩
      rw [splitWs_one_flag X hX (specOf f) _
        (hall f (List.mem_cons_self _ _)).1
        (hall f (List.mem_cons_self _ _)).2 hrest2]
      rw [ih rest (fun g hg => hall g (List.mem_cons_of_mem _ hg)) hrest]
      simp

/-- Tokenizing the final ` user@host` of an export with no `-p` part. -/
lemma splitWs_tail_uh (u h : PyStr) (hu : ∀ c ∈ u, notWs c = true)
    (hh : ∀ c ∈ h, notWs c = true) :
    splitWs (' ' :: (u ++ '@' :: h)) = [u ++ '@' :: h] := by
  rw [splitWs_cons_ws _ _ (by decide)]
  refine splitWs_token_only _ (append_cons_ne_nil u '@' h) ?_
  intro c hc
  rcases List.mem_append.mp hc with h1 | h1
  · exact hu c h1
  · rcases List.mem_cons.mp h1 with rfl | h2
    · decide
    · exact hh c h2

/-- Tokenizing the final ` -p port user@host` of an export. -/
lemma splitWs_tail_port (port u h : PyStr) (hport_ne : port ≠ [])
    (hport : ∀ c ∈ port, notWs c = true)
    (hu : ∀ c ∈ u, notWs c = true) (hh : ∀ c ∈ h, notWs c = true) :
    splitWs (' ' :: '-' :: 'p' :: ' ' ::
        (port ++ ' ' :: (u ++ '@' :: h))) =
      [('-' :: 'p' :: []), port, u ++ '@' :: h] := by
  rw [splitWs_one_flag 'p' (by decide) port (' ' :: (u ++ '@' :: h))
    hport_ne hport ⟨_, rfl⟩]
  rw [splitWs_tail_uh u h hu hh]

lemma lspec_ne_nil (f : ForwardSpec) : lspec f ≠ [] := by
  simp [lspec]

lemma rspec_ne_nil (f : ForwardSpec) : rspec f ≠ [] := by
  simp [rspec]

lemma legacyLspec_ne_nil (c : Config) : legacyLspec c ≠ [] := by
  simp [legacyLspec]

lemma legacyRspec_ne_nil (c : Config) : legacyRspec c ≠ [] := by
  simp [legacyRspec]

lemma spec_noWs (a b c : PyStr) (ha : strNoWs a) (hb : strNoWs b)
    (hc : strNoWs c) :
    ∀ ch ∈ a ++ ":".toList ++ b ++ ":".toList ++ c, notWs ch = true := by
  intro ch hch
  simp only [List.append_assoc, List.mem_append,
    show (":".toList : List Char) = [':'] from rfl,
    List.mem_singleton] at hch
  rcases hch with hx | hx | hx | hx | hx
  · exact ha ch hx
  · subst hx; decide
  · exact hb ch hx
  · subst hx; decide
  · exact hc ch hx

lemma lspec_noWs (f : ForwardSpec) (h1 : strNoWs f.local_port)
    (h2 : strNoWs f.remote_host) (h3 : strNoWs f.remote_port) :
    ∀ ch ∈ lspec f, notWs ch = true :=
  spec_noWs f.local_port f.remote_host f.remote_port h1 h2 h3

lemma rspec_noWs (f : ForwardSpec) (h1 : strNoWs f.local_port)
    (h2 : strNoWs f.remote_host) (h3 : strNoWs f.remote_port) :
    ∀ ch ∈ rspec f, notWs ch = true :=
  spec_noWs f.remote_port f.remote_host f.local_port h3 h2 h1

lemma legacyLspec_noWs (c : Config) (h1 : strNoWs c.local_port)
    (h2 : strNoWs c.remote_host) (h3 : strNoWs c.remote_port) :
    ∀ ch ∈ legacyLspec c, notWs ch = true :=
  spec_noWs c.local_port c.remote_host c.remote_port h1 h2 h3

lemma legacyRspec_noWs (c : Config) (h1 : strNoWs c.local_port)
    (h2 : strNoWs c.remote_host) (h3 : strNoWs c.remote_port) :
    ∀ ch ∈ legacyRspec c, notWs ch = true :=
  spec_noWs c.remote_port c.remote_host c.local_port h3 h2 h1

/-- Tokenization of the exported command: `export_to_command c` splits
into `ssh`, `-N`, the per-type middle tokens, the optional `-p`/port
pair, and the `user@host` token. -/
lemma splitWs_export (c : Config)
    (hu : strNoWs c.ssh_user) (hh : strNoWs c.ssh_host)
    (hpw : strNoWs c.ssh_port) (hpn : c.ssh_port ≠ [])
    (hlpw : strNoWs c.local_port) (hrhw : strNoWs c.remote_host)
    (hrpw : strNoWs c.remote_port)
    (hfw : ∀ f ∈ c.forwards, strNoWs f.local_port ∧ strNoWs f.remote_host ∧
      strNoWs f.remote_port)
    (hdyn : c.type ≠ "local".toList → c.type ≠ "remote".toList →
      c.local_port ≠ []) :
    splitWs (export_to_command c) =
      ["ssh".toList, "-N".toList] ++ midTokens c ++
        (if c.ssh_port ≠ "22".toList then ["-p".toList, c.ssh_port]
         else []) ++
        [c.ssh_user ++ '@' :: c.ssh_host] := by
  by_cases hloc : c.type = "local".toList
  · cases hfs : c.forwards with
    | cons f0 fs' =>
        by_cases h22 : c.ssh_port ≠ "22".toList
        · rw [if_pos h22]
          have e : export_to_command c =
              's' :: 's' :: 'h' :: ' ' :: '-' :: 'N' :: ' ' :: '-' :: 'L' :: ' ' ::
                (lspec f0 ++
              ((fs'.map fun f => ' ' :: '-' :: 'L' :: ' ' :: lspec f).flatten ++
                (' ' :: '-' :: 'p' :: ' ' ::
                (c.ssh_port ++ ' ' :: (c.ssh_user ++ '@' :: c.ssh_host))))) := by
            simp only [export_to_command]
            rw [if_pos hloc]
            rw [hfs]
            rw [if_pos (List.cons_ne_nil f0 fs')]
            rw [if_pos h22]
            simp only [List.map_cons, List.flatten_cons, List.append_assoc, List.nil_append]
            rfl
          rw [e, splitWs_sshN _ ⟨_, rfl⟩]
          have hx : ∃ r',
              ((fs'.map fun f => ' ' :: '-' :: 'L' :: ' ' :: lspec f).flatten ++
                (' ' :: '-' :: 'p' :: ' ' ::
                (c.ssh_port ++ ' ' :: (c.ssh_user ++ '@' :: c.ssh_host)))) = ' ' :: r' := by
            cases fs' with
            | nil => exact ⟨_, rfl⟩
            | cons g gs => exact ⟨_, rfl⟩
          rw [splitWs_one_flag 'L' (by decide) (lspec f0) _ (lspec_ne_nil f0)
            (lspec_noWs f0 (hfw f0 (by simp [hfs])).1
              (hfw f0 (by simp [hfs])).2.1 (hfw f0 (by simp [hfs])).2.2) hx]
          rw [splitWs_chunks 'L' (by decide) lspec fs' _
            (fun f hf => ⟨lspec_ne_nil f,
              lspec_noWs f (hfw f (by simp [hfs, hf])).1
                (hfw f (by simp [hfs, hf])).2.1 (hfw f (by simp [hfs, hf])).2.2⟩)
            ⟨_, rfl⟩]
          rw [splitWs_tail_port c.ssh_port c.ssh_user c.ssh_host hpn hpw hu hh]
          simp [midTokens, hloc, hfs, List.append_assoc]
        · rw [if_neg h22]
          have e : export_to_command c =
              's' :: 's' :: 'h' :: ' ' :: '-' :: 'N' :: ' ' :: '-' :: 'L' :: ' ' ::
                (lspec f0 ++
              ((fs'.map fun f => ' ' :: '-' :: 'L' :: ' ' :: lspec f).flatten ++
                (' ' :: (c.ssh_user ++ '@' :: c.ssh_host)))) := by
            simp only [export_to_command]
            rw [if_pos hloc]
            rw [hfs]
            rw [if_pos (List.cons_ne_nil f0 fs')]
            rw [if_neg h22]
            simp only [List.map_cons, List.flatten_cons, List.append_assoc, List.nil_append]
            rfl
          rw [e, splitWs_sshN _ ⟨_, rfl⟩]
          have hx : ∃ r',
              ((fs'.map fun f => ' ' :: '-' :: 'L' :: ' ' :: lspec f).flatten ++
                (' ' :: (c.ssh_user ++ '@' :: c.ssh_host))) = ' ' :: r' := by
            cases fs' with
            | nil => exact ⟨_, rfl⟩
            | cons g gs => exact ⟨_, rfl⟩
          rw [splitWs_one_flag 'L' (by decide) (lspec f0) _ (lspec_ne_nil f0)
            (lspec_noWs f0 (hfw f0 (by simp [hfs])).1
              (hfw f0 (by simp [hfs])).2.1 (hfw f0 (by simp [hfs])).2.2) hx]
          rw [splitWs_chunks 'L' (by decide) lspec fs' _
            (fun f hf => ⟨lspec_ne_nil f,
              lspec_noWs f (hfw f (by simp [hfs, hf])).1
                (hfw f (by simp [hfs, hf])).2.1 (hfw f (by simp [hfs, hf])).2.2⟩)
            ⟨_, rfl⟩]
          rw [splitWs_tail_uh c.ssh_user c.ssh_host hu hh]
          simp [midTokens, hloc, hfs, List.append_assoc]
    | nil =>
        by_cases h22 : c.ssh_port ≠ "22".toList
        · rw [if_pos h22]
          have e : export_to_command c =
              's' :: 's' :: 'h' :: ' ' :: '-' :: 'N' :: ' ' :: '-' :: 'L' :: ' ' ::
                (legacyLspec c ++
              (' ' :: '-' :: 'p' :: ' ' ::
                (c.ssh_port ++ ' ' :: (c.ssh_user ++ '@' :: c.ssh_host)))) := by
            simp only [export_to_command]
            rw [if_pos hloc]
            rw [hfs]
            rw [if_neg (by simp : ¬ (([] : List ForwardSpec) ≠ []))]
            rw [if_pos h22]
            simp only [List.map_cons, List.flatten_cons, List.append_assoc, List.nil_append]
            rfl
          rw [e, splitWs_sshN _ ⟨_, rfl⟩]
          rw [splitWs_one_flag 'L' (by decide) (legacyLspec c) _
            (legacyLspec_ne_nil c) (legacyLspec_noWs c hlpw hrhw hrpw) ⟨_, rfl⟩]
          rw [splitWs_tail_port c.ssh_port c.ssh_user c.ssh_host hpn hpw hu hh]
          simp [midTokens, hloc, hfs, List.append_assoc]
        · rw [if_neg h22]
          have e : export_to_command c =
              's' :: 's' :: 'h' :: ' ' :: '-' :: 'N' :: ' ' :: '-' :: 'L' :: ' ' ::
                (legacyLspec c ++
              (' ' :: (c.ssh_user ++ '@' :: c.ssh_host))) := by
            simp only [export_to_command]
            rw [if_pos hloc]
            rw [hfs]
            rw [if_neg (by simp : ¬ (([] : List ForwardSpec) ≠ []))]
            rw [if_neg h22]
            simp only [List.map_cons, List.flatten_cons, List.append_assoc, List.nil_append]
            rfl
          rw [e, splitWs_sshN _ ⟨_, rfl⟩]
          rw [splitWs_one_flag 'L' (by decide) (legacyLspec c) _
            (legacyLspec_ne_nil c) (legacyLspec_noWs c hlpw hrhw hrpw) ⟨_, rfl⟩]
          rw [splitWs_tail_uh c.ssh_user c.ssh_host hu hh]
          simp [midTokens, hloc, hfs, List.append_assoc]
  · by_cases hrem : c.type = "remote".toList
    · cases hfs : c.forwards with
      | cons f0 fs' =>
          by_cases h22 : c.ssh_port ≠ "22".toList
          · rw [if_pos h22]
            have e : export_to_command c =
                's' :: 's' :: 'h' :: ' ' :: '-' :: 'N' :: ' ' :: '-' :: 'R' :: ' ' ::
                  (rspec f0 ++
                ((fs'.map fun f => ' ' :: '-' :: 'R' :: ' ' :: rspec f).flatten ++
                  (' ' :: '-' :: 'p' :: ' ' ::
                  (c.ssh_port ++ ' ' :: (c.ssh_user ++ '@' :: c.ssh_host))))) := by
              simp only [export_to_command]
              rw [if_neg hloc, if_pos hrem]
              rw [hfs]
              rw [if_pos (List.cons_ne_nil f0 fs')]
              rw [if_pos h22]
              simp only [List.map_cons, List.flatten_cons, List.append_assoc, List.nil_append]
              rfl
            rw [e, splitWs_sshN _ ⟨_, rfl⟩]
            have hx : ∃ r',
                ((fs'.map fun f => ' ' :: '-' :: 'R' :: ' ' :: rspec f).flatten ++
                  (' ' :: '-' :: 'p' :: ' ' ::
                  (c.ssh_port ++ ' ' :: (c.ssh_user ++ '@' :: c.ssh_host)))) = ' ' :: r' := by
              cases fs' with
              | nil => exact ⟨_, rfl⟩
              | cons g gs => exact ⟨_, rfl⟩
            rw [splitWs_one_flag 'R' (by decide) (rspec f0) _ (rspec_ne_nil f0)
              (rspec_noWs f0 (hfw f0 (by simp [hfs])).1
                (hfw f0 (by simp [hfs])).2.1 (hfw f0 (by simp [hfs])).2.2) hx]
            rw [splitWs_chunks 'R' (by decide) rspec fs' _
              (fun f hf => ⟨rspec_ne_nil f,
                rspec_noWs f (hfw f (by simp [hfs, hf])).1
                  (hfw f (by simp [hfs, hf])).2.1 (hfw f (by simp [hfs, hf])).2.2⟩)
              ⟨_, rfl⟩]
            rw [splitWs_tail_port c.ssh_port c.ssh_user c.ssh_host hpn hpw hu hh]
            simp [midTokens, hloc, hrem, hfs, List.append_assoc]
          · rw [if_neg h22]
            have e : export_to_command c =
                's' :: 's' :: 'h' :: ' ' :: '-' :: 'N' :: ' ' :: '-' :: 'R' :: ' ' ::
                  (rspec f0 ++
                ((fs'.map fun f => ' ' :: '-' :: 'R' :: ' ' :: rspec f).flatten ++
                  (' ' :: (c.ssh_user ++ '@' :: c.ssh_host)))) := by
              simp only [export_to_command]
              rw [if_neg hloc, if_pos hrem]
              rw [hfs]
              rw [if_pos (List.cons_ne_nil f0 fs')]
              rw [if_neg h22]
              simp only [List.map_cons, List.flatten_cons, List.append_assoc, List.nil_append]
              rfl
            rw [e, splitWs_sshN _ ⟨_, rfl⟩]
            have hx : ∃ r',
                ((fs'.map fun f => ' ' :: '-' :: 'R' :: ' ' :: rspec f).flatten ++
                  (' ' :: (c.ssh_user ++ '@' :: c.ssh_host))) = ' ' :: r' := by
              cases fs' with
              | nil => exact ⟨_, rfl⟩
              | cons g gs => exact ⟨_, rfl⟩
            rw [splitWs_one_flag 'R' (by decide) (rspec f0) _ (rspec_ne_nil f0)
              (rspec_noWs f0 (hfw f0 (by simp [hfs])).1
                (hfw f0 (by simp [hfs])).2.1 (hfw f0 (by simp [hfs])).2.2) hx]
            rw [splitWs_chunks 'R' (by decide) rspec fs' _
              (fun f hf => ⟨rspec_ne_nil f,
                rspec_noWs f (hfw f (by simp [hfs, hf])).1
                  (hfw f (by simp [hfs, hf])).2.1 (hfw f (by simp [hfs, hf])).2.2⟩)
              ⟨_, rfl⟩]
            rw [splitWs_tail_uh c.ssh_user c.ssh_host hu hh]
            simp [midTokens, hloc, hrem, hfs, List.append_assoc]
      | nil =>
          by_cases h22 : c.ssh_port ≠ "22".toList
          · rw [if_pos h22]
            have e : export_to_command c =
                's' :: 's' :: 'h' :: ' ' :: '-' :: 'N' :: ' ' :: '-' :: 'R' :: ' ' ::
                  (legacyRspec c ++
                (' ' :: '-' :: 'p' :: ' ' ::
                  (c.ssh_port ++ ' ' :: (c.ssh_user ++ '@' :: c.ssh_host)))) := by
              simp only [export_to_command]
              rw [if_neg hloc, if_pos hrem]
              rw [hfs]
              rw [if_neg (by simp : ¬ (([] : List ForwardSpec) ≠ []))]
              rw [if_pos h22]
              simp only [List.map_cons, List.flatten_cons, List.append_assoc, List.nil_append]
              rfl
            rw [e, splitWs_sshN _ ⟨_, rfl⟩]
            rw [splitWs_one_flag 'R' (by decide) (legacyRspec c) _
              (legacyRspec_ne_nil c) (legacyRspec_noWs c hlpw hrhw hrpw) ⟨_, rfl⟩]
            rw [splitWs_tail_port c.ssh_port c.ssh_user c.ssh_host hpn hpw hu hh]
            simp [midTokens, hloc, hrem, hfs, List.append_assoc]
          · rw [if_neg h22]
            have e : export_to_command c =
                's' :: 's' :: 'h' :: ' ' :: '-' :: 'N' :: ' ' :: '-' :: 'R' :: ' ' ::
                  (legacyRspec c ++
                (' ' :: (c.ssh_user ++ '@' :: c.ssh_host))) := by
              simp only [export_to_command]
              rw [if_neg hloc, if_pos hrem]
              rw [hfs]
              rw [if_neg (by simp : ¬ (([] : List ForwardSpec) ≠ []))]
              rw [if_neg h22]
              simp only [List.map_cons, List.flatten_cons, List.append_assoc, List.nil_append]
              rfl
            rw [e, splitWs_sshN _ ⟨_, rfl⟩]
            rw [splitWs_one_flag 'R' (by decide) (legacyRspec c) _
              (legacyRspec_ne_nil c) (legacyRspec_noWs c hlpw hrhw hrpw) ⟨_, rfl⟩]
            rw [splitWs_tail_uh c.ssh_user c.ssh_host hu hh]
            simp [midTokens, hloc, hrem, hfs, List.append_assoc]
    · have hlp_ne : c.local_port ≠ [] := hdyn hloc hrem
      by_cases h22 : c.ssh_port ≠ "22".toList
      · rw [if_pos h22]
        have e : export_to_command c =
            's' :: 's' :: 'h' :: ' ' :: '-' :: 'N' :: ' ' :: '-' :: 'D' :: ' ' ::
              (c.local_port ++
            (' ' :: '-' :: 'p' :: ' ' ::
              (c.ssh_port ++ ' ' :: (c.ssh_user ++ '@' :: c.ssh_host)))) := by
          simp only [export_to_command]
          rw [if_neg hloc, if_neg hrem]
          rw [if_pos h22]
          simp only [List.map_cons, List.flatten_cons, List.append_assoc, List.nil_append]
          rfl
        rw [e, splitWs_sshN _ ⟨_, rfl⟩]
        rw [splitWs_one_flag 'D' (by decide) c.local_port _ hlp_ne hlpw ⟨_, rfl⟩]
        rw [splitWs_tail_port c.ssh_port c.ssh_user c.ssh_host hpn hpw hu hh]
        have hmid : midTokens c = ["-D".toList, c.local_port] := by
          simp only [midTokens]
          rw [if_neg hloc, if_neg hrem]
        rw [hmid]
        simp [List.append_assoc]
      · rw [if_neg h22]
        have e : export_to_command c =
            's' :: 's' :: 'h' :: ' ' :: '-' :: 'N' :: ' ' :: '-' :: 'D' :: ' ' ::
              (c.local_port ++
            (' ' :: (c.ssh_user ++ '@' :: c.ssh_host))) := by
          simp only [export_to_command]
          rw [if_neg hloc, if_neg hrem]
          rw [if_neg h22]
          simp only [List.map_cons, List.flatten_cons, List.append_assoc, List.nil_append]
          rfl
        rw [e, splitWs_sshN _ ⟨_, rfl⟩]
        rw [splitWs_one_flag 'D' (by decide) c.local_port _ hlp_ne hlpw ⟨_, rfl⟩]
        rw [splitWs_tail_uh c.ssh_user c.ssh_host hu hh]
        have hmid : midTokens c = ["-D".toList, c.local_port] := by
          simp only [midTokens]
          rw [if_neg hloc, if_neg hrem]
        rw [hmid]
        simp [List.append_assoc]

lemma spec_ne_dashp (a b c : PyStr) :
    a ++ ":".toList ++ b ++ ":".toList ++ c ≠ "-p".toList := by
  intro h
  have hmem : ':' ∈ a ++ ":".toList ++ b ++ ":".toList ++ c := by simp
  rw [h] at hmem
  exact absurd hmem (by decide)

lemma mem_midTokens_ne_dashp (c : Config)
    (hdp : c.type ≠ "local".toList → c.type ≠ "remote".toList →
      c.local_port ≠ "-p".toList) :
    ∀ t ∈ midTokens c, t ≠ "-p".toList := by
  intro t ht
  by_cases hloc : c.type = "local".toList
  · rw [midTokens, if_pos hloc] at ht
    by_cases hfs : c.forwards ≠ []
    · rw [if_pos hfs] at ht
      rcases List.mem_flatten.mp ht with ⟨l, hl, htl⟩
      rcases List.mem_map.mp hl with ⟨f, _, rfl⟩
      rcases List.mem_cons.mp htl with rfl | h2
      · decide
      · rcases List.mem_singleton.mp h2 with rfl
        exact spec_ne_dashp f.local_port f.remote_host f.remote_port
    · rw [if_neg hfs] at ht
      rcases List.mem_cons.mp ht with rfl | h2
      · decide
      · rcases List.mem_singleton.mp h2 with rfl
        exact spec_ne_dashp c.local_port c.remote_host c.remote_port
  · by_cases hrem : c.type = "remote".toList
    · rw [midTokens, if_neg hloc, if_pos hrem] at ht
      by_cases hfs : c.forwards ≠ []
      · rw [if_pos hfs] at ht
        rcases List.mem_flatten.mp ht with ⟨l, hl, htl⟩
        rcases List.mem_map.mp hl with ⟨f, _, rfl⟩
        rcases List.mem_cons.mp htl with rfl | h2
        · decide
        · rcases List.mem_singleton.mp h2 with rfl
          exact spec_ne_dashp f.remote_port f.remote_host f.local_port
      · rw [if_neg hfs] at ht
        rcases List.mem_cons.mp ht with rfl | h2
        · decide
        · rcases List.mem_singleton.mp h2 with rfl
          exact spec_ne_dashp c.remote_port c.remote_host c.local_port
    · rw [midTokens, if_neg hloc, if_neg hrem] at ht
      rcases List.mem_cons.mp ht with rfl | h2
      · decide
      · rcases List.mem_singleton.mp h2 with rfl
        exact hdp hloc hrem

/-! ## Claim C3 -/

/-- C3 (amended): for whitespace-free field values, the spawned
argument vector equals the exported command text split into tokens
exactly when `sshPort ≠ "22"`.  When `sshPort = "22"` the equivalence
fails in one direction only: the argument vector always contains `-p`
(it is appended unconditionally) whereas the exported text omits it, so
the token lists differ by the `-p`/port pair. -/
theorem c3_start_cmd_refines_export (c : Config)
    (hu : strNoWs c.ssh_user) (hh : strNoWs c.ssh_host)
    (hpw : strNoWs c.ssh_port) (hpn : c.ssh_port ≠ [])
    (hlpw : strNoWs c.local_port) (hrhw : strNoWs c.remote_host)
    (hrpw : strNoWs c.remote_port)
    (hfw : ∀ f ∈ c.forwards, strNoWs f.local_port ∧ strNoWs f.remote_host ∧
      strNoWs f.remote_port)
    (hdyn : c.type ≠ "local".toList → c.type ≠ "remote".toList →
      c.local_port ≠ [] ∧ c.local_port ≠ "-p".toList) :
    (c.ssh_port ≠ "22".toList →
      splitWs (export_to_command c) = start_cmd c) ∧
    (c.ssh_port = "22".toList →
      "-p".toList ∈ start_cmd c ∧
      "-p".toList ∉ splitWs (export_to_command c)) := by
  have hexp := splitWs_export c hu hh hpw hpn hlpw hrhw hrpw hfw
    (fun h1 h2 => (hdyn h1 h2).1)
  constructor
  · intro hne
    rw [hexp, if_pos hne]
    simp [start_cmd, List.append_assoc]
  · intro h22
    constructor
    · simp [start_cmd]
    · rw [hexp, if_neg (by simp [h22])]
      simp only [List.append_nil]
      intro hmem
      rcases List.mem_append.mp hmem with h1 | h1
      · rcases List.mem_append.mp h1 with h2 | h2
        · exact absurd h2 (by decide)
        · exact (mem_midTokens_ne_dashp c
            (fun ha hb => (hdyn ha hb).2) _ h2) rfl
      · have h3 : ("-p".toList : List Char) =
            c.ssh_user ++ '@' :: c.ssh_host := List.mem_singleton.mp h1
        have h4 : '@' ∈ ("-p".toList : List Char) := by
          rw [h3]
          simp
        exact absurd h4 (by decide)

/-- C3 witness: the remote spec with ssh port `2222` has matching
token lists; the local spec with ssh port `22` has `-p` in the argv
but not among the exported tokens. -/
theorem c3_start_cmd_refines_export_witness :
    (splitWs (export_to_command
        { type := "remote".toList, ssh_port := "2222".toList,
          local_port := "8080".toList, remote_host := "localhost".toList,
          remote_port := "9090".toList, ssh_user := "user".toList,
          ssh_host := "host".toList, name := "host_R9090".toList,
          forwards := [] }) =
      start_cmd
        { type := "remote".toList, ssh_port := "2222".toList,
          local_port := "8080".toList, remote_host := "localhost".toList,
          remote_port := "9090".toList, ssh_user := "user".toList,
          ssh_host := "host".toList, name := "host_R9090".toList,
          forwards := [] }) ∧
    ("-p".toList ∈ start_cmd
        { type := "local".toList, ssh_port := "22".toList,
          local_port := "8080".toList, remote_host := "localhost".toList,
          remote_port := "80".toList, ssh_user := "alice".toList,
          ssh_host := "example.com".toList,
          name := "example.com_L8080".toList, forwards := [] } ∧
      "-p".toList ∉ splitWs (export_to_command
        { type := "local".toList, ssh_port := "22".toList,
          local_port := "8080".toList, remote_host := "localhost".toList,
          remote_port := "80".toList, ssh_user := "alice".toList,
          ssh_host := "example.com".toList,
          name := "example.com_L8080".toList, forwards := [] })) :=
  ⟨(c3_start_cmd_refines_export _ (by decide) (by decide) (by decide)
      (by decide) (by decide) (by decide) (by decide) (by decide)
      (by decide)).1 (by decide),
   (c3_start_cmd_refines_export _ (by decide) (by decide) (by decide)
      (by decide) (by decide) (by decide) (by decide) (by decide)
      (by decide)).2 (by decide)⟩

/-! ## Claim C8 -/

/-- C8 (amended): on the claimed input the importer accepts two specs,
the first named `my-tunnel` from the comment and the second keeping its
derived name `h1_L9000` with no suffix — the rename of the first spec
removed the collision.  The `_1` suffix does fire when the derived
names actually collide, as with the same two commands and no comment
line. -/
theorem c8_batch_naming :
    ((let r := on_import_command
        ("# my-tunnel\nssh -L 9000:localhost:9000 dave@h1\nssh -L 9000:localhost:9000 dave@h1".toList)
        []
      (r.imported, r.failed, r.configs.map Config.name, r.errors)) =
      (2, 0, ["my-tunnel".toList, "h1_L9000".toList], [])) ∧
    ((let r2 := on_import_command
        ("ssh -L 9000:localhost:9000 dave@h1\nssh -L 9000:localhost:9000 dave@h1".toList)
        []
      (r2.imported, r2.failed, r2.configs.map Config.name)) =
      (2, 0, ["h1_L9000".toList, "h1_L9000_1".toList])) := by
  exact ⟨by decide, by decide⟩

/-! ## Claim C9 -/

/-- C9 (amended): every flush clears `pendingName` whether parsing
succeeds or fails, and records a failure keyed by the line number its
caller passes; flushes triggered by a new `ssh` line (and by comment
lines) pass the stored start line of the accumulated block, but the
final end-of-input flush passes the number of the last physical line of
the input, not the block's starting line. -/
theorem c9_flush_semantics :
    (∀ (st : ImportState) (key : Nat),
      (flushCmd st key).pending_name = none ∧
      (∀ e, parse_ssh_command (joinSpace st.current_command) =
          Except.error e →
        (flushCmd st key).failed = st.failed + 1 ∧
        (flushCmd st key).errors = st.errors ++ [(key, e)])) ∧
    (∀ (st : ImportState) (line_num : Nat) (raw : PyStr),
      pyStrip raw ≠ [] →
      ¬ ("#".toList).isPrefixOf (pyStrip raw) = true →
      ("ssh".toList).isPrefixOf (pyStrip raw) = true →
      st.current_command ≠ [] →
      importLine st line_num raw =
        { flushCmd st st.command_start_line with
            current_command := [pyStrip raw],
            command_start_line := line_num }) ∧
    (∀ (input : PyStr) (existing : List PyStr) (e : PyStr),
      (importGo (initImportState existing) 1
          (splitOnNl (replaceBackslashNL input))).current_command ≠ [] →
      parse_ssh_command (joinSpace
          (importGo (initImportState existing) 1
            (splitOnNl (replaceBackslashNL input))).current_command) =
        Except.error e →
      (on_import_command input existing).errors =
        (importGo (initImportState existing) 1
            (splitOnNl (replaceBackslashNL input))).errors ++
          [((splitOnNl (replaceBackslashNL input)).length, e)] ∧
      (on_import_command input existing).pending_name = none) := by
  have hflush : ∀ (st : ImportState) (key : Nat),
      (flushCmd st key).pending_name = none ∧
      (∀ e, parse_ssh_command (joinSpace st.current_command) =
          Except.error e →
        (flushCmd st key).failed = st.failed + 1 ∧
        (flushCmd st key).errors = st.errors ++ [(key, e)]) := by
    intro st key
    constructor
    · cases hp : parse_ssh_command (joinSpace st.current_command) with
      | ok cfg => simp [flushCmd, hp]
      | error e => simp [flushCmd, hp]
    · intro e he
      constructor <;> simp [flushCmd, he]
  refine ⟨hflush, ?_, ?_⟩
  · intro st line_num raw h1 h2 h3 h4
    simp only [importLine]
    rw [if_neg h1, if_neg h2, if_pos h3, if_pos h4]
  · intro input existing e hne hperr
    have hrun : on_import_command input existing =
        flushCmd (importGo (initImportState existing) 1
            (splitOnNl (replaceBackslashNL input)))
          (splitOnNl (replaceBackslashNL input)).length := by
      simp only [on_import_command]
      rw [if_pos hne]
    rw [hrun]
    exact ⟨((hflush _ _).2 e hperr).2, (hflush _ _).1⟩

/-- C9 witness: a concrete failing flush (pending cleared, error keyed
by the passed line), a concrete `ssh`-line flush using the stored start
line 1, and the concrete final flush of `"ssh hello\nworld"` keyed by
line 2. -/
theorem c9_flush_semantics_witness :
    ((flushCmd
        { imported := 0, failed := 0, errors := [],
          existing_names := [], pending_name := some ("x".toList),
          current_command := ["ssh hello".toList, "world".toList],
          command_start_line := 1, configs := [] } 7).pending_name =
        none ∧
      (flushCmd
        { imported := 0, failed := 0, errors := [],
          existing_names := [], pending_name := some ("x".toList),
          current_command := ["ssh hello".toList, "world".toList],
          command_start_line := 1, configs := [] } 7).errors =
        [] ++ [(7, "Could not find user@host in command".toList)]) ∧
    ((on_import_command ("ssh hello\nworld".toList) []).errors =
        [] ++ [(2, "Could not find user@host in command".toList)] ∧
      (on_import_command ("ssh hello\nworld".toList) []).pending_name =
        none) :=
  ⟨⟨(c9_flush_semantics.1
      { imported := 0, failed := 0, errors := [],
        existing_names := [], pending_name := some ("x".toList),
        current_command := ["ssh hello".toList, "world".toList],
        command_start_line := 1, configs := [] } 7).1,
    ((c9_flush_semantics.1
      { imported := 0, failed := 0, errors := [],
        existing_names := [], pending_name := some ("x".toList),
        current_command := ["ssh hello".toList, "world".toList],
        command_start_line := 1, configs := [] } 7).2
      ("Could not find user@host in command".toList) (by decide)).2⟩,
   c9_flush_semantics.2.2 ("ssh hello\nworld".toList) []
     ("Could not find user@host in command".toList) (by decide)
     (by decide)⟩

/-! ## Scanner equation and failure lemmas (towards the round trip) -/

lemma takeWhile_mem {p : Char → Bool} :
    ∀ (l : List Char) (c : Char), c ∈ l.takeWhile p → p c = true := by
  intro l
  induction l with
  | nil => intro c hc; simp at hc
  | cons a rest ih =>
      intro c hc
      rw [List.takeWhile_cons] at hc
      by_cases ha : p a
      · rw [if_pos ha] at hc
        rcases List.mem_cons.mp hc with rfl | h2
        · exact ha
        · exact ih c h2
      · rw [if_neg ha] at hc
        simp at hc

lemma tryTriple_rest_length (flag : Char) (l : List Char) (t : Triple)
    (rest : List Char) (h : tryTriple flag l = some (t, rest)) :
    rest.length < l.length := by
  rcases l with _ | ⟨a, _ | ⟨b, _ | ⟨c0, rest'⟩⟩⟩
  · simp [tryTriple] at h
  · simp [tryTriple] at h
  · simp [tryTriple] at h
  · simp only [tryTriple] at h
    by_cases hg : a = '-' ∧ b = flag ∧ c0 = ' '
    · rw [if_pos hg] at h
      cases hr1 : rest'.dropWhile isDigit with
      | nil => rw [hr1] at h; exact absurd h (by simp)
      | cons x r2 =>
          rw [hr1] at h
          dsimp only at h
          by_cases hc1 : rest'.takeWhile isDigit ≠ [] ∧ x = ':'
          · rw [if_pos hc1] at h
            cases hr3 : r2.dropWhile hostChar with
            | nil => rw [hr3] at h; exact absurd h (by simp)
            | cons y r4 =>
                rw [hr3] at h
                dsimp only at h
                by_cases hc2 : r2.takeWhile hostChar ≠ [] ∧ y = ':'
                · rw [if_pos hc2] at h
                  by_cases hd2 : r4.takeWhile isDigit ≠ []
                  · rw [if_pos hd2] at h
                    rw [Option.some.injEq, Prod.mk.injEq] at h
                    have hrest : rest = r4.dropWhile isDigit := h.2.symm
                    subst hrest
                    have h1 : (r4.dropWhile isDigit).length ≤ r4.length :=
                      length_dropWhile_le _ _
                    have h2 : r4.length < r2.length := by
                      have h6 := congrArg List.length hr3
                      rw [List.length_cons] at h6
                      have h3 : (r2.dropWhile hostChar).length ≤ r2.length :=
                        length_dropWhile_le _ _
                      omega
                    have h4 : r2.length < rest'.length := by
                      have h7 := congrArg List.length hr1
                      rw [List.length_cons] at h7
                      have h5 : (rest'.dropWhile isDigit).length ≤
                          rest'.length := length_dropWhile_le _ _
                      omega
                    simp only [List.length_cons]
                    omega
                  · rw [if_neg hd2] at h
                    exact absurd h (by simp)
                · rw [if_neg hc2] at h
                  exact absurd h (by simp)
          · rw [if_neg hc1] at h
            exact absurd h (by simp)
    · rw [if_neg hg] at h
      exact absurd h (by simp)

lemma scanTriplesGo_congr (flag : Char) :
    ∀ (f g : Nat) (l : List Char), l.length ≤ f → l.length ≤ g →
      scanTriplesGo flag f l = scanTriplesGo flag g l := by
  intro f
  induction f with
  | zero =>
      intro g l hf _
      have hl : l = [] := List.eq_nil_of_length_eq_zero (Nat.le_zero.mp hf)
      subst hl
      cases g <;> rfl
  | succ f ih =>
      intro g l hf hg
      cases g with
      | zero =>
          have hl : l = [] := List.eq_nil_of_length_eq_zero (Nat.le_zero.mp hg)
          subst hl
          rfl
      | succ g =>
          simp only [scanTriplesGo]
          cases htr : tryTriple flag l with
          | some pr =>
              obtain ⟨t, rest⟩ := pr
              have hlt : rest.length < l.length :=
                tryTriple_rest_length flag l t rest htr
              dsimp only
              rw [ih g rest (by omega) (by omega)]
          | none =>
              dsimp only
              cases l with
              | nil => rfl
              | cons c tl =>
                  have h1 : tl.length ≤ f := by
                    simp only [List.length_cons] at hf
                    omega
                  have h2 : tl.length ≤ g := by
                    simp only [List.length_cons] at hg
                    omega
                  exact ih g tl h1 h2

lemma scanTriples_eq_some (flag : Char) (l : List Char) (t : Triple)
    (rest : List Char) (h : tryTriple flag l = some (t, rest)) :
    scanTriples flag l = t :: scanTriples flag rest := by
  cases l with
  | nil => simp [tryTriple] at h
  | cons c tl =>
      show scanTriplesGo flag (c :: tl).length (c :: tl) = _
      rw [List.length_cons]
      show scanTriplesGo flag (tl.length + 1) (c :: tl) = _
      simp only [scanTriplesGo, h]
      have hlt : rest.length < (c :: tl).length :=
        tryTriple_rest_length flag _ t rest h
      rw [List.length_cons] at hlt
      rw [scanTriplesGo_congr flag tl.length rest.length rest (by omega)
        le_rfl]
      rfl

lemma scanTriples_eq_none_cons (flag : Char) (c : Char) (l : List Char)
    (h : tryTriple flag (c :: l) = none) :
    scanTriples flag (c :: l) = scanTriples flag l := by
  show scanTriplesGo flag (c :: l).length (c :: l) = _
  rw [List.length_cons]
  show scanTriplesGo flag (l.length + 1) (c :: l) = _
  simp only [scanTriplesGo, h]
  rfl

lemma tryTriple_none_first (flag a b c : Char) (r : List Char)
    (h : a ≠ '-') : tryTriple flag (a :: b :: c :: r) = none := by
  simp only [tryTriple]
  rw [if_neg (fun hg => h hg.1)]

lemma tryTriple_none_second (flag a b c : Char) (r : List Char)
    (h : b ≠ flag) : tryTriple flag (a :: b :: c :: r) = none := by
  simp only [tryTriple]
  rw [if_neg (fun hg => h hg.2.1)]

lemma tryTriple_none_third (flag a b c : Char) (r : List Char)
    (h : c ≠ ' ') : tryTriple flag (a :: b :: c :: r) = none := by
  simp only [tryTriple]
  rw [if_neg (fun hg => h hg.2.2)]

lemma scanTriples_skip (flag : Char) :
    ∀ (l rest : List Char),
      (∀ n, n < l.length → tryTriple flag (l.drop n ++ rest) = none) →
      scanTriples flag (l ++ rest) = scanTriples flag rest := by
  intro l
  induction l with
  | nil => intro rest _; rfl
  | cons c l' ih =>
      intro rest hfail
      have h0 : tryTriple flag ((c :: l') ++ rest) = none := by
        have := hfail 0 (by simp)
        simpa using this
      rw [List.cons_append]
      rw [scanTriples_eq_none_cons flag c (l' ++ rest) (by
        rw [← List.cons_append]
        exact h0)]
      refine ih rest ?_
      intro n hn
      have := hfail (n + 1) (by simp only [List.length_cons]; omega)
      simpa using this

/-- Skipping a whitespace-free token whose last character is not the
flag letter: no triple match can start inside it. -/
lemma scanTriples_skip_token (flag : Char) (hflag : flag ≠ ' ')
    (t rest : List Char) (ht : ∀ c ∈ t, notWs c = true)
    (hsep : rest = [] ∨
      ((∃ r', rest = ' ' :: r') ∧ t.getLast? ≠ some flag)) :
    scanTriples flag (t ++ rest) = scanTriples flag rest := by
  apply scanTriples_skip
  intro n hn
  cases hd : t.drop n with
  | nil =>
      have : t.length ≤ n := by
        have := congrArg List.length hd
        simp only [List.length_drop, List.length_nil] at this
        omega
      omega
  | cons a tl =>
      cases tl with
      | nil =>
          rcases hsep with rfl | ⟨⟨r', hr⟩, _⟩
          · rfl
          · subst hr
            cases r' with
            | nil => rfl
            | cons z zs =>
                exact tryTriple_none_second flag a ' ' z zs (Ne.symm hflag)
      | cons b tl2 =>
          cases tl2 with
          | nil =>
              rcases hsep with rfl | ⟨⟨r', hr⟩, hlast⟩
              · rfl
              · subst hr
                have hbl : t.getLast? = some b := by
                  have h1 : t = t.take n ++ [a, b] := by
                    conv_lhs => rw [← List.take_append_drop n t]
                    rw [hd]
                  rw [h1,
                    show ([a, b] : List Char) = [a] ++ [b] from rfl,
                    ← List.append_assoc]
                  exact List.getLast?_concat _
                have hbf : b ≠ flag := fun hbf => hlast (hbf ▸ hbl)
                exact tryTriple_none_second flag a b ' ' r' hbf
          | cons c3 tl3 =>
              have hc3 : c3 ∈ t := by
                refine List.drop_subset n t ?_
                rw [hd]
                simp
              have hcs : c3 ≠ ' ' := by
                have hnw := ht c3 hc3
                intro hcc
                subst hcc
                exact absurd hnw (by decide)
              exact tryTriple_none_third flag a b c3 (tl3 ++ rest) hcs

lemma digit_notWs (c : Char) (h : isDigit c = true) : notWs c = true := by
  have h1 : c ≠ ' ' := fun hc => absurd (hc ▸ h) (by decide)
  have h2 : c ≠ '\t' := fun hc => absurd (hc ▸ h) (by decide)
  have h3 : c ≠ '\n' := fun hc => absurd (hc ▸ h) (by decide)
  have h4 : c ≠ '\r' := fun hc => absurd (hc ▸ h) (by decide)
  have h5 : c ≠ '\x0B' := fun hc => absurd (hc ▸ h) (by decide)
  have h6 : c ≠ '\x0C' := fun hc => absurd (hc ▸ h) (by decide)
  simp [notWs, isWs, h1, h2, h3, h4, h5, h6]

lemma hostChar_notWs (c : Char) (h : hostChar c = true) : notWs c = true := by
  simp only [hostChar, Bool.and_eq_true] at h
  exact h.2

lemma hostChar_ne_colon (c : Char) (h : hostChar c = true) : c ≠ ':' := by
  simp only [hostChar, Bool.and_eq_true, Bool.not_eq_true'] at h
  intro hc
  subst hc
  exact absurd h.1 (by decide)

lemma digit_ne_colon (c : Char) (h : isDigit c = true) : c ≠ ':' :=
  fun hc => absurd (hc ▸ h) (by decide)

/-- The triple pattern matches at the head of a well-formed
`-X d1:h:d2` block, consuming exactly through the end of `d2`. -/
lemma tryTriple_match (flag : Char) (d1 hh d2 rest : List Char)
    (hd1 : d1 ≠ []) (hd1d : ∀ c ∈ d1, isDigit c = true)
    (hh1 : hh ≠ []) (hhc : ∀ c ∈ hh, hostChar c = true)
    (hd2 : d2 ≠ []) (hd2d : ∀ c ∈ d2, isDigit c = true)
    (hrest : rest = [] ∨ ∃ r0 r', rest = r0 :: r' ∧ isDigit r0 = false) :
    tryTriple flag
        ('-' :: flag :: ' ' :: (d1 ++ ':' :: (hh ++ ':' :: (d2 ++ rest)))) =
      some ((d1, hh, d2), rest) := by
  have htk2 : (d2 ++ rest).takeWhile isDigit = d2 ∧
      (d2 ++ rest).dropWhile isDigit = rest := by
    rcases hrest with rfl | ⟨r0, r', rfl, hr0⟩
    · rw [List.append_nil]
      exact ⟨takeWhile_all d2 hd2d, dropWhile_all d2 hd2d⟩
    · exact ⟨takeWhile_append_all d2 r0 r' hd2d hr0,
        dropWhile_append_all d2 r0 r' hd2d hr0⟩
  simp only [tryTriple]
  rw [if_pos (by simp)]
  rw [takeWhile_append_all d1 ':' _ hd1d (by decide),
      dropWhile_append_all d1 ':' _ hd1d (by decide)]
  dsimp only
  rw [if_pos (by exact ⟨hd1, by simp⟩)]
  rw [takeWhile_append_all hh ':' _ hhc (by decide),
      dropWhile_append_all hh ':' _ hhc (by decide)]
  dsimp only
  rw [if_pos (by exact ⟨hh1, by simp⟩)]
  rw [htk2.1, htk2.2, if_pos hd2]

lemma scanTriples_match (flag : Char) (d1 hh d2 rest : List Char)
    (hd1 : d1 ≠ []) (hd1d : ∀ c ∈ d1, isDigit c = true)
    (hh1 : hh ≠ []) (hhc : ∀ c ∈ hh, hostChar c = true)
    (hd2 : d2 ≠ []) (hd2d : ∀ c ∈ d2, isDigit c = true)
    (hrest : rest = [] ∨ ∃ r0 r', rest = r0 :: r' ∧ isDigit r0 = false) :
    scanTriples flag
        ('-' :: flag :: ' ' :: (d1 ++ ':' :: (hh ++ ':' :: (d2 ++ rest)))) =
      (d1, hh, d2) :: scanTriples flag rest :=
  scanTriples_eq_some flag _ _ rest
    (tryTriple_match flag d1 hh d2 rest hd1 hd1d hh1 hhc hd2 hd2d hrest)

/-! tryFlagNum analogues -/

lemma tryFlagNum_none_first (flag a b c : Char) (r : List Char)
    (h : a ≠ '-') : tryFlagNum flag (a :: b :: c :: r) = none := by
  simp only [tryFlagNum]
  rw [if_neg (fun hg => h hg.1)]

lemma tryFlagNum_none_second (flag a b c : Char) (r : List Char)
    (h : b ≠ flag) : tryFlagNum flag (a :: b :: c :: r) = none := by
  simp only [tryFlagNum]
  rw [if_neg (fun hg => h hg.2.1)]

lemma tryFlagNum_none_third (flag a b c : Char) (r : List Char)
    (h : c ≠ ' ') : tryFlagNum flag (a :: b :: c :: r) = none := by
  simp only [tryFlagNum]
  rw [if_neg (fun hg => h hg.2.2)]

lemma tryFlagNum_match (flag : Char) (d rest : List Char)
    (hd : d ≠ []) (hdd : ∀ c ∈ d, isDigit c = true) :
    tryFlagNum flag ('-' :: flag :: ' ' :: (d ++ rest)) =
      some ((d ++ rest).takeWhile isDigit) := by
  have hne : (d ++ rest).takeWhile isDigit ≠ [] := by
    cases d with
    | nil => exact absurd rfl hd
    | cons x xs =>
        rw [List.cons_append, List.takeWhile_cons,
          if_pos (hdd x (List.mem_cons_self _ _))]
        simp
  simp only [tryFlagNum]
  rw [if_pos (by simp)]
  rw [if_neg hne]

lemma findFlagNum_cons_none (flag : Char) (c : Char) (l : List Char)
    (h : tryFlagNum flag (c :: l) = none) :
    findFlagNum flag (c :: l) = findFlagNum flag l := by
  simp [findFlagNum, h]

lemma findFlagNum_cons_some (flag : Char) (c : Char) (l : List Char)
    (d : PyStr) (h : tryFlagNum flag (c :: l) = some d) :
    findFlagNum flag (c :: l) = some d := by
  simp [findFlagNum, h]

lemma findFlagNum_skip (flag : Char) :
    ∀ (l rest : List Char),
      (∀ n, n < l.length → tryFlagNum flag (l.drop n ++ rest) = none) →
      findFlagNum flag (l ++ rest) = findFlagNum flag rest := by
  intro l
  induction l with
  | nil => intro rest _; rfl
  | cons c l' ih =>
      intro rest hfail
      have h0 : tryFlagNum flag ((c :: l') ++ rest) = none := by
        have := hfail 0 (by simp)
        simpa using this
      rw [List.cons_append]
      rw [findFlagNum_cons_none flag c (l' ++ rest) (by
        rw [← List.cons_append]
        exact h0)]
      refine ih rest ?_
      intro n hn
      have := hfail (n + 1) (by simp only [List.length_cons]; omega)
      simpa using this

lemma findFlagNum_skip_token (flag : Char) (hflag : flag ≠ ' ')
    (t rest : List Char) (ht : ∀ c ∈ t, notWs c = true)
    (hsep : rest = [] ∨
      ((∃ r', rest = ' ' :: r') ∧ t.getLast? ≠ some flag)) :
    findFlagNum flag (t ++ rest) = findFlagNum flag rest := by
  apply findFlagNum_skip
  intro n hn
  cases hd : t.drop n with
  | nil =>
      have : t.length ≤ n := by
        have := congrArg List.length hd
        simp only [List.length_drop, List.length_nil] at this
        omega
      omega
  | cons a tl =>
      cases tl with
      | nil =>
          rcases hsep with rfl | ⟨⟨r', hr⟩, _⟩
          · rfl
          · subst hr
            cases r' with
            | nil => rfl
            | cons z zs =>
                exact tryFlagNum_none_second flag a ' ' z zs (Ne.symm hflag)
      | cons b tl2 =>
          cases tl2 with
          | nil =>
              rcases hsep with rfl | ⟨⟨r', hr⟩, hlast⟩
              · rfl
              · subst hr
                have hbl : t.getLast? = some b := by
                  have h1 : t = t.take n ++ [a, b] := by
                    conv_lhs => rw [← List.take_append_drop n t]
                    rw [hd]
                  rw [h1,
                    show ([a, b] : List Char) = [a] ++ [b] from rfl,
                    ← List.append_assoc]
                  exact List.getLast?_concat _
                have hbf : b ≠ flag := fun hbf => hlast (hbf ▸ hbl)
                exact tryFlagNum_none_second flag a b ' ' r' hbf
          | cons c3 tl3 =>
              have hc3 : c3 ∈ t := by
                refine List.drop_subset n t ?_
                rw [hd]
                simp
              have hcs : c3 ≠ ' ' := by
                have hnw := ht c3 hc3
                intro hcc
                subst hcc
                exact absurd hnw (by decide)
              exact tryFlagNum_none_third flag a b c3 (tl3 ++ rest) hcs

/-! user@host matcher lemmas -/

lemma uhUserChar_of (c : Char) (h1 : notWs c = true) (h2 : c ≠ '@') :
    uhUserChar c = true := by
  simp [uhUserChar, h1, h2]

lemma matchUH_none_token (t rest : List Char)
    (ht : ∀ c ∈ t, notWs c = true ∧ c ≠ '@') :
    matchUH (t ++ ' ' :: rest) = none := by
  have hall : ∀ c ∈ t, uhUserChar c = true :=
    fun c hc => uhUserChar_of c (ht c hc).1 (ht c hc).2
  cases t with
  | nil =>
      show matchUH (' ' :: rest) = none
      simp only [matchUH, List.takeWhile_cons]
      rw [if_neg (show ¬ uhUserChar ' ' = true from by decide)]
      simp
  | cons c t' =>
      simp only [matchUH]
      rw [takeWhile_append_all (c :: t') ' ' rest hall (by decide),
          dropWhile_append_all (c :: t') ' ' rest hall (by decide)]
      rw [if_neg (by simp)]
      rfl

lemma matchUH_match (u h : PyStr) (hu_ne : u ≠ [])
    (hu : ∀ c ∈ u, notWs c = true ∧ c ≠ '@')
    (hh_ne : h ≠ []) (hh : ∀ c ∈ h, notWs c = true) :
    matchUH (u ++ '@' :: h) = some (u, h) := by
  have hall : ∀ c ∈ u, uhUserChar c = true :=
    fun c hc => uhUserChar_of c (hu c hc).1 (hu c hc).2
  simp only [matchUH]
  rw [takeWhile_append_all u '@' h hall (by decide),
      dropWhile_append_all u '@' h hall (by decide)]
  rw [if_neg hu_ne]
  show (if List.takeWhile notWs h = [] then none
        else some (u, List.takeWhile notWs h)) = some (u, h)
  rw [takeWhile_all h hh]
  rw [if_neg hh_ne]

lemma findUserHostAux_token (t rest : List Char)
    (ht : ∀ c ∈ t, notWs c = true) :
    findUserHostAux (t ++ ' ' :: rest) =
      (match matchUH rest with
       | some r => some r
       | none => findUserHostAux rest) := by
  induction t with
  | nil =>
      simp only [List.nil_append, findUserHostAux]
      rw [if_pos (by decide)]
  | cons c t' ih =>
      rw [List.cons_append]
      have hc : isWs c = false :=
        (notWs_iff c).mp (ht c (List.mem_cons_self _ _))
      simp only [findUserHostAux]
      rw [if_neg (by simp [hc])]
      exact ih (fun x hx => ht x (List.mem_cons_of_mem _ hx))

lemma findUserHost_step (t rest : List Char)
    (ht : ∀ c ∈ t, notWs c = true ∧ c ≠ '@') :
    findUserHost (t ++ ' ' :: rest) = findUserHost rest := by
  simp only [findUserHost]
  rw [matchUH_none_token t rest ht]
  rw [findUserHostAux_token t rest (fun c hc => (ht c hc).1)]

lemma findUserHost_final (u h : PyStr) (hu_ne : u ≠ [])
    (hu : ∀ c ∈ u, notWs c = true ∧ c ≠ '@')
    (hh_ne : h ≠ []) (hh : ∀ c ∈ h, notWs c = true) :
    findUserHost (u ++ '@' :: h) = some (u, h) := by
  simp only [findUserHost]
  rw [matchUH_match u h hu_ne hu hh_ne hh]

/-! joinSpace and token-level lemmas -/

lemma joinSpace_cons_of_ne (w : PyStr) (ts : List PyStr) (h : ts ≠ []) :
    joinSpace (w :: ts) = w ++ ' ' :: joinSpace ts := by
  cases ts with
  | nil => exact absurd rfl h
  | cons x xs => rfl

lemma getLast?_mem' : ∀ (l : List Char) (a : Char),
    l.getLast? = some a → a ∈ l := by
  intro l
  induction l with
  | nil => intro a ha; simp at ha
  | cons c rest ih =>
      intro a ha
      cases rest with
      | nil =>
          simp only [List.getLast?_singleton, Option.some.injEq] at ha
          simp [ha]
      | cons d rest' =>
          rw [List.getLast?_cons_cons] at ha
          exact List.mem_cons_of_mem _ (ih a ha)

lemma getLast?_append' : ∀ (l1 l2 : List Char), l2 ≠ [] →
    (l1 ++ l2).getLast? = l2.getLast? := by
  intro l1
  induction l1 with
  | nil => intro l2 _; rfl
  | cons c rest ih =>
      intro l2 h2
      rw [List.cons_append]
      cases hre : rest ++ l2 with
      | nil =>
          rcases List.append_eq_nil.mp hre with ⟨_, h4⟩
          exact absurd h4 h2
      | cons d tl =>
          rw [List.getLast?_cons_cons, ← hre]
          exact ih l2 h2

lemma tryTriple_none_space (flag : Char) (l : List Char) :
    tryTriple flag (' ' :: l) = none := by
  cases l with
  | nil => rfl
  | cons a tl =>
      cases tl with
      | nil => rfl
      | cons b tl2 => exact tryTriple_none_first flag ' ' a b tl2 (by decide)

lemma scanTriples_cons_space (flag : Char) (l : List Char) :
    scanTriples flag (' ' :: l) = scanTriples flag l :=
  scanTriples_eq_none_cons flag ' ' l (tryTriple_none_space flag l)

lemma tryFlagNum_none_space (flag : Char) (l : List Char) :
    tryFlagNum flag (' ' :: l) = none := by
  cases l with
  | nil => rfl
  | cons a tl =>
      cases tl with
      | nil => rfl
      | cons b tl2 => exact tryFlagNum_none_first flag ' ' a b tl2 (by decide)

lemma findFlagNum_cons_space (flag : Char) (l : List Char) :
    findFlagNum flag (' ' :: l) = findFlagNum flag l :=
  findFlagNum_cons_none flag ' ' l (tryFlagNum_none_space flag l)

lemma scanTriples_skip_tokens (flag : Char) (hflag : flag ≠ ' ')
    (flags : List Char) (hmem : flag ∈ flags) :
    ∀ (ts : List PyStr) (rest : List PyStr),
      (∀ t ∈ ts, skipTok flags t) → rest ≠ [] →
      scanTriples flag (joinSpace (ts ++ rest)) =
        scanTriples flag (joinSpace rest) := by
  intro ts
  induction ts with
  | nil => intro rest _ _; rfl
  | cons t ts' ih =>
      intro rest hts hrest
      have hne : ts' ++ rest ≠ [] := by
        intro hc
        exact hrest (List.append_eq_nil.mp hc).2
      rw [List.cons_append, joinSpace_cons_of_ne t _ hne]
      rw [scanTriples_skip_token flag hflag t _
        (hts t (List.mem_cons_self _ _)).2.1
        (Or.inr ⟨⟨_, rfl⟩, (hts t (List.mem_cons_self _ _)).2.2.1 flag hmem⟩)]
      rw [scanTriples_cons_space]
      exact ih rest (fun x hx => hts x (List.mem_cons_of_mem _ hx)) hrest

lemma findFlagNum_skip_tokens (flag : Char) (hflag : flag ≠ ' ')
    (flags : List Char) (hmem : flag ∈ flags) :
    ∀ (ts : List PyStr) (rest : List PyStr),
      (∀ t ∈ ts, skipTok flags t) → rest ≠ [] →
      findFlagNum flag (joinSpace (ts ++ rest)) =
        findFlagNum flag (joinSpace rest) := by
  intro ts
  induction ts with
  | nil => intro rest _ _; rfl
  | cons t ts' ih =>
      intro rest hts hrest
      have hne : ts' ++ rest ≠ [] := by
        intro hc
        exact hrest (List.append_eq_nil.mp hc).2
      rw [List.cons_append, joinSpace_cons_of_ne t _ hne]
      rw [findFlagNum_skip_token flag hflag t _
        (hts t (List.mem_cons_self _ _)).2.1
        (Or.inr ⟨⟨_, rfl⟩, (hts t (List.mem_cons_self _ _)).2.2.1 flag hmem⟩)]
      rw [findFlagNum_cons_space]
      exact ih rest (fun x hx => hts x (List.mem_cons_of_mem _ hx)) hrest

lemma findUserHost_skip_tokens :
    ∀ (ts : List PyStr) (rest : List PyStr),
      (∀ t ∈ ts, skipTok [] t) → rest ≠ [] →
      findUserHost (joinSpace (ts ++ rest)) =
        findUserHost (joinSpace rest) := by
  intro ts
  induction ts with
  | nil => intro rest _ _; rfl
  | cons t ts' ih =>
      intro rest hts hrest
      have hne : ts' ++ rest ≠ [] := by
        intro hc
        exact hrest (List.append_eq_nil.mp hc).2
      rw [List.cons_append, joinSpace_cons_of_ne t _ hne]
      rw [findUserHost_step t _ (fun c hc =>
        ⟨(hts t (List.mem_cons_self _ _)).2.1 c hc,
         fun hat => (hts t (List.mem_cons_self _ _)).2.2.2 (hat ▸ hc)⟩)]
      exact ih rest (fun x hx => hts x (List.mem_cons_of_mem _ hx)) hrest

lemma mkLocalForward_tripleOfL (f : ForwardSpec) :
    mkLocalForward (tripleOfL f) = f := rfl

lemma mkRemoteForward_tripleOfR (f : ForwardSpec) :
    mkRemoteForward (tripleOfR f) = f := rfl

lemma lspec_eq_specStr (f : ForwardSpec) :
    lspec f = specStr (tripleOfL f) := by
  simp [lspec, specStr, tripleOfL, List.append_assoc]

lemma rspec_eq_specStr (f : ForwardSpec) :
    rspec f = specStr (tripleOfR f) := by
  simp [rspec, specStr, tripleOfR, List.append_assoc]

/-- A `a:b:c` token is skipped by every flag scanner whose flag letters
are neither digits nor `:`, provided its host part has no `@`. -/
lemma skipTok_spec (flags : List Char) (a b c : PyStr)
    (ha : ∀ ch ∈ a, isDigit ch = true) (hb : ∀ ch ∈ b, hostChar ch = true)
    (hc : ∀ ch ∈ c, isDigit ch = true) (hb_at : '@' ∉ b)
    (hflags : ∀ fl ∈ flags, isDigit fl = false ∧ fl ≠ ':') :
    skipTok flags (a ++ ':' :: (b ++ ':' :: c)) := by
  refine ⟨append_cons_ne_nil a ':' _, ?_, ?_, ?_⟩
  · intro ch hch
    rcases List.mem_append.mp hch with h1 | h1
    · exact digit_notWs ch (ha ch h1)
    · rcases List.mem_cons.mp h1 with rfl | h2
      · decide
      · rcases List.mem_append.mp h2 with h3 | h3
        · exact hostChar_notWs ch (hb ch h3)
        · rcases List.mem_cons.mp h3 with rfl | h4
          · decide
          · exact digit_notWs ch (hc ch h4)
  · intro fl hfl heq
    have hlast : (a ++ ':' :: (b ++ ':' :: c)).getLast? =
        (':' :: c).getLast? := by
      rw [getLast?_append' a _ (by simp)]
      rw [show (':' :: (b ++ ':' :: c) : List Char) =
        (':' :: b) ++ ':' :: c from by simp]
      rw [getLast?_append' _ _ (by simp)]
    rw [hlast] at heq
    cases hcc : c with
    | nil =>
        rw [hcc] at heq
        simp only [List.getLast?_singleton, Option.some.injEq] at heq
        exact absurd heq.symm (hflags fl hfl).2
    | cons c0 c' =>
        rw [hcc, List.getLast?_cons_cons] at heq
        have hmem : fl ∈ c0 :: c' := getLast?_mem' _ _ heq
        have : isDigit fl = true := hc fl (hcc ▸ hmem)
        rw [(hflags fl hfl).1] at this
        exact absurd this (by simp)
  · intro hat
    rcases List.mem_append.mp hat with h1 | h1
    · exact absurd (ha '@' h1) (by decide)
    · rcases List.mem_cons.mp h1 with h2 | h2
      · exact absurd h2 (by decide)
      · rcases List.mem_append.mp h2 with h3 | h3
        · exact hb_at h3
        · rcases List.mem_cons.mp h3 with h4 | h4
          · exact absurd h4 (by decide)
          · exact absurd (hc '@' h4) (by decide)

/-- A nonempty all-digit token is skipped by letter-flag scanners. -/
lemma skipTok_digits (flags : List Char) (d : PyStr) (hd : d ≠ [])
    (hdd : ∀ ch ∈ d, isDigit ch = true)
    (hflags : ∀ fl ∈ flags, isDigit fl = false) :
    skipTok flags d := by
  refine ⟨hd, fun ch hch => digit_notWs ch (hdd ch hch), ?_, ?_⟩
  · intro fl hfl heq
    have hmem : fl ∈ d := getLast?_mem' _ _ heq
    have h1 := hdd fl hmem
    rw [hflags fl hfl] at h1
    exact absurd h1 (by simp)
  · intro hat
    exact absurd (hdd '@' hat) (by decide)

/-- Scanning the flag's own `-X spec` token pairs collects exactly the
triples. -/
lemma scanTriples_pairs (flag : Char) (hflag : flag ≠ ' ') :
    ∀ (ms : List Triple) (rest : List PyStr), rest ≠ [] →
      (∀ m ∈ ms, tripleWF m) →
      scanTriples flag (joinSpace
          ((ms.map fun m => [('-' :: flag :: []), specStr m]).flatten ++
            rest)) =
        ms ++ scanTriples flag (joinSpace rest) := by
  intro ms
  induction ms with
  | nil => intro rest _ _; rfl
  | cons m ms' ih =>
      intro rest hrest hwf
      have hwfm := hwf m (List.mem_cons_self _ _)
      have hne1 : (ms'.map fun m =>
          [('-' :: flag :: []), specStr m]).flatten ++ rest ≠ [] := by
        intro hcc
        exact hrest (List.append_eq_nil.mp hcc).2
      rw [List.map_cons, List.flatten_cons]
      simp only [List.cons_append, List.nil_append]
      rw [joinSpace_cons_of_ne _ _ (by simp)]
      rw [joinSpace_cons_of_ne _ _ hne1]
      rw [show specStr m = m.1 ++ ':' :: (m.2.1 ++ ':' :: m.2.2) from rfl]
      simp only [List.cons_append, List.nil_append, List.append_assoc]
      rw [scanTriples_match flag m.1 m.2.1 m.2.2 _ hwfm.1 hwfm.2.1
        hwfm.2.2.1 hwfm.2.2.2.1 hwfm.2.2.2.2.1 hwfm.2.2.2.2.2
        (Or.inr ⟨' ', _, rfl, by decide⟩)]
      rw [scanTriples_cons_space]
      rw [ih rest hrest (fun x hx => hwf x (List.mem_cons_of_mem _ hx))]

/-- The first `-X number` token pair is found by the flag search. -/
lemma findFlagNum_pair (flag : Char) (d : PyStr) (rest : List PyStr)
    (hd : d ≠ []) (hdd : ∀ ch ∈ d, isDigit ch = true)
    (hrest : rest ≠ []) :
    findFlagNum flag (joinSpace (('-' :: flag :: []) :: d :: rest)) =
      some d := by
  rw [joinSpace_cons_of_ne _ _ (by simp)]
  rw [joinSpace_cons_of_ne _ _ hrest]
  rw [show (('-' :: flag :: []) ++ ' ' :: (d ++ ' ' :: joinSpace rest)
      : List Char) = '-' :: flag :: ' ' :: (d ++ ' ' :: joinSpace rest)
    from rfl]
  refine findFlagNum_cons_some flag '-' _ d ?_
  have h := tryFlagNum_match flag d (' ' :: joinSpace rest) hd hdd
  rw [takeWhile_append_all d ' ' _ hdd (by decide)] at h
  exact h

/-- A scan finds nothing over skippable tokens followed by one final
whitespace-free token. -/
lemma scanTriples_tokens_nil (flag : Char) (hflag : flag ≠ ' ')
    (ts : List PyStr) (tl : PyStr) (hts : ∀ t ∈ ts, skipTok [flag] t)
    (htl : ∀ c ∈ tl, notWs c = true) :
    scanTriples flag (joinSpace (ts ++ [tl])) = [] := by
  rw [scanTriples_skip_tokens flag hflag [flag] (by simp) ts [tl] hts
    (by simp)]
  show scanTriples flag tl = []
  have h := scanTriples_skip_token flag hflag tl [] htl (Or.inl rfl)
  rw [List.append_nil] at h
  rw [h]
  rfl

lemma findFlagNum_tokens_none (flag : Char) (hflag : flag ≠ ' ')
    (ts : List PyStr) (tl : PyStr) (hts : ∀ t ∈ ts, skipTok [flag] t)
    (htl : ∀ c ∈ tl, notWs c = true) :
    findFlagNum flag (joinSpace (ts ++ [tl])) = none := by
  rw [findFlagNum_skip_tokens flag hflag [flag] (by simp) ts [tl] hts
    (by simp)]
  show findFlagNum flag tl = none
  have h := findFlagNum_skip_token flag hflag tl [] htl (Or.inl rfl)
  rw [List.append_nil] at h
  rw [h]
  rfl

/-- The user@host search over skippable (`@`-free) tokens followed by
the final `user@host` token. -/
lemma findUserHost_tokens (ts : List PyStr) (u h : PyStr)
    (hts : ∀ t ∈ ts, skipTok [] t) (hu_ne : u ≠ [])
    (hu : ∀ c ∈ u, notWs c = true ∧ c ≠ '@')
    (hh_ne : h ≠ []) (hh : ∀ c ∈ h, notWs c = true) :
    findUserHost (joinSpace (ts ++ [u ++ '@' :: h])) = some (u, h) := by
  rw [findUserHost_skip_tokens ts [u ++ '@' :: h] hts (by simp)]
  show findUserHost (u ++ '@' :: h) = some (u, h)
  exact findUserHost_final u h hu_ne hu hh_ne hh

/-! Character-class well-formedness of the scanners' outputs -/

lemma tryTriple_wf (flag : Char) (l : List Char) (m : Triple)
    (r : List Char) (h : tryTriple flag l = some (m, r)) : tripleWF m := by
  rcases l with _ | ⟨a, _ | ⟨b, _ | ⟨c, rest⟩⟩⟩
  · exact absurd h (by simp [tryTriple])
  · exact absurd h (by simp [tryTriple])
  · exact absurd h (by simp [tryTriple])
  simp only [tryTriple] at h
  repeat' split at h
  all_goals try exact Option.noConfusion h
  rename_i h2 z2 y r4 hd2 h3 h4
  rw [Option.some.injEq, Prod.mk.injEq] at h
  obtain ⟨hm, -⟩ := h
  subst hm
  exact ⟨h2.1, fun c hc => takeWhile_mem _ c hc,
    h3.1, fun c hc => takeWhile_mem _ c hc,
    h4, fun c hc => takeWhile_mem _ c hc⟩

lemma scanTriplesGo_wf (flag : Char) :
    ∀ (fuel : Nat) (l : List Char) (m : Triple),
      m ∈ scanTriplesGo flag fuel l → tripleWF m := by
  intro fuel
  induction fuel with
  | zero => intro l m hm; simp [scanTriplesGo] at hm
  | succ n ih =>
      intro l m hm
      cases ht : tryTriple flag l with
      | some tr =>
          obtain ⟨t, rest⟩ := tr
          simp only [scanTriplesGo, ht] at hm
          rcases List.mem_cons.mp hm with rfl | hm2
          · exact tryTriple_wf flag l m rest ht
          · exact ih rest m hm2
      | none =>
          cases l with
          | nil => simp [scanTriplesGo, ht] at hm
          | cons a tl =>
              simp only [scanTriplesGo, ht] at hm
              exact ih tl m hm

lemma scanTriples_wf (flag : Char) (l : List Char) :
    ∀ m ∈ scanTriples flag l, tripleWF m := by
  intro m hm
  exact scanTriplesGo_wf flag l.length l m hm

lemma tryFlagNum_wf (flag : Char) (l : List Char) (d : PyStr)
    (h : tryFlagNum flag l = some d) :
    d ≠ [] ∧ ∀ c ∈ d, isDigit c = true := by
  rcases l with _ | ⟨a, _ | ⟨b, _ | ⟨c, rest⟩⟩⟩
  · exact absurd h (by simp [tryFlagNum])
  · exact absurd h (by simp [tryFlagNum])
  · exact absurd h (by simp [tryFlagNum])
  simp only [tryFlagNum] at h
  repeat' split at h
  all_goals try exact Option.noConfusion h
  rename_i h1 h2
  rw [Option.some.injEq] at h
  subst h
  exact ⟨h2, fun c hc => takeWhile_mem _ c hc⟩

lemma findFlagNum_wf (flag : Char) :
    ∀ (l : List Char) (d : PyStr), findFlagNum flag l = some d →
      d ≠ [] ∧ ∀ c ∈ d, isDigit c = true := by
  intro l
  induction l with
  | nil => intro d h; exact absurd h (by simp [findFlagNum])
  | cons c rest ih =>
      intro d h
      simp only [findFlagNum] at h
      cases ht : tryFlagNum flag (c :: rest) with
      | some d' =>
          simp only [ht] at h
          rw [Option.some.injEq] at h
          subst h
          exact tryFlagNum_wf flag (c :: rest) _ ht
      | none =>
          simp only [ht] at h
          exact ih d h

lemma matchUH_wf (l : List Char) (u h : PyStr)
    (hm : matchUH l = some (u, h)) :
    (u ≠ [] ∧ ∀ c ∈ u, uhUserChar c = true) ∧
      (h ≠ [] ∧ ∀ c ∈ h, notWs c = true) := by
  simp only [matchUH] at hm
  repeat' split at hm
  all_goals try exact Option.noConfusion hm
  rename_i h1 r1j r2 hd h2
  rw [Option.some.injEq, Prod.mk.injEq] at hm
  obtain ⟨hu, hh⟩ := hm
  subst hu
  subst hh
  exact ⟨⟨h1, fun c hc => takeWhile_mem _ c hc⟩,
    h2, fun c hc => takeWhile_mem _ c hc⟩

lemma findUserHostAux_wf :
    ∀ (l : List Char) (u h : PyStr),
      findUserHostAux l = some (u, h) →
      (u ≠ [] ∧ ∀ c ∈ u, uhUserChar c = true) ∧
        (h ≠ [] ∧ ∀ c ∈ h, notWs c = true) := by
  intro l
  induction l with
  | nil => intro u h hm; exact absurd hm (by simp [findUserHostAux])
  | cons c rest ih =>
      intro u h hm
      simp only [findUserHostAux] at hm
      by_cases hws : isWs c
      · rw [if_pos hws] at hm
        cases hmu : matchUH rest with
        | some r =>
            simp only [hmu] at hm
            rw [Option.some.injEq] at hm
            subst hm
            exact matchUH_wf rest u h hmu
        | none =>
            simp only [hmu] at hm
            exact ih u h hm
      · rw [if_neg hws] at hm
        exact ih u h hm

lemma findUserHost_wf (l : List Char) (u h : PyStr)
    (hm : findUserHost l = some (u, h)) :
    (u ≠ [] ∧ ∀ c ∈ u, uhUserChar c = true) ∧
      (h ≠ [] ∧ ∀ c ∈ h, notWs c = true) := by
  simp only [findUserHost] at hm
  cases hm0 : matchUH l with
  | some r =>
      simp only [hm0] at hm
      rw [Option.some.injEq] at hm
      subst hm
      exact matchUH_wf l u h hm0
  | none =>
      simp only [hm0] at hm
      exact findUserHostAux_wf l u h hm

lemma uhUserChar_elim (c : Char) (h : uhUserChar c = true) :
    notWs c = true ∧ c ≠ '@' := by
  simp only [uhUserChar, Bool.and_eq_true, Bool.not_eq_true'] at h
  exact ⟨h.1, by simpa using h.2⟩

/-! The parser's success path, factored through `parsedConfig` -/

lemma parse_ok_intro (cmd : PyStr) (u hh : PyStr)
    (hpref : ("ssh".toList).isPrefixOf (pyNormalize cmd) = true)
    (hUH : findUserHost (pyNormalize cmd) = some (u, hh)) :
    parse_ssh_command cmd =
      Except.ok (parsedConfig (pyNormalize cmd) u hh) := by
  simp only [parse_ssh_command, hpref, if_true, hUH]
  rfl

lemma parse_ok_elim (cmd : PyStr) (c : Config)
    (hp : parse_ssh_command cmd = Except.ok c) :
    ∃ u hh, findUserHost (pyNormalize cmd) = some (u, hh) ∧
      c = parsedConfig (pyNormalize cmd) u hh := by
  simp only [parse_ssh_command] at hp
  by_cases hpref : ("ssh".toList).isPrefixOf (pyNormalize cmd)
  · rw [if_pos hpref] at hp
    cases hUH : findUserHost (pyNormalize cmd) with
    | none => rw [hUH] at hp; exact absurd hp (by simp)
    | some uh =>
        obtain ⟨u, hh⟩ := uh
        rw [hUH] at hp
        rw [Except.ok.injEq] at hp
        exact ⟨u, hh, rfl, hp.symm⟩
  · rw [if_neg hpref] at hp
    exact absurd hp (by simp)

/-! Field projections of `parsedConfig` -/

lemma applyLocal_ssh_port (c : Config) (ms : List Triple) :
    (applyLocal c ms).ssh_port = c.ssh_port := by
  rcases ms with _ | ⟨m, _ | ⟨m2, rest⟩⟩ <;> rfl

lemma applyRemote_ssh_port (c : Config) (ms : List Triple) :
    (applyRemote c ms).ssh_port = c.ssh_port := by
  rcases ms with _ | ⟨m, _ | ⟨m2, rest⟩⟩ <;> rfl

lemma parsedConfig_ssh_user (N u hh : PyStr) :
    (parsedConfig N u hh).ssh_user = u := rfl

lemma parsedConfig_ssh_host (N u hh : PyStr) :
    (parsedConfig N u hh).ssh_host = hh := rfl

lemma parsedConfig_ssh_port (N u hh : PyStr) :
    (parsedConfig N u hh).ssh_port =
      match findFlagNum 'p' N with
      | some q => q
      | none => "22".toList := by
  cases hPp : findFlagNum 'p' N <;> cases hD : findFlagNum 'D' N <;>
    simp [parsedConfig, hPp, hD, applyRemote_ssh_port, applyLocal_ssh_port]

lemma parsedConfig_type (N u hh : PyStr) :
    (parsedConfig N u hh).type =
      (if (findFlagNum 'D' N).isSome then "dynamic".toList
       else if scanTriples 'R' N ≠ [] then "remote".toList
       else "local".toList) := by
  rcases hD : findFlagNum 'D' N with _ | p <;>
    rcases hPp : findFlagNum 'p' N with _ | q <;>
    rcases hR : scanTriples 'R' N with _ | ⟨r1, _ | ⟨r2, rs⟩⟩ <;>
    rcases hL : scanTriples 'L' N with _ | ⟨m1, _ | ⟨m2, ms⟩⟩ <;>
    simp [parsedConfig, hD, hPp, hR, hL, applyLocal, applyRemote]

lemma parsedConfig_forwards (N u hh : PyStr) :
    (parsedConfig N u hh).forwards =
      (if 2 ≤ (scanTriples 'R' N).length then
         (scanTriples 'R' N).map mkRemoteForward
       else if 2 ≤ (scanTriples 'L' N).length then
         (scanTriples 'L' N).map mkLocalForward
       else []) := by
  rcases hD : findFlagNum 'D' N with _ | p <;>
    rcases hPp : findFlagNum 'p' N with _ | q <;>
    rcases hR : scanTriples 'R' N with _ | ⟨r1, _ | ⟨r2, rs⟩⟩ <;>
    rcases hL : scanTriples 'L' N with _ | ⟨m1, _ | ⟨m2, ms⟩⟩ <;>
    simp [parsedConfig, hD, hPp, hR, hL, applyLocal, applyRemote]

lemma parsedConfig_D_lport (N u hh p : PyStr)
    (hD : findFlagNum 'D' N = some p) :
    (parsedConfig N u hh).local_port = p := by
  cases hPp : findFlagNum 'p' N <;> simp [parsedConfig, hD, hPp]

lemma parsedConfig_pristine (N u hh : PyStr)
    (hD : findFlagNum 'D' N = none) (hR : scanTriples 'R' N = [])
    (hL : scanTriples 'L' N = []) :
    (parsedConfig N u hh).local_port = [] ∧
      (parsedConfig N u hh).remote_host = "localhost".toList ∧
      (parsedConfig N u hh).remote_port = [] := by
  cases hPp : findFlagNum 'p' N <;>
    simp [parsedConfig, hD, hR, hL, hPp, applyLocal, applyRemote]

lemma parsedConfig_L_single (N u hh : PyStr) (m : Triple)
    (hD : findFlagNum 'D' N = none) (hR : scanTriples 'R' N = [])
    (hL : scanTriples 'L' N = [m]) :
    (parsedConfig N u hh).local_port = m.1 ∧
      (parsedConfig N u hh).remote_host = m.2.1 ∧
      (parsedConfig N u hh).remote_port = m.2.2 := by
  cases hPp : findFlagNum 'p' N <;>
    simp [parsedConfig, hD, hR, hL, hPp, applyLocal, applyRemote]

lemma parsedConfig_R_single (N u hh : PyStr) (m : Triple)
    (hD : findFlagNum 'D' N = none) (hR : scanTriples 'R' N = [m]) :
    (parsedConfig N u hh).remote_port = m.1 ∧
      (parsedConfig N u hh).remote_host = m.2.1 ∧
      (parsedConfig N u hh).local_port = m.2.2 := by
  cases hPp : findFlagNum 'p' N <;>
    simp [parsedConfig, hD, hR, hPp, applyLocal, applyRemote]

lemma applyLocal_scalars_noWs (c : Config) (ms : List Triple)
    (hwf : ∀ m ∈ ms, tripleWF m) (h1 : strNoWs c.local_port)
    (h2 : strNoWs c.remote_host) (h3 : strNoWs c.remote_port) :
    strNoWs (applyLocal c ms).local_port ∧
      strNoWs (applyLocal c ms).remote_host ∧
      strNoWs (applyLocal c ms).remote_port := by
  rcases ms with _ | ⟨m, _ | ⟨m2, rest⟩⟩
  · exact ⟨h1, h2, h3⟩
  · have hm := hwf m (by simp)
    exact ⟨fun ch hc => digit_notWs ch (hm.2.1 ch hc),
      fun ch hc => hostChar_notWs ch (hm.2.2.2.1 ch hc),
      fun ch hc => digit_notWs ch (hm.2.2.2.2.2 ch hc)⟩
  · have hm := hwf m (by simp)
    exact ⟨fun ch hc => digit_notWs ch (hm.2.1 ch hc), h2, h3⟩

lemma applyRemote_scalars_noWs (c : Config) (ms : List Triple)
    (hwf : ∀ m ∈ ms, tripleWF m) (h1 : strNoWs c.local_port)
    (h2 : strNoWs c.remote_host) (h3 : strNoWs c.remote_port) :
    strNoWs (applyRemote c ms).local_port ∧
      strNoWs (applyRemote c ms).remote_host ∧
      strNoWs (applyRemote c ms).remote_port := by
  rcases ms with _ | ⟨m, _ | ⟨m2, rest⟩⟩
  · exact ⟨h1, h2, h3⟩
  · have hm := hwf m (by simp)
    exact ⟨fun ch hc => digit_notWs ch (hm.2.2.2.2.2 ch hc),
      fun ch hc => hostChar_notWs ch (hm.2.2.2.1 ch hc),
      fun ch hc => digit_notWs ch (hm.2.1 ch hc)⟩
  · have hm := hwf m (by simp)
    exact ⟨h1, h2, fun ch hc => digit_notWs ch (hm.2.1 ch hc)⟩

lemma parsedConfig_scalars_noWs (N u hh : PyStr) :
    strNoWs (parsedConfig N u hh).local_port ∧
      strNoWs (parsedConfig N u hh).remote_host ∧
      strNoWs (parsedConfig N u hh).remote_port := by
  have h0a : strNoWs ([] : PyStr) := by intro ch hc; simp at hc
  have h0b : strNoWs ("localhost".toList) := by decide
  have h1 := applyLocal_scalars_noWs
    { type := "local".toList, ssh_port := "22".toList, local_port := [],
      remote_host := "localhost".toList, remote_port := [],
      ssh_user := [], ssh_host := [], name := [], forwards := [] }
    (scanTriples 'L' N) (scanTriples_wf 'L' N) h0a h0b h0a
  have h2 := applyRemote_scalars_noWs _ (scanTriples 'R' N)
    (scanTriples_wf 'R' N) h1.1 h1.2.1 h1.2.2
  cases hD : findFlagNum 'D' N with
  | some p =>
      have hpd := findFlagNum_wf 'D' N p hD
      cases hPp : findFlagNum 'p' N <;>
        simp only [parsedConfig, hD, hPp] <;>
        exact ⟨fun ch hc => digit_notWs ch (hpd.2 ch hc), h2.2.1, h2.2.2⟩
  | none =>
      cases hPp : findFlagNum 'p' N <;>
        simp only [parsedConfig, hD, hPp] <;>
        exact ⟨h2.1, h2.2.1, h2.2.2⟩

lemma parsedConfig_port_class (N u hh : PyStr) :
    (parsedConfig N u hh).ssh_port = "22".toList ∨
      ((parsedConfig N u hh).ssh_port ≠ [] ∧
        ∀ ch ∈ (parsedConfig N u hh).ssh_port, isDigit ch = true) := by
  rw [parsedConfig_ssh_port]
  cases hPp : findFlagNum 'p' N with
  | none => exact Or.inl rfl
  | some q => exact Or.inr (findFlagNum_wf 'p' N q hPp)

lemma fwdWF_mkLocal (m : Triple) (h : tripleWF m) :
    fwdWF (mkLocalForward m) :=
  ⟨h.1, h.2.1, h.2.2.1, h.2.2.2.1, h.2.2.2.2.1, h.2.2.2.2.2⟩

lemma fwdWF_mkRemote (m : Triple) (h : tripleWF m) :
    fwdWF (mkRemoteForward m) :=
  ⟨h.2.2.2.2.1, h.2.2.2.2.2, h.2.2.1, h.2.2.2.1, h.1, h.2.1⟩

lemma parsedConfig_forwards_wf (N u hh : PyStr) :
    ∀ f ∈ (parsedConfig N u hh).forwards, fwdWF f := by
  intro f hf
  rw [parsedConfig_forwards] at hf
  split_ifs at hf
  · obtain ⟨m, hm, rfl⟩ := List.mem_map.mp hf
    exact fwdWF_mkRemote m (scanTriples_wf 'R' N m hm)
  · obtain ⟨m, hm, rfl⟩ := List.mem_map.mp hf
    exact fwdWF_mkLocal m (scanTriples_wf 'L' N m hm)
  · simp at hf

lemma parsedConfig_forwards_len (N u hh : PyStr) :
    (parsedConfig N u hh).forwards = [] ∨
      2 ≤ (parsedConfig N u hh).forwards.length := by
  rw [parsedConfig_forwards]
  split_ifs with hr hl
  · right; rw [List.length_map]; exact hr
  · right; rw [List.length_map]; exact hl
  · left; rfl

/-! Assembly helpers for re-parsing an exported command -/

lemma pairs_eq_L : ∀ (fs : List ForwardSpec),
    (fs.map fun f => ["-L".toList, lspec f]).flatten =
      ((fs.map tripleOfL).map fun m =>
        [('-' :: 'L' :: []), specStr m]).flatten := by
  intro fs
  induction fs with
  | nil => rfl
  | cons f fs ih =>
      simp only [List.map_cons, List.flatten_cons]
      rw [ih, lspec_eq_specStr]
      rfl

lemma pairs_eq_R : ∀ (fs : List ForwardSpec),
    (fs.map fun f => ["-R".toList, rspec f]).flatten =
      ((fs.map tripleOfR).map fun m =>
        [('-' :: 'R' :: []), specStr m]).flatten := by
  intro fs
  induction fs with
  | nil => rfl
  | cons f fs ih =>
      simp only [List.map_cons, List.flatten_cons]
      rw [ih, rspec_eq_specStr]
      rfl

lemma skipTok_pairsFlat (flags : List Char) (flag' : Char)
    (hflags : ∀ fl ∈ flags, isDigit fl = false ∧ fl ≠ ':' ∧ fl ≠ flag')
    (hfw : notWs flag' = true) (hfa : flag' ≠ '@')
    (ms : List Triple) (hwf : ∀ m ∈ ms, tripleWF m)
    (hat : ∀ m ∈ ms, '@' ∉ m.2.1) :
    ∀ t ∈ (ms.map fun m => [('-' :: flag' :: []), specStr m]).flatten,
      skipTok flags t := by
  intro t ht
  simp only [List.mem_flatten, List.mem_map] at ht
  obtain ⟨l, ⟨m, hm, rfl⟩, htl⟩ := ht
  simp only [List.mem_cons, List.not_mem_nil, or_false] at htl
  rcases htl with rfl | rfl
  · refine ⟨by simp, ?_, ?_, ?_⟩
    · intro ch hch
      rcases List.mem_cons.mp hch with rfl | hch2
      · decide
      · rcases List.mem_cons.mp hch2 with rfl | hch3
        · exact hfw
        · simp at hch3
    · intro fl hfl heq
      rw [show (('-' :: flag' :: []).getLast? : Option Char) =
        some flag' from rfl, Option.some.injEq] at heq
      exact (hflags fl hfl).2.2 heq.symm
    · intro hat2
      rcases List.mem_cons.mp hat2 with hq | hq
      · exact absurd hq (by decide)
      · rcases List.mem_cons.mp hq with hq2 | hq2
        · exact hfa hq2.symm
        · simp at hq2
  · exact skipTok_spec flags m.1 m.2.1 m.2.2 (hwf m hm).2.1
      (hwf m hm).2.2.2.1 (hwf m hm).2.2.2.2.2 (hat m hm)
      (fun fl hfl => ⟨(hflags fl hfl).1, (hflags fl hfl).2.1⟩)

lemma skipTok_PT (flags : List Char)
    (hflags : ∀ fl ∈ flags, isDigit fl = false ∧ fl ≠ 'p')
    (port : PyStr)
    (hport : port = "22".toList ∨
      (port ≠ [] ∧ ∀ ch ∈ port, isDigit ch = true)) :
    ∀ t ∈ (if port ≠ "22".toList then ["-p".toList, port]
           else ([] : List PyStr)),
      skipTok flags t := by
  split_ifs with h22
  · intro t ht
    simp only [List.mem_cons, List.not_mem_nil, or_false] at ht
    rcases ht with rfl | rfl
    · refine ⟨by decide, by decide, ?_, by decide⟩
      intro fl hfl heq
      rw [show (("-p".toList).getLast? : Option Char) = some 'p' from rfl,
        Option.some.injEq] at heq
      exact (hflags fl hfl).2 heq.symm
    · rcases hport with hq | ⟨hne, hdig⟩
      · exact absurd hq h22
      · exact skipTok_digits flags _ hne hdig
          (fun fl hfl => (hflags fl hfl).1)
  · intro t ht
    simp at ht

lemma ssh_prefix_tokens (rest : List PyStr) (h : rest ≠ []) :
    ("ssh".toList).isPrefixOf (joinSpace ("ssh".toList :: rest)) = true := by
  rw [joinSpace_cons_of_ne _ _ h]
  rfl

lemma tryTriple_none_nondigit (flag : Char) (x : Char) (r : List Char)
    (hx : isDigit x = false) :
    tryTriple flag ('-' :: flag :: ' ' :: x :: r) = none := by
  simp [tryTriple, hx]

lemma scanTriples_flagtok_nondigit (flag : Char) (hfd : flag ≠ '-')
    (t' : List Char) (rest : List PyStr) (hrest : rest ≠ []) :
    scanTriples flag
        (joinSpace (('-' :: flag :: []) :: (':' :: t') :: rest)) =
      scanTriples flag (joinSpace ((':' :: t') :: rest)) := by
  rw [joinSpace_cons_of_ne _ _ (by simp)]
  obtain ⟨t2, hJ⟩ : ∃ t2, joinSpace ((':' :: t') :: rest) = ':' :: t2 := by
    rw [joinSpace_cons_of_ne _ _ hrest]
    exact ⟨_, rfl⟩
  rw [hJ]
  show scanTriples flag ('-' :: flag :: ' ' :: ':' :: t2) =
    scanTriples flag (':' :: t2)
  rw [scanTriples_eq_none_cons _ _ _
    (tryTriple_none_nondigit flag ':' t2 (by decide))]
  rw [scanTriples_eq_none_cons _ _ _
    (tryTriple_none_first flag flag ' ' ':' t2 hfd)]
  rw [scanTriples_cons_space]

/-- Re-parsing: the parsed fields of a command whose normalization is a
known token list, expressed through the scanner results on that list. -/
lemma parse_fields_of_scans (E : PyStr) (rest : List PyStr)
    (hrest : rest ≠ [])
    (hN : pyNormalize E = joinSpace ("ssh".toList :: rest))
    (u hh : PyStr)
    (hUH : findUserHost (joinSpace ("ssh".toList :: rest)) = some (u, hh))
    (Lres Rres : List Triple) (Dres pres : Option PyStr)
    (hL : scanTriples 'L' (joinSpace ("ssh".toList :: rest)) = Lres)
    (hR : scanTriples 'R' (joinSpace ("ssh".toList :: rest)) = Rres)
    (hD : findFlagNum 'D' (joinSpace ("ssh".toList :: rest)) = Dres)
    (hp : findFlagNum 'p' (joinSpace ("ssh".toList :: rest)) = pres) :
    parse_ssh_command E =
        Except.ok (parsedConfig (pyNormalize E) u hh) ∧
      (parsedConfig (pyNormalize E) u hh).type =
        (if Dres.isSome then "dynamic".toList
         else if Rres ≠ [] then "remote".toList else "local".toList) ∧
      (parsedConfig (pyNormalize E) u hh).forwards =
        (if 2 ≤ Rres.length then Rres.map mkRemoteForward
         else if 2 ≤ Lres.length then Lres.map mkLocalForward else []) ∧
      (parsedConfig (pyNormalize E) u hh).ssh_user = u ∧
      (parsedConfig (pyNormalize E) u hh).ssh_host = hh ∧
      (parsedConfig (pyNormalize E) u hh).ssh_port =
        pres.getD ("22".toList) := by
  have hpref : ("ssh".toList).isPrefixOf (pyNormalize E) = true := by
    rw [hN]
    exact ssh_prefix_tokens rest hrest
  have hUH' : findUserHost (pyNormalize E) = some (u, hh) := by
    rw [hN]
    exact hUH
  refine ⟨parse_ok_intro E u hh hpref hUH', ?_, ?_,
    parsedConfig_ssh_user _ u hh, parsedConfig_ssh_host _ u hh, ?_⟩
  · rw [parsedConfig_type, hN, hD, hR]
  · rw [parsedConfig_forwards, hN, hL, hR]
  · rw [parsedConfig_ssh_port, hN]
    simp only [hp]
    cases pres <;> rfl

/-- The scanner results on the token list of an exported `-L` command:
`ssh -N` then `-L spec` pairs, the optional `-p port`, and `user@host`. -/
lemma reparse_facts_L (ms : List Triple) (hms : ∀ m ∈ ms, tripleWF m)
    (hat : ∀ m ∈ ms, '@' ∉ m.2.1) (port : PyStr)
    (hport : port = "22".toList ∨
      (port ≠ [] ∧ ∀ ch ∈ port, isDigit ch = true))
    (u hh : PyStr) (hun : u ≠ [])
    (hu : ∀ ch ∈ u, notWs ch = true ∧ ch ≠ '@')
    (hhn : hh ≠ []) (hhw : ∀ ch ∈ hh, notWs ch = true) :
    scanTriples 'L' (joinSpace (["ssh".toList, "-N".toList] ++
        ((ms.map fun m => [('-' :: 'L' :: []), specStr m]).flatten ++
          ((if port ≠ "22".toList then ["-p".toList, port] else []) ++
            [u ++ '@' :: hh])))) = ms ∧
    scanTriples 'R' (joinSpace (["ssh".toList, "-N".toList] ++
        ((ms.map fun m => [('-' :: 'L' :: []), specStr m]).flatten ++
          ((if port ≠ "22".toList then ["-p".toList, port] else []) ++
            [u ++ '@' :: hh])))) = [] ∧
    findFlagNum 'D' (joinSpace (["ssh".toList, "-N".toList] ++
        ((ms.map fun m => [('-' :: 'L' :: []), specStr m]).flatten ++
          ((if port ≠ "22".toList then ["-p".toList, port] else []) ++
            [u ++ '@' :: hh])))) = none ∧
    findFlagNum 'p' (joinSpace (["ssh".toList, "-N".toList] ++
        ((ms.map fun m => [('-' :: 'L' :: []), specStr m]).flatten ++
          ((if port ≠ "22".toList then ["-p".toList, port] else []) ++
            [u ++ '@' :: hh])))) =
      (if port ≠ "22".toList then some port else none) ∧
    findUserHost (joinSpace (["ssh".toList, "-N".toList] ++
        ((ms.map fun m => [('-' :: 'L' :: []), specStr m]).flatten ++
          ((if port ≠ "22".toList then ["-p".toList, port] else []) ++
            [u ++ '@' :: hh])))) = some (u, hh) := by
  have hUHw : ∀ ch ∈ u ++ '@' :: hh, notWs ch = true := by
    intro ch hc
    rcases List.mem_append.mp hc with h1 | h1
    · exact (hu ch h1).1
    · rcases List.mem_cons.mp h1 with rfl | h2
      · decide
      · exact hhw ch h2
  have htail_ne :
      (ms.map fun m => [('-' :: 'L' :: []), specStr m]).flatten ++
        ((if port ≠ "22".toList then ["-p".toList, port] else []) ++
          [u ++ '@' :: hh]) ≠ [] := by
    simp
  have hPTL : ∀ t ∈ (if port ≠ "22".toList then ["-p".toList, port]
      else ([] : List PyStr)), skipTok ['L'] t :=
    skipTok_PT ['L'] (by decide) port hport
  have hPTR : ∀ t ∈ (if port ≠ "22".toList then ["-p".toList, port]
      else ([] : List PyStr)), skipTok ['R'] t :=
    skipTok_PT ['R'] (by decide) port hport
  have hPTD : ∀ t ∈ (if port ≠ "22".toList then ["-p".toList, port]
      else ([] : List PyStr)), skipTok ['D'] t :=
    skipTok_PT ['D'] (by decide) port hport
  have hPT0 : ∀ t ∈ (if port ≠ "22".toList then ["-p".toList, port]
      else ([] : List PyStr)), skipTok [] t :=
    skipTok_PT [] (by simp) port hport
  have hFR : ∀ t ∈ (ms.map fun m =>
      [('-' :: 'L' :: []), specStr m]).flatten, skipTok ['R'] t :=
    skipTok_pairsFlat ['R'] 'L' (by decide) (by decide) (by decide) ms hms hat
  have hFD : ∀ t ∈ (ms.map fun m =>
      [('-' :: 'L' :: []), specStr m]).flatten, skipTok ['D'] t :=
    skipTok_pairsFlat ['D'] 'L' (by decide) (by decide) (by decide) ms hms hat
  have hFp : ∀ t ∈ (ms.map fun m =>
      [('-' :: 'L' :: []), specStr m]).flatten, skipTok ['p'] t :=
    skipTok_pairsFlat ['p'] 'L' (by decide) (by decide) (by decide) ms hms hat
  have hF0 : ∀ t ∈ (ms.map fun m =>
      [('-' :: 'L' :: []), specStr m]).flatten, skipTok [] t :=
    skipTok_pairsFlat [] 'L' (by simp) (by decide) (by decide) ms hms hat
  have hassoc : (["ssh".toList, "-N".toList] ++
      ((ms.map fun m => [('-' :: 'L' :: []), specStr m]).flatten ++
        ((if port ≠ "22".toList then ["-p".toList, port] else []) ++
          [u ++ '@' :: hh]))) =
      (["ssh".toList, "-N".toList] ++
        ((ms.map fun m => [('-' :: 'L' :: []), specStr m]).flatten ++
          (if port ≠ "22".toList then ["-p".toList, port] else []))) ++
        [u ++ '@' :: hh] := by
    simp [List.append_assoc]
  refine ⟨?_, ?_, ?_, ?_, ?_⟩
  · have e1 := scanTriples_skip_tokens 'L' (by decide) ['L'] (by simp)
      ["ssh".toList, "-N".toList] _ (by decide) htail_ne
    have e2 := scanTriples_pairs 'L' (by decide) ms
      ((if port ≠ "22".toList then ["-p".toList, port] else []) ++
        [u ++ '@' :: hh]) (by simp) hms
    have e3 := scanTriples_tokens_nil 'L' (by decide)
      (if port ≠ "22".toList then ["-p".toList, port] else [])
      (u ++ '@' :: hh) hPTL hUHw
    exact e1.trans (e2.trans (by rw [e3, List.append_nil]))
  · rw [hassoc]
    exact scanTriples_tokens_nil 'R' (by decide) _ _
      (List.forall_mem_append.mpr ⟨by decide,
        List.forall_mem_append.mpr ⟨hFR, hPTR⟩⟩) hUHw
  · rw [hassoc]
    exact findFlagNum_tokens_none 'D' (by decide) _ _
      (List.forall_mem_append.mpr ⟨by decide,
        List.forall_mem_append.mpr ⟨hFD, hPTD⟩⟩) hUHw
  · by_cases h22 : port ≠ "22".toList
    · rw [if_pos h22, if_pos h22]
      have hdig : port ≠ [] ∧ ∀ ch ∈ port, isDigit ch = true := by
        rcases hport with hq | hq
        · exact absurd hq h22
        · exact hq
      have e1 := findFlagNum_skip_tokens 'p' (by decide) ['p'] (by simp)
        (["ssh".toList, "-N".toList] ++
          (ms.map fun m => [('-' :: 'L' :: []), specStr m]).flatten)
        (["-p".toList, port] ++ [u ++ '@' :: hh])
        (List.forall_mem_append.mpr ⟨by decide, hFp⟩) (by simp)
      have e2 := findFlagNum_pair 'p' port [u ++ '@' :: hh] hdig.1 hdig.2
        (by simp)
      exact (e1.trans e2 : _)
    · rw [if_neg h22, if_neg h22]
      have hassoc2 : (["ssh".toList, "-N".toList] ++
          ((ms.map fun m => [('-' :: 'L' :: []), specStr m]).flatten ++
            (([] : List PyStr) ++ [u ++ '@' :: hh]))) =
          (["ssh".toList, "-N".toList] ++
            (ms.map fun m => [('-' :: 'L' :: []), specStr m]).flatten) ++
            [u ++ '@' :: hh] := by
        simp [List.append_assoc]
      rw [hassoc2]
      exact findFlagNum_tokens_none 'p' (by decide) _ _
        (List.forall_mem_append.mpr ⟨by decide, hFp⟩) hUHw
  · rw [hassoc]
    exact findUserHost_tokens _ u hh
      (List.forall_mem_append.mpr ⟨by decide,
        List.forall_mem_append.mpr ⟨hF0, hPT0⟩⟩) hun hu hhn hhw

/-- The scanner results on the token list of an exported `-R` command:
`ssh -N` then `-R spec` pairs, the optional `-p port`, and `user@host`. -/
lemma reparse_facts_R (ms : List Triple) (hms : ∀ m ∈ ms, tripleWF m)
    (hat : ∀ m ∈ ms, '@' ∉ m.2.1) (port : PyStr)
    (hport : port = "22".toList ∨
      (port ≠ [] ∧ ∀ ch ∈ port, isDigit ch = true))
    (u hh : PyStr) (hun : u ≠ [])
    (hu : ∀ ch ∈ u, notWs ch = true ∧ ch ≠ '@')
    (hhn : hh ≠ []) (hhw : ∀ ch ∈ hh, notWs ch = true) :
    scanTriples 'R' (joinSpace (["ssh".toList, "-N".toList] ++
        ((ms.map fun m => [('-' :: 'R' :: []), specStr m]).flatten ++
          ((if port ≠ "22".toList then ["-p".toList, port] else []) ++
            [u ++ '@' :: hh])))) = ms ∧
    scanTriples 'L' (joinSpace (["ssh".toList, "-N".toList] ++
        ((ms.map fun m => [('-' :: 'R' :: []), specStr m]).flatten ++
          ((if port ≠ "22".toList then ["-p".toList, port] else []) ++
            [u ++ '@' :: hh])))) = [] ∧
    findFlagNum 'D' (joinSpace (["ssh".toList, "-N".toList] ++
        ((ms.map fun m => [('-' :: 'R' :: []), specStr m]).flatten ++
          ((if port ≠ "22".toList then ["-p".toList, port] else []) ++
            [u ++ '@' :: hh])))) = none ∧
    findFlagNum 'p' (joinSpace (["ssh".toList, "-N".toList] ++
        ((ms.map fun m => [('-' :: 'R' :: []), specStr m]).flatten ++
          ((if port ≠ "22".toList then ["-p".toList, port] else []) ++
            [u ++ '@' :: hh])))) =
      (if port ≠ "22".toList then some port else none) ∧
    findUserHost (joinSpace (["ssh".toList, "-N".toList] ++
        ((ms.map fun m => [('-' :: 'R' :: []), specStr m]).flatten ++
          ((if port ≠ "22".toList then ["-p".toList, port] else []) ++
            [u ++ '@' :: hh])))) = some (u, hh) := by
  have hUHw : ∀ ch ∈ u ++ '@' :: hh, notWs ch = true := by
    intro ch hc
    rcases List.mem_append.mp hc with h1 | h1
    · exact (hu ch h1).1
    · rcases List.mem_cons.mp h1 with rfl | h2
      · decide
      · exact hhw ch h2
  have htail_ne :
      (ms.map fun m => [('-' :: 'R' :: []), specStr m]).flatten ++
        ((if port ≠ "22".toList then ["-p".toList, port] else []) ++
          [u ++ '@' :: hh]) ≠ [] := by
    simp
  have hPTL : ∀ t ∈ (if port ≠ "22".toList then ["-p".toList, port]
      else ([] : List PyStr)), skipTok ['L'] t :=
    skipTok_PT ['L'] (by decide) port hport
  have hPTR : ∀ t ∈ (if port ≠ "22".toList then ["-p".toList, port]
      else ([] : List PyStr)), skipTok ['R'] t :=
    skipTok_PT ['R'] (by decide) port hport
  have hPTD : ∀ t ∈ (if port ≠ "22".toList then ["-p".toList, port]
      else ([] : List PyStr)), skipTok ['D'] t :=
    skipTok_PT ['D'] (by decide) port hport
  have hPT0 : ∀ t ∈ (if port ≠ "22".toList then ["-p".toList, port]
      else ([] : List PyStr)), skipTok [] t :=
    skipTok_PT [] (by simp) port hport
  have hFL : ∀ t ∈ (ms.map fun m =>
      [('-' :: 'R' :: []), specStr m]).flatten, skipTok ['L'] t :=
    skipTok_pairsFlat ['L'] 'R' (by decide) (by decide) (by decide) ms hms hat
  have hFD : ∀ t ∈ (ms.map fun m =>
      [('-' :: 'R' :: []), specStr m]).flatten, skipTok ['D'] t :=
    skipTok_pairsFlat ['D'] 'R' (by decide) (by decide) (by decide) ms hms hat
  have hFp : ∀ t ∈ (ms.map fun m =>
      [('-' :: 'R' :: []), specStr m]).flatten, skipTok ['p'] t :=
    skipTok_pairsFlat ['p'] 'R' (by decide) (by decide) (by decide) ms hms hat
  have hF0 : ∀ t ∈ (ms.map fun m =>
      [('-' :: 'R' :: []), specStr m]).flatten, skipTok [] t :=
    skipTok_pairsFlat [] 'R' (by simp) (by decide) (by decide) ms hms hat
  have hassoc : (["ssh".toList, "-N".toList] ++
      ((ms.map fun m => [('-' :: 'R' :: []), specStr m]).flatten ++
        ((if port ≠ "22".toList then ["-p".toList, port] else []) ++
          [u ++ '@' :: hh]))) =
      (["ssh".toList, "-N".toList] ++
        ((ms.map fun m => [('-' :: 'R' :: []), specStr m]).flatten ++
          (if port ≠ "22".toList then ["-p".toList, port] else []))) ++
        [u ++ '@' :: hh] := by
    simp [List.append_assoc]
  refine ⟨?_, ?_, ?_, ?_, ?_⟩
  · have e1 := scanTriples_skip_tokens 'R' (by decide) ['R'] (by simp)
      ["ssh".toList, "-N".toList] _ (by decide) htail_ne
    have e2 := scanTriples_pairs 'R' (by decide) ms
      ((if port ≠ "22".toList then ["-p".toList, port] else []) ++
        [u ++ '@' :: hh]) (by simp) hms
    have e3 := scanTriples_tokens_nil 'R' (by decide)
      (if port ≠ "22".toList then ["-p".toList, port] else [])
      (u ++ '@' :: hh) hPTR hUHw
    exact e1.trans (e2.trans (by rw [e3, List.append_nil]))
  · rw [hassoc]
    exact scanTriples_tokens_nil 'L' (by decide) _ _
      (List.forall_mem_append.mpr ⟨by decide,
        List.forall_mem_append.mpr ⟨hFL, hPTL⟩⟩) hUHw
  · rw [hassoc]
    exact findFlagNum_tokens_none 'D' (by decide) _ _
      (List.forall_mem_append.mpr ⟨by decide,
        List.forall_mem_append.mpr ⟨hFD, hPTD⟩⟩) hUHw
  · by_cases h22 : port ≠ "22".toList
    · rw [if_pos h22, if_pos h22]
      have hdig : port ≠ [] ∧ ∀ ch ∈ port, isDigit ch = true := by
        rcases hport with hq | hq
        · exact absurd hq h22
        · exact hq
      have e1 := findFlagNum_skip_tokens 'p' (by decide) ['p'] (by simp)
        (["ssh".toList, "-N".toList] ++
          (ms.map fun m => [('-' :: 'R' :: []), specStr m]).flatten)
        (["-p".toList, port] ++ [u ++ '@' :: hh])
        (List.forall_mem_append.mpr ⟨by decide, hFp⟩) (by simp)
      have e2 := findFlagNum_pair 'p' port [u ++ '@' :: hh] hdig.1 hdig.2
        (by simp)
      exact (e1.trans e2 : _)
    · rw [if_neg h22, if_neg h22]
      have hassoc2 : (["ssh".toList, "-N".toList] ++
          ((ms.map fun m => [('-' :: 'R' :: []), specStr m]).flatten ++
            (([] : List PyStr) ++ [u ++ '@' :: hh]))) =
          (["ssh".toList, "-N".toList] ++
            (ms.map fun m => [('-' :: 'R' :: []), specStr m]).flatten) ++
            [u ++ '@' :: hh] := by
        simp [List.append_assoc]
      rw [hassoc2]
      exact findFlagNum_tokens_none 'p' (by decide) _ _
        (List.forall_mem_append.mpr ⟨by decide, hFp⟩) hUHw
  · rw [hassoc]
    exact findUserHost_tokens _ u hh
      (List.forall_mem_append.mpr ⟨by decide,
        List.forall_mem_append.mpr ⟨hF0, hPT0⟩⟩) hun hu hhn hhw

/-- The scanner results on the token list of an exported `-D` command. -/
lemma reparse_facts_dynamic (lp : PyStr) (hlpn : lp ≠ [])
    (hlpd : ∀ ch ∈ lp, isDigit ch = true) (port : PyStr)
    (hport : port = "22".toList ∨
      (port ≠ [] ∧ ∀ ch ∈ port, isDigit ch = true))
    (u hh : PyStr) (hun : u ≠ [])
    (hu : ∀ ch ∈ u, notWs ch = true ∧ ch ≠ '@')
    (hhn : hh ≠ []) (hhw : ∀ ch ∈ hh, notWs ch = true) :
    scanTriples 'L' (joinSpace (["ssh".toList, "-N".toList] ++
        (["-D".toList, lp] ++
          ((if port ≠ "22".toList then ["-p".toList, port] else []) ++
            [u ++ '@' :: hh])))) = [] ∧
    scanTriples 'R' (joinSpace (["ssh".toList, "-N".toList] ++
        (["-D".toList, lp] ++
          ((if port ≠ "22".toList then ["-p".toList, port] else []) ++
            [u ++ '@' :: hh])))) = [] ∧
    findFlagNum 'D' (joinSpace (["ssh".toList, "-N".toList] ++
        (["-D".toList, lp] ++
          ((if port ≠ "22".toList then ["-p".toList, port] else []) ++
            [u ++ '@' :: hh])))) = some lp ∧
    findFlagNum 'p' (joinSpace (["ssh".toList, "-N".toList] ++
        (["-D".toList, lp] ++
          ((if port ≠ "22".toList then ["-p".toList, port] else []) ++
            [u ++ '@' :: hh])))) =
      (if port ≠ "22".toList then some port else none) ∧
    findUserHost (joinSpace (["ssh".toList, "-N".toList] ++
        (["-D".toList, lp] ++
          ((if port ≠ "22".toList then ["-p".toList, port] else []) ++
            [u ++ '@' :: hh])))) = some (u, hh) := by
  have hUHw : ∀ ch ∈ u ++ '@' :: hh, notWs ch = true := by
    intro ch hc
    rcases List.mem_append.mp hc with h1 | h1
    · exact (hu ch h1).1
    · rcases List.mem_cons.mp h1 with rfl | h2
      · decide
      · exact hhw ch h2
  have hDl : ∀ (fls : List Char),
      (∀ fl ∈ fls, isDigit fl = false ∧ fl ≠ 'D') →
      ∀ t ∈ (["-D".toList, lp] : List PyStr), skipTok fls t := by
    intro fls hfls t ht
    rcases List.mem_cons.mp ht with rfl | ht2
    · refine ⟨by decide, by decide, ?_, by decide⟩
      intro fl hfl heq
      rw [show (("-D".toList).getLast? : Option Char) = some 'D' from rfl,
        Option.some.injEq] at heq
      exact (hfls fl hfl).2 heq.symm
    · rcases List.mem_cons.mp ht2 with rfl | ht3
      · exact skipTok_digits fls _ hlpn hlpd (fun fl hfl => (hfls fl hfl).1)
      · simp at ht3
  refine ⟨?_, ?_, ?_, ?_, ?_⟩
  · exact scanTriples_tokens_nil 'L' (by decide)
      (["ssh".toList, "-N".toList] ++ (["-D".toList, lp] ++
        (if port ≠ "22".toList then ["-p".toList, port] else []))) _
      (List.forall_mem_append.mpr ⟨by decide,
        List.forall_mem_append.mpr ⟨hDl ['L'] (by decide),
          skipTok_PT ['L'] (by decide) port hport⟩⟩) hUHw
  · exact scanTriples_tokens_nil 'R' (by decide)
      (["ssh".toList, "-N".toList] ++ (["-D".toList, lp] ++
        (if port ≠ "22".toList then ["-p".toList, port] else []))) _
      (List.forall_mem_append.mpr ⟨by decide,
        List.forall_mem_append.mpr ⟨hDl ['R'] (by decide),
          skipTok_PT ['R'] (by decide) port hport⟩⟩) hUHw
  · have e1 := findFlagNum_skip_tokens 'D' (by decide) ['D'] (by simp)
      ["ssh".toList, "-N".toList]
      (["-D".toList, lp] ++
        ((if port ≠ "22".toList then ["-p".toList, port] else []) ++
          [u ++ '@' :: hh])) (by decide) (by simp)
    have e2 := findFlagNum_pair 'D' lp
      ((if port ≠ "22".toList then ["-p".toList, port] else []) ++
        [u ++ '@' :: hh]) hlpn hlpd (by simp)
    exact (e1.trans e2 : _)
  · by_cases h22 : port ≠ "22".toList
    · rw [if_pos h22, if_pos h22]
      have hdig : port ≠ [] ∧ ∀ ch ∈ port, isDigit ch = true := by
        rcases hport with hq | hq
        · exact absurd hq h22
        · exact hq
      have e1 := findFlagNum_skip_tokens 'p' (by decide) ['p'] (by simp)
        (["ssh".toList, "-N".toList] ++ ["-D".toList, lp])
        (["-p".toList, port] ++ [u ++ '@' :: hh])
        (List.forall_mem_append.mpr ⟨by decide, hDl ['p'] (by decide)⟩)
        (by simp)
      have e2 := findFlagNum_pair 'p' port [u ++ '@' :: hh] hdig.1 hdig.2
        (by simp)
      exact (e1.trans e2 : _)
    · rw [if_neg h22, if_neg h22]
      exact findFlagNum_tokens_none 'p' (by decide)
        (["ssh".toList, "-N".toList] ++ ["-D".toList, lp]) _
        (List.forall_mem_append.mpr ⟨by decide, hDl ['p'] (by decide)⟩)
        hUHw
  · exact findUserHost_tokens
      (["ssh".toList, "-N".toList] ++ (["-D".toList, lp] ++
        (if port ≠ "22".toList then ["-p".toList, port] else []))) u hh
      (List.forall_mem_append.mpr ⟨by decide,
        List.forall_mem_append.mpr ⟨hDl [] (by simp),
          skipTok_PT [] (by simp) port hport⟩⟩) hun hu hhn hhw

/-- The scanner results on the token list of the exported command of a
pristine legacy-local configuration (`-L :localhost:`). -/
lemma reparse_facts_pristine (port : PyStr)
    (hport : port = "22".toList ∨
      (port ≠ [] ∧ ∀ ch ∈ port, isDigit ch = true))
    (u hh : PyStr) (hun : u ≠ [])
    (hu : ∀ ch ∈ u, notWs ch = true ∧ ch ≠ '@')
    (hhn : hh ≠ []) (hhw : ∀ ch ∈ hh, notWs ch = true) :
    scanTriples 'L' (joinSpace (["ssh".toList, "-N".toList] ++
        (["-L".toList, ":localhost:".toList] ++
          ((if port ≠ "22".toList then ["-p".toList, port] else []) ++
            [u ++ '@' :: hh])))) = [] ∧
    scanTriples 'R' (joinSpace (["ssh".toList, "-N".toList] ++
        (["-L".toList, ":localhost:".toList] ++
          ((if port ≠ "22".toList then ["-p".toList, port] else []) ++
            [u ++ '@' :: hh])))) = [] ∧
    findFlagNum 'D' (joinSpace (["ssh".toList, "-N".toList] ++
        (["-L".toList, ":localhost:".toList] ++
          ((if port ≠ "22".toList then ["-p".toList, port] else []) ++
            [u ++ '@' :: hh])))) = none ∧
    findFlagNum 'p' (joinSpace (["ssh".toList, "-N".toList] ++
        (["-L".toList, ":localhost:".toList] ++
          ((if port ≠ "22".toList then ["-p".toList, port] else []) ++
            [u ++ '@' :: hh])))) =
      (if port ≠ "22".toList then some port else none) ∧
    findUserHost (joinSpace (["ssh".toList, "-N".toList] ++
        (["-L".toList, ":localhost:".toList] ++
          ((if port ≠ "22".toList then ["-p".toList, port] else []) ++
            [u ++ '@' :: hh])))) = some (u, hh) := by
  have hUHw : ∀ ch ∈ u ++ '@' :: hh, notWs ch = true := by
    intro ch hc
    rcases List.mem_append.mp hc with h1 | h1
    · exact (hu ch h1).1
    · rcases List.mem_cons.mp h1 with rfl | h2
      · decide
      · exact hhw ch h2
  refine ⟨?_, ?_, ?_, ?_, ?_⟩
  · have e1 := scanTriples_skip_tokens 'L' (by decide) ['L'] (by simp)
      ["ssh".toList, "-N".toList]
      (["-L".toList, ":localhost:".toList] ++
        ((if port ≠ "22".toList then ["-p".toList, port] else []) ++
          [u ++ '@' :: hh])) (by decide) (by simp)
    have e2 := scanTriples_flagtok_nondigit 'L' (by decide)
      ("localhost:".toList)
      ((if port ≠ "22".toList then ["-p".toList, port] else []) ++
        [u ++ '@' :: hh]) (by simp)
    have e3 := scanTriples_tokens_nil 'L' (by decide)
      (":localhost:".toList ::
        (if port ≠ "22".toList then ["-p".toList, port] else []))
      (u ++ '@' :: hh)
      (by
        intro t ht
        rcases List.mem_cons.mp ht with rfl | ht2
        · decide
        · exact skipTok_PT ['L'] (by decide) port hport t ht2) hUHw
    exact e1.trans (e2.trans e3)
  · exact scanTriples_tokens_nil 'R' (by decide)
      (["ssh".toList, "-N".toList] ++
        (["-L".toList, ":localhost:".toList] ++
          (if port ≠ "22".toList then ["-p".toList, port] else []))) _
      (List.forall_mem_append.mpr ⟨by decide,
        List.forall_mem_append.mpr ⟨by decide,
          skipTok_PT ['R'] (by decide) port hport⟩⟩) hUHw
  · exact findFlagNum_tokens_none 'D' (by decide)
      (["ssh".toList, "-N".toList] ++
        (["-L".toList, ":localhost:".toList] ++
          (if port ≠ "22".toList then ["-p".toList, port] else []))) _
      (List.forall_mem_append.mpr ⟨by decide,
        List.forall_mem_append.mpr ⟨by decide,
          skipTok_PT ['D'] (by decide) port hport⟩⟩) hUHw
  · by_cases h22 : port ≠ "22".toList
    · rw [if_pos h22, if_pos h22]
      have hdig : port ≠ [] ∧ ∀ ch ∈ port, isDigit ch = true := by
        rcases hport with hq | hq
        · exact absurd hq h22
        · exact hq
      have e1 := findFlagNum_skip_tokens 'p' (by decide) ['p'] (by simp)
        (["ssh".toList, "-N".toList] ++
          ["-L".toList, ":localhost:".toList])
        (["-p".toList, port] ++ [u ++ '@' :: hh]) (by decide) (by simp)
      have e2 := findFlagNum_pair 'p' port [u ++ '@' :: hh] hdig.1 hdig.2
        (by simp)
      exact (e1.trans e2 : _)
    · rw [if_neg h22, if_neg h22]
      exact findFlagNum_tokens_none 'p' (by decide)
        (["ssh".toList, "-N".toList] ++
          ["-L".toList, ":localhost:".toList]) _ (by decide) hUHw
  · exact findUserHost_tokens
      (["ssh".toList, "-N".toList] ++
        (["-L".toList, ":localhost:".toList] ++
          (if port ≠ "22".toList then ["-p".toList, port] else []))) u hh
      (List.forall_mem_append.mpr ⟨by decide,
        List.forall_mem_append.mpr ⟨by decide,
          skipTok_PT [] (by simp) port hport⟩⟩) hun hu hhn hhw

/-- Round trip for a `local` configuration with stored forwards. -/
lemma roundtrip_local_multi (c : Config)
    (htype : c.type = "local".toList)
    (hfw2 : 2 ≤ c.forwards.length)
    (hfwwf : ∀ f ∈ c.forwards, fwdWF f)
    (hfwat : ∀ f ∈ c.forwards, '@' ∉ f.remote_host)
    (hun : c.ssh_user ≠ [])
    (huw : ∀ ch ∈ c.ssh_user, uhUserChar ch = true)
    (hhn : c.ssh_host ≠ []) (hhw : strNoWs c.ssh_host)
    (hport : c.ssh_port = "22".toList ∨
      (c.ssh_port ≠ [] ∧ ∀ ch ∈ c.ssh_port, isDigit ch = true))
    (hlpw : strNoWs c.local_port) (hrhw : strNoWs c.remote_host)
    (hrpw : strNoWs c.remote_port) :
    ∃ c2, parse_ssh_command (export_to_command c) = Except.ok c2 ∧
      c2.type = c.type ∧ c2.forwards = c.forwards ∧
      c2.ssh_user = c.ssh_user ∧ c2.ssh_host = c.ssh_host ∧
      c2.ssh_port = c.ssh_port := by
  have hfs : c.forwards ≠ [] := by
    intro h0
    rw [h0] at hfw2
    simp at hfw2
  have huwn : strNoWs c.ssh_user :=
    fun ch hc => (uhUserChar_elim ch (huw ch hc)).1
  have huat : ∀ ch ∈ c.ssh_user, notWs ch = true ∧ ch ≠ '@' :=
    fun ch hc => uhUserChar_elim ch (huw ch hc)
  have hpw : strNoWs c.ssh_port := by
    rcases hport with hq | ⟨_, hd⟩
    · rw [hq]; decide
    · exact fun ch hc => digit_notWs ch (hd ch hc)
  have hpn : c.ssh_port ≠ [] := by
    rcases hport with hq | ⟨hq, _⟩
    · rw [hq]; decide
    · exact hq
  have hfw' : ∀ f ∈ c.forwards, strNoWs f.local_port ∧
      strNoWs f.remote_host ∧ strNoWs f.remote_port := by
    intro f hf
    obtain ⟨-, d1, -, d2, -, d3⟩ := hfwwf f hf
    exact ⟨fun ch hc => digit_notWs ch (d1 ch hc),
      fun ch hc => hostChar_notWs ch (d2 ch hc),
      fun ch hc => digit_notWs ch (d3 ch hc)⟩
  have hsplit := splitWs_export c huwn hhw hpw hpn hlpw hrhw hrpw hfw'
    (fun hz _ => absurd htype hz)
  have hmid : midTokens c =
      ((c.forwards.map tripleOfL).map fun m =>
        [('-' :: 'L' :: []), specStr m]).flatten := by
    simp only [midTokens]
    rw [if_pos htype, if_pos hfs]
    exact pairs_eq_L c.forwards
  have hmswf : ∀ m ∈ c.forwards.map tripleOfL, tripleWF m := by
    intro m hm
    obtain ⟨f, hf, rfl⟩ := List.mem_map.mp hm
    exact hfwwf f hf
  have hmsat : ∀ m ∈ c.forwards.map tripleOfL, '@' ∉ m.2.1 := by
    intro m hm
    obtain ⟨f, hf, rfl⟩ := List.mem_map.mp hm
    exact hfwat f hf
  have hN : pyNormalize (export_to_command c) =
      joinSpace (["ssh".toList, "-N".toList] ++
        (((c.forwards.map tripleOfL).map fun m =>
            [('-' :: 'L' :: []), specStr m]).flatten ++
          ((if c.ssh_port ≠ "22".toList then ["-p".toList, c.ssh_port]
            else []) ++
            [c.ssh_user ++ '@' :: c.ssh_host]))) := by
    show joinSpace (splitWs (export_to_command c)) = _
    rw [hsplit, hmid]
    simp [List.append_assoc]
  obtain ⟨g1, g2, g3, g4, g5⟩ := reparse_facts_L
    (c.forwards.map tripleOfL) hmswf hmsat c.ssh_port hport
    c.ssh_user c.ssh_host hun huat hhn hhw
  obtain ⟨hparse, hty, hfwd, hus, hhost, hports⟩ :=
    parse_fields_of_scans (export_to_command c)
      ("-N".toList ::
        (((c.forwards.map tripleOfL).map fun m =>
            [('-' :: 'L' :: []), specStr m]).flatten ++
          ((if c.ssh_port ≠ "22".toList then ["-p".toList, c.ssh_port]
            else []) ++
            [c.ssh_user ++ '@' :: c.ssh_host])))
      (by simp) hN c.ssh_user c.ssh_host g5 _ _ _ _ g1 g2 g3 g4
  refine ⟨_, hparse, ?_, ?_, hus, hhost, ?_⟩
  · rw [hty, htype]
    simp
  · rw [hfwd]
    rw [if_neg (by simp), if_pos (by simpa using hfw2), List.map_map]
    have hcomp : (mkLocalForward ∘ tripleOfL) = id :=
      funext (fun f => mkLocalForward_tripleOfL f)
    rw [hcomp, List.map_id]
  · rw [hports]
    by_cases h22 : c.ssh_port ≠ "22".toList
    · rw [if_pos h22]
      rfl
    · rw [if_neg h22]
      rw [not_not] at h22
      exact h22.symm

/-- Round trip for a `remote` configuration with stored forwards. -/
lemma roundtrip_remote_multi (c : Config)
    (htype : c.type = "remote".toList)
    (hfw2 : 2 ≤ c.forwards.length)
    (hfwwf : ∀ f ∈ c.forwards, fwdWF f)
    (hfwat : ∀ f ∈ c.forwards, '@' ∉ f.remote_host)
    (hun : c.ssh_user ≠ [])
    (huw : ∀ ch ∈ c.ssh_user, uhUserChar ch = true)
    (hhn : c.ssh_host ≠ []) (hhw : strNoWs c.ssh_host)
    (hport : c.ssh_port = "22".toList ∨
      (c.ssh_port ≠ [] ∧ ∀ ch ∈ c.ssh_port, isDigit ch = true))
    (hlpw : strNoWs c.local_port) (hrhw : strNoWs c.remote_host)
    (hrpw : strNoWs c.remote_port) :
    ∃ c2, parse_ssh_command (export_to_command c) = Except.ok c2 ∧
      c2.type = c.type ∧ c2.forwards = c.forwards ∧
      c2.ssh_user = c.ssh_user ∧ c2.ssh_host = c.ssh_host ∧
      c2.ssh_port = c.ssh_port := by
  have hfs : c.forwards ≠ [] := by
    intro h0
    rw [h0] at hfw2
    simp at hfw2
  have huwn : strNoWs c.ssh_user :=
    fun ch hc => (uhUserChar_elim ch (huw ch hc)).1
  have huat : ∀ ch ∈ c.ssh_user, notWs ch = true ∧ ch ≠ '@' :=
    fun ch hc => uhUserChar_elim ch (huw ch hc)
  have hpw : strNoWs c.ssh_port := by
    rcases hport with hq | ⟨_, hd⟩
    · rw [hq]; decide
    · exact fun ch hc => digit_notWs ch (hd ch hc)
  have hpn : c.ssh_port ≠ [] := by
    rcases hport with hq | ⟨hq, _⟩
    · rw [hq]; decide
    · exact hq
  have hfw' : ∀ f ∈ c.forwards, strNoWs f.local_port ∧
      strNoWs f.remote_host ∧ strNoWs f.remote_port := by
    intro f hf
    obtain ⟨-, d1, -, d2, -, d3⟩ := hfwwf f hf
    exact ⟨fun ch hc => digit_notWs ch (d1 ch hc),
      fun ch hc => hostChar_notWs ch (d2 ch hc),
      fun ch hc => digit_notWs ch (d3 ch hc)⟩
  have hloc : c.type ≠ "local".toList := by
    rw [htype]; decide
  have hsplit := splitWs_export c huwn hhw hpw hpn hlpw hrhw hrpw hfw'
    (fun _ hz => absurd htype hz)
  have hmid : midTokens c =
      ((c.forwards.map tripleOfR).map fun m =>
        [('-' :: 'R' :: []), specStr m]).flatten := by
    simp only [midTokens]
    rw [if_neg hloc, if_pos htype, if_pos hfs]
    exact pairs_eq_R c.forwards
  have hmswf : ∀ m ∈ c.forwards.map tripleOfR, tripleWF m := by
    intro m hm
    obtain ⟨f, hf, rfl⟩ := List.mem_map.mp hm
    obtain ⟨a1, a2, a3, a4, a5, a6⟩ := hfwwf f hf
    exact ⟨a5, a6, a3, a4, a1, a2⟩
  have hmsat : ∀ m ∈ c.forwards.map tripleOfR, '@' ∉ m.2.1 := by
    intro m hm
    obtain ⟨f, hf, rfl⟩ := List.mem_map.mp hm
    exact hfwat f hf
  have hN : pyNormalize (export_to_command c) =
      joinSpace (["ssh".toList, "-N".toList] ++
        (((c.forwards.map tripleOfR).map fun m =>
            [('-' :: 'R' :: []), specStr m]).flatten ++
          ((if c.ssh_port ≠ "22".toList then ["-p".toList, c.ssh_port]
            else []) ++
            [c.ssh_user ++ '@' :: c.ssh_host]))) := by
    show joinSpace (splitWs (export_to_command c)) = _
    rw [hsplit, hmid]
    simp [List.append_assoc]
  obtain ⟨g1, g2, g3, g4, g5⟩ := reparse_facts_R
    (c.forwards.map tripleOfR) hmswf hmsat c.ssh_port hport
    c.ssh_user c.ssh_host hun huat hhn hhw
  obtain ⟨hparse, hty, hfwd, hus, hhost, hports⟩ :=
    parse_fields_of_scans (export_to_command c)
      ("-N".toList ::
        (((c.forwards.map tripleOfR).map fun m =>
            [('-' :: 'R' :: []), specStr m]).flatten ++
          ((if c.ssh_port ≠ "22".toList then ["-p".toList, c.ssh_port]
            else []) ++
            [c.ssh_user ++ '@' :: c.ssh_host])))
      (by simp) hN c.ssh_user c.ssh_host g5 _ _ _ _ g2 g1 g3 g4
  refine ⟨_, hparse, ?_, ?_, hus, hhost, ?_⟩
  · rw [hty, htype]
    have hne : c.forwards.map tripleOfR ≠ [] := by
      simpa using hfs
    simp [hne]
  · rw [hfwd]
    rw [if_pos (by simpa using hfw2), List.map_map]
    have hcomp : (mkRemoteForward ∘ tripleOfR) = id :=
      funext (fun f => mkRemoteForward_tripleOfR f)
    rw [hcomp, List.map_id]
  · rw [hports]
    by_cases h22 : c.ssh_port ≠ "22".toList
    · rw [if_pos h22]
      rfl
    · rw [if_neg h22]
      rw [not_not] at h22
      exact h22.symm

/-- Round trip for a legacy single-forward `local` configuration. -/
lemma roundtrip_local_single (c : Config)
    (htype : c.type = "local".toList)
    (hfwnil : c.forwards = [])
    (hlpn : c.local_port ≠ [])
    (hlpd : ∀ ch ∈ c.local_port, isDigit ch = true)
    (hrhn : c.remote_host ≠ [])
    (hrhc : ∀ ch ∈ c.remote_host, hostChar ch = true)
    (hrhat : '@' ∉ c.remote_host)
    (hrpn : c.remote_port ≠ [])
    (hrpd : ∀ ch ∈ c.remote_port, isDigit ch = true)
    (hun : c.ssh_user ≠ [])
    (huw : ∀ ch ∈ c.ssh_user, uhUserChar ch = true)
    (hhn : c.ssh_host ≠ []) (hhw : strNoWs c.ssh_host)
    (hport : c.ssh_port = "22".toList ∨
      (c.ssh_port ≠ [] ∧ ∀ ch ∈ c.ssh_port, isDigit ch = true)) :
    ∃ c2, parse_ssh_command (export_to_command c) = Except.ok c2 ∧
      c2.type = c.type ∧ c2.forwards = c.forwards ∧
      c2.ssh_user = c.ssh_user ∧ c2.ssh_host = c.ssh_host ∧
      c2.ssh_port = c.ssh_port := by
  have huwn : strNoWs c.ssh_user :=
    fun ch hc => (uhUserChar_elim ch (huw ch hc)).1
  have huat : ∀ ch ∈ c.ssh_user, notWs ch = true ∧ ch ≠ '@' :=
    fun ch hc => uhUserChar_elim ch (huw ch hc)
  have hpw : strNoWs c.ssh_port := by
    rcases hport with hq | ⟨_, hd⟩
    · rw [hq]; decide
    · exact fun ch hc => digit_notWs ch (hd ch hc)
  have hpn : c.ssh_port ≠ [] := by
    rcases hport with hq | ⟨hq, _⟩
    · rw [hq]; decide
    · exact hq
  have hfw' : ∀ f ∈ c.forwards, strNoWs f.local_port ∧
      strNoWs f.remote_host ∧ strNoWs f.remote_port := by
    rw [hfwnil]
    intro f hf
    simp at hf
  have hsplit := splitWs_export c huwn hhw hpw hpn
    (fun ch hc => digit_notWs ch (hlpd ch hc))
    (fun ch hc => hostChar_notWs ch (hrhc ch hc))
    (fun ch hc => digit_notWs ch (hrpd ch hc)) hfw'
    (fun hz _ => absurd htype hz)
  have hleg : legacyLspec c =
      specStr (c.local_port, c.remote_host, c.remote_port) := by
    simp [legacyLspec, specStr, List.append_assoc]
  have hmid : midTokens c =
      (([(c.local_port, c.remote_host, c.remote_port)].map fun m =>
        [('-' :: 'L' :: []), specStr m]).flatten) := by
    simp only [midTokens]
    rw [if_pos htype, if_neg (by simp [hfwnil]), hleg]
    rfl
  have hmswf : ∀ m ∈ [((c.local_port, c.remote_host, c.remote_port) :
      Triple)], tripleWF m := by
    intro m hm
    rcases List.mem_singleton.mp hm with rfl
    exact ⟨hlpn, hlpd, hrhn, hrhc, hrpn, hrpd⟩
  have hmsat : ∀ m ∈ [((c.local_port, c.remote_host, c.remote_port) :
      Triple)], '@' ∉ m.2.1 := by
    intro m hm
    rcases List.mem_singleton.mp hm with rfl
    exact hrhat
  have hN : pyNormalize (export_to_command c) =
      joinSpace (["ssh".toList, "-N".toList] ++
        (([((c.local_port, c.remote_host, c.remote_port) :
              Triple)].map fun m =>
            [('-' :: 'L' :: []), specStr m]).flatten ++
          ((if c.ssh_port ≠ "22".toList then ["-p".toList, c.ssh_port]
            else []) ++
            [c.ssh_user ++ '@' :: c.ssh_host]))) := by
    show joinSpace (splitWs (export_to_command c)) = _
    rw [hsplit, hmid]
    simp [List.append_assoc]
  obtain ⟨g1, g2, g3, g4, g5⟩ := reparse_facts_L
    [((c.local_port, c.remote_host, c.remote_port) : Triple)]
    hmswf hmsat c.ssh_port hport c.ssh_user c.ssh_host hun huat hhn hhw
  obtain ⟨hparse, hty, hfwd, hus, hhost, hports⟩ :=
    parse_fields_of_scans (export_to_command c)
      ("-N".toList ::
        (([((c.local_port, c.remote_host, c.remote_port) :
              Triple)].map fun m =>
            [('-' :: 'L' :: []), specStr m]).flatten ++
          ((if c.ssh_port ≠ "22".toList then ["-p".toList, c.ssh_port]
            else []) ++
            [c.ssh_user ++ '@' :: c.ssh_host])))
      (by simp) hN c.ssh_user c.ssh_host g5 _ _ _ _ g1 g2 g3 g4
  refine ⟨_, hparse, ?_, ?_, hus, hhost, ?_⟩
  · rw [hty, htype]
    simp
  · rw [hfwd]
    simp
    exact hfwnil
  · rw [hports]
    by_cases h22 : c.ssh_port ≠ "22".toList
    · rw [if_pos h22]
      rfl
    · rw [if_neg h22]
      rw [not_not] at h22
      exact h22.symm

/-- Round trip for a legacy single-forward `remote` configuration. -/
lemma roundtrip_remote_single (c : Config)
    (htype : c.type = "remote".toList)
    (hfwnil : c.forwards = [])
    (hlpn : c.local_port ≠ [])
    (hlpd : ∀ ch ∈ c.local_port, isDigit ch = true)
    (hrhn : c.remote_host ≠ [])
    (hrhc : ∀ ch ∈ c.remote_host, hostChar ch = true)
    (hrhat : '@' ∉ c.remote_host)
    (hrpn : c.remote_port ≠ [])
    (hrpd : ∀ ch ∈ c.remote_port, isDigit ch = true)
    (hun : c.ssh_user ≠ [])
    (huw : ∀ ch ∈ c.ssh_user, uhUserChar ch = true)
    (hhn : c.ssh_host ≠ []) (hhw : strNoWs c.ssh_host)
    (hport : c.ssh_port = "22".toList ∨
      (c.ssh_port ≠ [] ∧ ∀ ch ∈ c.ssh_port, isDigit ch = true)) :
    ∃ c2, parse_ssh_command (export_to_command c) = Except.ok c2 ∧
      c2.type = c.type ∧ c2.forwards = c.forwards ∧
      c2.ssh_user = c.ssh_user ∧ c2.ssh_host = c.ssh_host ∧
      c2.ssh_port = c.ssh_port := by
  have huwn : strNoWs c.ssh_user :=
    fun ch hc => (uhUserChar_elim ch (huw ch hc)).1
  have huat : ∀ ch ∈ c.ssh_user, notWs ch = true ∧ ch ≠ '@' :=
    fun ch hc => uhUserChar_elim ch (huw ch hc)
  have hpw : strNoWs c.ssh_port := by
    rcases hport with hq | ⟨_, hd⟩
    · rw [hq]; decide
    · exact fun ch hc => digit_notWs ch (hd ch hc)
  have hpn : c.ssh_port ≠ [] := by
    rcases hport with hq | ⟨hq, _⟩
    · rw [hq]; decide
    · exact hq
  have hfw' : ∀ f ∈ c.forwards, strNoWs f.local_port ∧
      strNoWs f.remote_host ∧ strNoWs f.remote_port := by
    rw [hfwnil]
    intro f hf
    simp at hf
  have hloc : c.type ≠ "local".toList := by
    rw [htype]; decide
  have hsplit := splitWs_export c huwn hhw hpw hpn
    (fun ch hc => digit_notWs ch (hlpd ch hc))
    (fun ch hc => hostChar_notWs ch (hrhc ch hc))
    (fun ch hc => digit_notWs ch (hrpd ch hc)) hfw'
    (fun _ hz => absurd htype hz)
  have hleg : legacyRspec c =
      specStr (c.remote_port, c.remote_host, c.local_port) := by
    simp [legacyRspec, specStr, List.append_assoc]
  have hmid : midTokens c =
      (([(c.remote_port, c.remote_host, c.local_port)].map fun m =>
        [('-' :: 'R' :: []), specStr m]).flatten) := by
    simp only [midTokens]
    rw [if_neg hloc, if_pos htype, if_neg (by simp [hfwnil]), hleg]
    rfl
  have hmswf : ∀ m ∈ [((c.remote_port, c.remote_host, c.local_port) :
      Triple)], tripleWF m := by
    intro m hm
    rcases List.mem_singleton.mp hm with rfl
    exact ⟨hrpn, hrpd, hrhn, hrhc, hlpn, hlpd⟩
  have hmsat : ∀ m ∈ [((c.remote_port, c.remote_host, c.local_port) :
      Triple)], '@' ∉ m.2.1 := by
    intro m hm
    rcases List.mem_singleton.mp hm with rfl
    exact hrhat
  have hN : pyNormalize (export_to_command c) =
      joinSpace (["ssh".toList, "-N".toList] ++
        (([((c.remote_port, c.remote_host, c.local_port) :
              Triple)].map fun m =>
            [('-' :: 'R' :: []), specStr m]).flatten ++
          ((if c.ssh_port ≠ "22".toList then ["-p".toList, c.ssh_port]
            else []) ++
            [c.ssh_user ++ '@' :: c.ssh_host]))) := by
    show joinSpace (splitWs (export_to_command c)) = _
    rw [hsplit, hmid]
    simp [List.append_assoc]
  obtain ⟨g1, g2, g3, g4, g5⟩ := reparse_facts_R
    [((c.remote_port, c.remote_host, c.local_port) : Triple)]
    hmswf hmsat c.ssh_port hport c.ssh_user c.ssh_host hun huat hhn hhw
  obtain ⟨hparse, hty, hfwd, hus, hhost, hports⟩ :=
    parse_fields_of_scans (export_to_command c)
      ("-N".toList ::
        (([((c.remote_port, c.remote_host, c.local_port) :
              Triple)].map fun m =>
            [('-' :: 'R' :: []), specStr m]).flatten ++
          ((if c.ssh_port ≠ "22".toList then ["-p".toList, c.ssh_port]
            else []) ++
            [c.ssh_user ++ '@' :: c.ssh_host])))
      (by simp) hN c.ssh_user c.ssh_host g5 _ _ _ _ g2 g1 g3 g4
  refine ⟨_, hparse, ?_, ?_, hus, hhost, ?_⟩
  · rw [hty, htype]
    simp
  · rw [hfwd]
    simp
    exact hfwnil
  · rw [hports]
    by_cases h22 : c.ssh_port ≠ "22".toList
    · rw [if_pos h22]
      rfl
    · rw [if_neg h22]
      rw [not_not] at h22
      exact h22.symm

/-- Round trip for a pristine legacy `local` configuration (no forward
flag was present in the original command). -/
lemma roundtrip_pristine (c : Config)
    (htype : c.type = "local".toList)
    (hfwnil : c.forwards = [])
    (hlp : c.local_port = [])
    (hrh : c.remote_host = "localhost".toList)
    (hrp : c.remote_port = [])
    (hun : c.ssh_user ≠ [])
    (huw : ∀ ch ∈ c.ssh_user, uhUserChar ch = true)
    (hhn : c.ssh_host ≠ []) (hhw : strNoWs c.ssh_host)
    (hport : c.ssh_port = "22".toList ∨
      (c.ssh_port ≠ [] ∧ ∀ ch ∈ c.ssh_port, isDigit ch = true)) :
    ∃ c2, parse_ssh_command (export_to_command c) = Except.ok c2 ∧
      c2.type = c.type ∧ c2.forwards = c.forwards ∧
      c2.ssh_user = c.ssh_user ∧ c2.ssh_host = c.ssh_host ∧
      c2.ssh_port = c.ssh_port := by
  have huwn : strNoWs c.ssh_user :=
    fun ch hc => (uhUserChar_elim ch (huw ch hc)).1
  have huat : ∀ ch ∈ c.ssh_user, notWs ch = true ∧ ch ≠ '@' :=
    fun ch hc => uhUserChar_elim ch (huw ch hc)
  have hpw : strNoWs c.ssh_port := by
    rcases hport with hq | ⟨_, hd⟩
    · rw [hq]; decide
    · exact fun ch hc => digit_notWs ch (hd ch hc)
  have hpn : c.ssh_port ≠ [] := by
    rcases hport with hq | ⟨hq, _⟩
    · rw [hq]; decide
    · exact hq
  have hfw' : ∀ f ∈ c.forwards, strNoWs f.local_port ∧
      strNoWs f.remote_host ∧ strNoWs f.remote_port := by
    rw [hfwnil]
    intro f hf
    simp at hf
  have hsplit := splitWs_export c huwn hhw hpw hpn
    (by rw [hlp]; intro ch hc; simp at hc)
    (by rw [hrh]; decide)
    (by rw [hrp]; intro ch hc; simp at hc) hfw'
    (fun hz _ => absurd htype hz)
  have hmid : midTokens c = ["-L".toList, ":localhost:".toList] := by
    simp only [midTokens]
    rw [if_pos htype, if_neg (by simp [hfwnil])]
    rw [show legacyLspec c = ":localhost:".toList from by
      simp only [legacyLspec, hlp, hrh, hrp]; rfl]
  have hN : pyNormalize (export_to_command c) =
      joinSpace (["ssh".toList, "-N".toList] ++
        (["-L".toList, ":localhost:".toList] ++
          ((if c.ssh_port ≠ "22".toList then ["-p".toList, c.ssh_port]
            else []) ++
            [c.ssh_user ++ '@' :: c.ssh_host]))) := by
    show joinSpace (splitWs (export_to_command c)) = _
    rw [hsplit, hmid]
    simp [List.append_assoc]
  obtain ⟨g1, g2, g3, g4, g5⟩ := reparse_facts_pristine
    c.ssh_port hport c.ssh_user c.ssh_host hun huat hhn hhw
  obtain ⟨hparse, hty, hfwd, hus, hhost, hports⟩ :=
    parse_fields_of_scans (export_to_command c)
      ("-N".toList ::
        (["-L".toList, ":localhost:".toList] ++
          ((if c.ssh_port ≠ "22".toList then ["-p".toList, c.ssh_port]
            else []) ++
            [c.ssh_user ++ '@' :: c.ssh_host])))
      (by simp) hN c.ssh_user c.ssh_host g5 _ _ _ _ g1 g2 g3 g4
  refine ⟨_, hparse, ?_, ?_, hus, hhost, ?_⟩
  · rw [hty, htype]
    simp
  · rw [hfwd]
    simp
    exact hfwnil
  · rw [hports]
    by_cases h22 : c.ssh_port ≠ "22".toList
    · rw [if_pos h22]
      rfl
    · rw [if_neg h22]
      rw [not_not] at h22
      exact h22.symm

/-- Round trip for a `dynamic` configuration with no stored forwards. -/
lemma roundtrip_dynamic (c : Config)
    (htype : c.type = "dynamic".toList)
    (hfwnil : c.forwards = [])
    (hlpn : c.local_port ≠ [])
    (hlpd : ∀ ch ∈ c.local_port, isDigit ch = true)
    (hrhw : strNoWs c.remote_host) (hrpw : strNoWs c.remote_port)
    (hun : c.ssh_user ≠ [])
    (huw : ∀ ch ∈ c.ssh_user, uhUserChar ch = true)
    (hhn : c.ssh_host ≠ []) (hhw : strNoWs c.ssh_host)
    (hport : c.ssh_port = "22".toList ∨
      (c.ssh_port ≠ [] ∧ ∀ ch ∈ c.ssh_port, isDigit ch = true)) :
    ∃ c2, parse_ssh_command (export_to_command c) = Except.ok c2 ∧
      c2.type = c.type ∧ c2.forwards = c.forwards ∧
      c2.ssh_user = c.ssh_user ∧ c2.ssh_host = c.ssh_host ∧
      c2.ssh_port = c.ssh_port := by
  have huwn : strNoWs c.ssh_user :=
    fun ch hc => (uhUserChar_elim ch (huw ch hc)).1
  have huat : ∀ ch ∈ c.ssh_user, notWs ch = true ∧ ch ≠ '@' :=
    fun ch hc => uhUserChar_elim ch (huw ch hc)
  have hpw : strNoWs c.ssh_port := by
    rcases hport with hq | ⟨_, hd⟩
    · rw [hq]; decide
    · exact fun ch hc => digit_notWs ch (hd ch hc)
  have hpn : c.ssh_port ≠ [] := by
    rcases hport with hq | ⟨hq, _⟩
    · rw [hq]; decide
    · exact hq
  have hfw' : ∀ f ∈ c.forwards, strNoWs f.local_port ∧
      strNoWs f.remote_host ∧ strNoWs f.remote_port := by
    rw [hfwnil]
    intro f hf
    simp at hf
  have hloc : c.type ≠ "local".toList := by
    rw [htype]; decide
  have hrem : c.type ≠ "remote".toList := by
    rw [htype]; decide
  have hsplit := splitWs_export c huwn hhw hpw hpn
    (fun ch hc => digit_notWs ch (hlpd ch hc)) hrhw hrpw hfw'
    (fun _ _ => hlpn)
  have hmid : midTokens c = ["-D".toList, c.local_port] := by
    simp only [midTokens]
    rw [if_neg hloc, if_neg hrem]
  have hN : pyNormalize (export_to_command c) =
      joinSpace (["ssh".toList, "-N".toList] ++
        (["-D".toList, c.local_port] ++
          ((if c.ssh_port ≠ "22".toList then ["-p".toList, c.ssh_port]
            else []) ++
            [c.ssh_user ++ '@' :: c.ssh_host]))) := by
    show joinSpace (splitWs (export_to_command c)) = _
    rw [hsplit, hmid]
    simp [List.append_assoc]
  obtain ⟨g1, g2, g3, g4, g5⟩ := reparse_facts_dynamic
    c.local_port hlpn hlpd c.ssh_port hport
    c.ssh_user c.ssh_host hun huat hhn hhw
  obtain ⟨hparse, hty, hfwd, hus, hhost, hports⟩ :=
    parse_fields_of_scans (export_to_command c)
      ("-N".toList ::
        (["-D".toList, c.local_port] ++
          ((if c.ssh_port ≠ "22".toList then ["-p".toList, c.ssh_port]
            else []) ++
            [c.ssh_user ++ '@' :: c.ssh_host])))
      (by simp) hN c.ssh_user c.ssh_host g5 _ _ _ _ g1 g2 g3 g4
  refine ⟨_, hparse, ?_, ?_, hus, hhost, ?_⟩
  · rw [hty, htype]
    simp
  · rw [hfwd]
    simp
    exact hfwnil
  · rw [hports]
    by_cases h22 : c.ssh_port ≠ "22".toList
    · rw [if_pos h22]
      rfl
    · rw [if_neg h22]
      rw [not_not] at h22
      exact h22.symm

/-- C2: corrected round-trip property.  For every configuration `c`
produced by `parse_ssh_command` on some command text, provided (i) `c`
is not a dynamic spec that still carries forwards (the `-D` branch does
not discard previously collected forwards, and the export then drops
them), and (ii) no stored remote host contains `@` (an `@` inside a
forward spec would capture the `user@host` search of the re-parse),
re-parsing the exported command succeeds and reproduces the type, the
ordered forwards, the user, the host and the port; the `name` field is
excluded. -/
theorem c2_roundtrip (cmd : PyStr) (c : Config)
    (hp : parse_ssh_command cmd = Except.ok c)
    (hdynfw : c.type = "dynamic".toList → c.forwards = [])
    (hat1 : '@' ∉ c.remote_host)
    (hat2 : ∀ f ∈ c.forwards, '@' ∉ f.remote_host) :
    ∃ c2, parse_ssh_command (export_to_command c) = Except.ok c2 ∧
      c2.type = c.type ∧ c2.forwards = c.forwards ∧
      c2.ssh_user = c.ssh_user ∧ c2.ssh_host = c.ssh_host ∧
      c2.ssh_port = c.ssh_port := by
  obtain ⟨u, hh, hUH, rfl⟩ := parse_ok_elim cmd c hp
  obtain ⟨⟨hun0, huw0⟩, hhn0, hhw0⟩ := findUserHost_wf _ _ _ hUH
  have hun : (parsedConfig (pyNormalize cmd) u hh).ssh_user ≠ [] := by
    rw [parsedConfig_ssh_user]
    exact hun0
  have huw : ∀ ch ∈ (parsedConfig (pyNormalize cmd) u hh).ssh_user,
      uhUserChar ch = true := by
    rw [parsedConfig_ssh_user]
    exact huw0
  have hhn : (parsedConfig (pyNormalize cmd) u hh).ssh_host ≠ [] := by
    rw [parsedConfig_ssh_host]
    exact hhn0
  have hhw : strNoWs (parsedConfig (pyNormalize cmd) u hh).ssh_host := by
    show ∀ ch ∈ (parsedConfig (pyNormalize cmd) u hh).ssh_host,
      notWs ch = true
    rw [parsedConfig_ssh_host]
    exact hhw0
  have hport := parsedConfig_port_class (pyNormalize cmd) u hh
  have hscal := parsedConfig_scalars_noWs (pyNormalize cmd) u hh
  have hfwwf := parsedConfig_forwards_wf (pyNormalize cmd) u hh
  cases hD : findFlagNum 'D' (pyNormalize cmd) with
  | some p =>
      have htype : (parsedConfig (pyNormalize cmd) u hh).type =
          "dynamic".toList := by
        rw [parsedConfig_type, hD]
        simp
      have hfwnil := hdynfw htype
      have hlp := parsedConfig_D_lport (pyNormalize cmd) u hh p hD
      have hpdw := findFlagNum_wf 'D' (pyNormalize cmd) p hD
      exact roundtrip_dynamic _ htype hfwnil
        (by rw [hlp]; exact hpdw.1) (by rw [hlp]; exact hpdw.2)
        hscal.2.1 hscal.2.2 hun huw hhn hhw hport
  | none =>
      cases hR : scanTriples 'R' (pyNormalize cmd) with
      | cons r1 rs =>
          have htype : (parsedConfig (pyNormalize cmd) u hh).type =
              "remote".toList := by
            rw [parsedConfig_type, hD, hR]
            simp
          cases rs with
          | cons r2 rs' =>
              have hfw2 :
                  2 ≤ (parsedConfig (pyNormalize cmd) u hh).forwards.length := by
                rw [parsedConfig_forwards, hR,
                  if_pos (by simp [List.length_cons])]
                simp [List.length_map, List.length_cons]
              exact roundtrip_remote_multi _ htype hfw2 hfwwf hat2
                hun huw hhn hhw hport hscal.1 hscal.2.1 hscal.2.2
          | nil =>
              by_cases hL2 :
                  2 ≤ (scanTriples 'L' (pyNormalize cmd)).length
              · have hfw2 :
                    2 ≤ (parsedConfig (pyNormalize cmd) u hh).forwards.length := by
                  rw [parsedConfig_forwards, hR, if_neg (by simp),
                    if_pos hL2, List.length_map]
                  exact hL2
                exact roundtrip_remote_multi _ htype hfw2 hfwwf hat2
                  hun huw hhn hhw hport hscal.1 hscal.2.1 hscal.2.2
              · have hfwnil :
                    (parsedConfig (pyNormalize cmd) u hh).forwards = [] := by
                  rw [parsedConfig_forwards, hR, if_neg (by simp),
                    if_neg hL2]
                have hscal2 :=
                  parsedConfig_R_single (pyNormalize cmd) u hh r1 hD hR
                have hr1wf : tripleWF r1 :=
                  scanTriples_wf 'R' (pyNormalize cmd) r1 (by rw [hR]; simp)
                exact roundtrip_remote_single _ htype hfwnil
                  (by rw [hscal2.2.2]; exact hr1wf.2.2.2.2.1)
                  (by rw [hscal2.2.2]; exact hr1wf.2.2.2.2.2)
                  (by rw [hscal2.2.1]; exact hr1wf.2.2.1)
                  (by rw [hscal2.2.1]; exact hr1wf.2.2.2.1)
                  hat1
                  (by rw [hscal2.1]; exact hr1wf.1)
                  (by rw [hscal2.1]; exact hr1wf.2.1)
                  hun huw hhn hhw hport
      | nil =>
          cases hL : scanTriples 'L' (pyNormalize cmd) with
          | nil =>
              have htype : (parsedConfig (pyNormalize cmd) u hh).type =
                  "local".toList := by
                rw [parsedConfig_type, hD, hR]
                simp
              have hfwnil :
                  (parsedConfig (pyNormalize cmd) u hh).forwards = [] := by
                rw [parsedConfig_forwards, hR, hL]
                simp
              have hscal3 :=
                parsedConfig_pristine (pyNormalize cmd) u hh hD hR hL
              exact roundtrip_pristine _ htype hfwnil hscal3.1
                hscal3.2.1 hscal3.2.2 hun huw hhn hhw hport
          | cons m1 ms1 =>
              have htype : (parsedConfig (pyNormalize cmd) u hh).type =
                  "local".toList := by
                rw [parsedConfig_type, hD, hR]
                simp
              cases ms1 with
              | nil =>
                  have hfwnil :
                      (parsedConfig (pyNormalize cmd) u hh).forwards = [] := by
                    rw [parsedConfig_forwards, hR, hL]
                    simp
                  have hscal4 :=
                    parsedConfig_L_single (pyNormalize cmd) u hh m1 hD hR hL
                  have hm1wf : tripleWF m1 :=
                    scanTriples_wf 'L' (pyNormalize cmd) m1
                      (by rw [hL]; simp)
                  exact roundtrip_local_single _ htype hfwnil
                    (by rw [hscal4.1]; exact hm1wf.1)
                    (by rw [hscal4.1]; exact hm1wf.2.1)
                    (by rw [hscal4.2.1]; exact hm1wf.2.2.1)
                    (by rw [hscal4.2.1]; exact hm1wf.2.2.2.1)
                    hat1
                    (by rw [hscal4.2.2]; exact hm1wf.2.2.2.2.1)
                    (by rw [hscal4.2.2]; exact hm1wf.2.2.2.2.2)
                    hun huw hhn hhw hport
              | cons m2 ms2 =>
                  have hfw2 :
                      2 ≤ (parsedConfig (pyNormalize cmd) u hh).forwards.length := by
                    rw [parsedConfig_forwards, hR, hL, if_neg (by simp),
                      if_pos (by simp [List.length_cons]), List.length_map]
                    simp only [List.length_cons]
                    omega
                  exact roundtrip_local_multi _ htype hfw2 hfwwf hat2
                    hun huw hhn hhw hport hscal.1 hscal.2.1 hscal.2.2

/-- C2 witness: the single-forward command
`ssh -L 8080:localhost:80 alice@example.com` parses to a concrete local
configuration satisfying the side conditions, and its export re-parses
to an equivalent configuration. -/
theorem c2_roundtrip_witness :
    ∃ c2, parse_ssh_command (export_to_command exampleLocalConfig) =
        Except.ok c2 ∧
      c2.type = exampleLocalConfig.type ∧
      c2.forwards = exampleLocalConfig.forwards ∧
      c2.ssh_user = exampleLocalConfig.ssh_user ∧
      c2.ssh_host = exampleLocalConfig.ssh_host ∧
      c2.ssh_port = exampleLocalConfig.ssh_port :=
  c2_roundtrip ("ssh -L 8080:localhost:80 alice@example.com".toList)
    exampleLocalConfig (by decide) (by decide) (by decide) (by decide)

end EasySSH
